import Mathlib

/-!
Verification of the ADF (Atlassian Document Format) core of `mcp-atlassian`:
a shallow embedding of `adf/document.py`, `adf/finder.py`, `adf/writer.py`,
`adf/validator.py` and the relevant parts of `adf/types.py` / `adf/constants.py`,
with theorems settling the specification claims about them.

JSON values are modelled by `JVal`; Python dictionaries by ordered association
lists with first-occurrence lookup (Python dicts never hold duplicate keys, and
our operations preserve that).  Pydantic models (`ADFNodeModel`, `ADFMarkModel`,
`ADFDocumentModel`) are modelled with an explicit "set" flag per optional field,
mirroring pydantic's `model_fields_set`, since `to_dict` dumps with
`exclude_unset=True, exclude_none=True`.
-/

set_option maxHeartbeats 1000000

namespace ADF

/-- JSON-like values (Python objects reachable in ADF data). -/
inductive JVal where
  | null
  | bool (b : Bool)
  | num (n : Int)
  | str (s : String)
  | arr (xs : List JVal)
  | obj (kvs : List (String × JVal))

namespace JVal

mutual

def beq : JVal → JVal → Bool
  | .null, .null => true
  | .bool a, .bool b => a == b
  | .num a, .num b => a == b
  | .str a, .str b => a == b
  | .arr xs, .arr ys => beqList xs ys
  | .obj xs, .obj ys => beqPairs xs ys
  | _, _ => false

def beqList : List JVal → List JVal → Bool
  | [], [] => true
  | x :: xs, y :: ys => beq x y && beqList xs ys
  | _, _ => false

def beqPairs : List (String × JVal) → List (String × JVal) → Bool
  | [], [] => true
  | (k, v) :: xs, (k2, v2) :: ys => k == k2 && beq v v2 && beqPairs xs ys
  | _, _ => false

end

mutual

theorem beq_refl : ∀ a : JVal, beq a a = true
  | .null => by simp [beq]
  | .bool b => by simp [beq]
  | .num n => by simp [beq]
  | .str s => by simp [beq]
  | .arr xs => by simp [beq]; exact beqList_refl xs
  | .obj kvs => by simp [beq]; exact beqPairs_refl kvs

theorem beqList_refl : ∀ xs : List JVal, beqList xs xs = true
  | [] => by simp [beqList]
  | x :: xs => by
    simp [beqList]
    exact ⟨beq_refl x, beqList_refl xs⟩

theorem beqPairs_refl : ∀ xs : List (String × JVal), beqPairs xs xs = true
  | [] => by simp [beqPairs]
  | (k, v) :: xs => by
    simp [beqPairs]
    exact ⟨beq_refl v, beqPairs_refl xs⟩

end

mutual

theorem eq_of_beq : ∀ a b : JVal, beq a b = true → a = b
  | .null, b, h => by cases b <;> simp_all [beq]
  | .bool x, b, h => by cases b <;> simp_all [beq]
  | .num x, b, h => by cases b <;> simp_all [beq]
  | .str x, b, h => by cases b <;> simp_all [beq]
  | .arr xs, b, h => by
    cases b with
    | arr ys => rw [eqList_of_beqList xs ys (by simpa [beq] using h)]
    | null | bool _ | num _ | str _ | obj _ => simp_all [beq]
  | .obj xs, b, h => by
    cases b with
    | obj ys => rw [eqPairs_of_beqPairs xs ys (by simpa [beq] using h)]
    | null | bool _ | num _ | str _ | arr _ => simp_all [beq]

theorem eqList_of_beqList : ∀ xs ys : List JVal, beqList xs ys = true → xs = ys
  | [], ys, h => by cases ys <;> simp_all [beqList]
  | x :: xs, ys, h => by
    cases ys with
    | nil => simp [beqList] at h
    | cons y ys =>
      simp only [beqList, Bool.and_eq_true] at h
      rw [eq_of_beq x y h.1, eqList_of_beqList xs ys h.2]

theorem eqPairs_of_beqPairs :
    ∀ xs ys : List (String × JVal), beqPairs xs ys = true → xs = ys
  | [], ys, h => by cases ys <;> simp_all [beqPairs]
  | (k, v) :: xs, ys, h => by
    cases ys with
    | nil => simp [beqPairs] at h
    | cons p ys =>
      obtain ⟨k2, v2⟩ := p
      simp only [beqPairs, Bool.and_eq_true, beq_iff_eq] at h
      rw [h.1.1, eq_of_beq v v2 h.1.2, eqPairs_of_beqPairs xs ys h.2]

end

instance : DecidableEq JVal := fun a b =>
  decidable_of_iff (beq a b = true)
    ⟨eq_of_beq a b, fun h => h ▸ beq_refl a⟩

/-- Python truthiness of a value that is not `None`/`False`-like. -/
def isNull : JVal → Bool
  | .null => true
  | _ => false

end JVal

/-- Python `d.get(k)` on a dict modelled as an ordered association list:
first occurrence wins. -/
def dGet (kvs : List (String × JVal)) (k : String) : Option JVal :=
  (kvs.find? (fun p => p.1 == k)).map (·.2)

/-- Python `d[k] = v`: overwrite in place if the key exists, else append. -/
def dSet (kvs : List (String × JVal)) (k : String) (v : JVal) :
    List (String × JVal) :=
  if kvs.any (fun p => p.1 == k) then
    kvs.map (fun p => if p.1 == k then (p.1, v) else p)
  else kvs ++ [(k, v)]

/-- Python `{**a, **b}`: start from `a`, then insert every pair of `b`. -/
def dMerge (a b : List (String × JVal)) : List (String × JVal) :=
  b.foldl (fun acc p => dSet acc p.1 p.2) a

/-- Python truthiness of a JSON value. -/
def truthy : JVal → Bool
  | .null => false
  | .bool b => b
  | .num n => n != 0
  | .str s => !s.isEmpty
  | .arr xs => !xs.isEmpty
  | .obj kvs => !kvs.isEmpty

/-- `constants.NODE_TYPES` (the keys of the table). -/
def nodeTypes : List String :=
  ["blockquote", "bulletList", "codeBlock", "heading", "mediaGroup",
   "mediaSingle", "orderedList", "panel", "paragraph", "rule", "table",
   "date", "emoji", "hardBreak", "inlineCard", "mention", "status", "text",
   "doc", "listItem", "tableRow", "tableCell", "tableHeader",
   "extension", "bodiedExtension", "inlineExtension"]

/-- `constants.MARK_TYPES` (the keys of the table). -/
def markTypes : List String :=
  ["code", "em", "link", "strike", "strong", "subsup", "textColor",
   "backgroundColor", "underline", "alignment"]

/-- `types.ADFMarkModel` after validation.  `attrsSet` mirrors pydantic's
`model_fields_set`; `attrs = none` means the field was set to `None`. -/
structure ADFMarkModel where
  type : String
  attrsSet : Bool
  attrs : Option (List (String × JVal))
  extra : List (String × JVal)
deriving DecidableEq

/-- `types.ADFNodeModel` after validation.  Each optional field carries a
"set" flag (pydantic `model_fields_set`); value `none` means set to `None`,
while an unset field holds its `default_factory` value. -/
inductive ADFNodeModel where
  | mk (type : String)
       (attrsSet : Bool) (attrs : Option (List (String × JVal)))
       (contentSet : Bool) (content : Option (List ADFNodeModel))
       (textSet : Bool) (text : Option String)
       (marksSet : Bool) (marks : Option (List ADFMarkModel))
       (extra : List (String × JVal))

namespace ADFNodeModel

def type : ADFNodeModel → String
  | .mk t _ _ _ _ _ _ _ _ _ => t

def attrsSet : ADFNodeModel → Bool
  | .mk _ aS _ _ _ _ _ _ _ _ => aS

def attrs : ADFNodeModel → Option (List (String × JVal))
  | .mk _ _ a _ _ _ _ _ _ _ => a

def contentSet : ADFNodeModel → Bool
  | .mk _ _ _ cS _ _ _ _ _ _ => cS

def content : ADFNodeModel → Option (List ADFNodeModel)
  | .mk _ _ _ _ c _ _ _ _ _ => c

def textSet : ADFNodeModel → Bool
  | .mk _ _ _ _ _ tS _ _ _ _ => tS

def text : ADFNodeModel → Option String
  | .mk _ _ _ _ _ _ tx _ _ _ => tx

def marksSet : ADFNodeModel → Bool
  | .mk _ _ _ _ _ _ _ mS _ _ => mS

def marks : ADFNodeModel → Option (List ADFMarkModel)
  | .mk _ _ _ _ _ _ _ _ m _ => m

def extra : ADFNodeModel → List (String × JVal)
  | .mk _ _ _ _ _ _ _ _ _ ex => ex

/-- The runtime value of `node.content` seen by traversal code:
an unset field holds the `default_factory` empty list, a field set to
`None` is `none`, and a set list is itself. -/
def contentVal (n : ADFNodeModel) : Option (List ADFNodeModel) :=
  match n.content with
  | some l => some l
  | none => if n.contentSet then none else some []

/-- Replace the runtime content list, preserving the set flag (in Python the
list object is mutated in place, which does not touch `model_fields_set`). -/
def withContent (n : ADFNodeModel) (l : List ADFNodeModel) : ADFNodeModel :=
  match n with
  | .mk t aS a cS _ tS tx mS m ex => .mk t aS a cS (some l) tS tx mS m ex

/-- Replace the runtime text value (Python `element.text = new_text`;
`validate_assignment` marks the field as set). -/
def withText (n : ADFNodeModel) (s : String) : ADFNodeModel :=
  match n with
  | .mk t aS a cS c _ _ mS m ex => .mk t aS a cS c true (some s) mS m ex

end ADFNodeModel

/-- `types.ADFDocumentModel` after validation.  `version` is always `1` and
`type` always `"doc"` (they are `Literal` fields), so only their set flags
are recorded. -/
structure ADFDocumentModel where
  versionSet : Bool
  typeSet : Bool
  contentSet : Bool
  content : List ADFNodeModel
  extra : List (String × JVal)

/-- Declared field names of `ADFNodeModel`. -/
def nodeFieldNames : List String := ["type", "attrs", "content", "text", "marks"]

/-- Declared field names of `ADFMarkModel`. -/
def markFieldNames : List String := ["type", "attrs"]

/-- Declared field names of `ADFDocumentModel`. -/
def docFieldNames : List String := ["version", "type", "content"]

/-- `ADFMarkModel.model_validate`: the input must be a dict, `type` a known
mark type, `attrs` absent, `None`, or a dict; unknown keys become extras. -/
def parseMark (j : JVal) : Option ADFMarkModel :=
  match j with
  | .obj kvs =>
    match dGet kvs "type" with
    | some (.str t) =>
      if t ∈ markTypes then
        match dGet kvs "attrs" with
        | none => some ⟨t, false, some [],
            kvs.filter (fun p => decide (p.1 ∉ markFieldNames))⟩
        | some .null => some ⟨t, true, none,
            kvs.filter (fun p => decide (p.1 ∉ markFieldNames))⟩
        | some (.obj as) => some ⟨t, true, some as,
            kvs.filter (fun p => decide (p.1 ∉ markFieldNames))⟩
        | some _ => none
      else none
    | _ => none
  | _ => none

/-- Validate a `marks` list: every element must validate as a mark. -/
def parseMarkList : List JVal → Option (List ADFMarkModel)
  | [] => some []
  | x :: xs =>
    match parseMark x, parseMarkList xs with
    | some m, some ms => some (m :: ms)
    | _, _ => none

theorem one_le_sizeOf_list {α : Type} [SizeOf α] (l : List α) :
    1 ≤ sizeOf l := by
  cases l <;> simp_arith

theorem sizeOf_lt_of_dGet {kvs : List (String × JVal)} {k : String} {v : JVal}
    (h : dGet kvs k = some v) : sizeOf v < sizeOf kvs := by
  unfold dGet at h
  cases hf : kvs.find? (fun p => p.1 == k) with
  | none => simp [hf] at h
  | some p =>
    simp only [hf, Option.map_some'] at h
    have hmem := List.mem_of_find?_eq_some hf
    have h1 : sizeOf p < sizeOf kvs := List.sizeOf_lt_of_mem hmem
    have h2 : sizeOf v ≤ sizeOf p := by
      cases p with
      | mk a b =>
        simp only [Option.some.injEq] at h
        subst h
        simp only [Prod.mk.sizeOf_spec]
        omega
    omega

/-- Pydantic validation of the `attrs : Optional[Dict[str, Any]]` field from
its raw looked-up value (`none` = key absent). -/
def fieldAttrs : Option JVal → Option (Bool × Option (List (String × JVal)))
  | none => some (false, some [])
  | some .null => some (true, none)
  | some (.obj as) => some (true, some as)
  | some _ => none

/-- Pydantic validation of the `text : Optional[str]` field. -/
def fieldText : Option JVal → Option (Bool × Option String)
  | none => some (false, none)
  | some .null => some (true, none)
  | some (.str s) => some (true, some s)
  | some _ => none

/-- Pydantic validation of the `marks : Optional[List[ADFMarkModel]]` field. -/
def fieldMarks : Option JVal → Option (Bool × Option (List ADFMarkModel))
  | none => some (false, some [])
  | some .null => some (true, none)
  | some (.arr xs) =>
    match parseMarkList xs with
    | some ms => some (true, some ms)
    | none => none
  | some _ => none

mutual

/-- `ADFNodeModel.model_validate`: the input must be a dict with a known node
`type`; `attrs`/`content`/`text`/`marks` each absent, `None`, or of the right
shape (children and marks validated recursively); unknown keys become extras. -/
def parseNode (j : JVal) : Option ADFNodeModel :=
  match j with
  | .obj kvs =>
    match dGet kvs "type" with
    | some (.str t) =>
      if t ∈ nodeTypes then
        match fieldAttrs (dGet kvs "attrs"), fieldText (dGet kvs "text"),
              fieldMarks (dGet kvs "marks"), fieldContent (dGet kvs "content") with
        | some (aS, a), some (tS, tx), some (mS, m), some (cS, c) =>
          some (.mk t aS a cS c tS tx mS m
            (kvs.filter (fun p => decide (p.1 ∉ nodeFieldNames))))
        | _, _, _, _ => none
      else none
    | _ => none
  | _ => none
termination_by sizeOf j
decreasing_by
  simp_wf
  cases hdg : dGet kvs "content" with
  | none =>
    have hk := one_le_sizeOf_list kvs
    simp [hdg]
    omega
  | some v =>
    have h1 := sizeOf_lt_of_dGet hdg
    simp [hdg]
    omega

/-- Pydantic validation of the `content : Optional[List[ADFNodeModel]]` field
from its raw looked-up value. -/
def fieldContent : Option JVal → Option (Bool × Option (List ADFNodeModel))
  | none => some (false, some [])
  | some .null => some (true, none)
  | some (.arr xs) =>
    match parseNodeList xs with
    | some l => some (true, some l)
    | none => none
  | some _ => none
termination_by o => sizeOf o
decreasing_by
  simp_wf
  omega

/-- Validate a `content` list: every element must validate as a node. -/
def parseNodeList (xs : List JVal) : Option (List ADFNodeModel) :=
  match xs with
  | [] => some []
  | x :: rest =>
    match parseNode x, parseNodeList rest with
    | some n, some ns => some (n :: ns)
    | _, _ => none
termination_by sizeOf xs
decreasing_by
  all_goals simp_wf
  all_goals omega

end

/-- The dumped value of an optional field: present only when the field is
set and not `None` (the `exclude_unset`/`exclude_none` rule). -/
def setVal {a : Type} (set : Bool) (v : Option a) : Option a :=
  if set then v else none

/-- One dumped optional field as a (possibly empty) pair list. -/
def optSeg (k : String) : Option JVal → List (String × JVal)
  | some jv => [(k, jv)]
  | none => []

/-- `model_dump(exclude_none=True, exclude_unset=True)` of a mark. -/
def dumpMark (m : ADFMarkModel) : JVal :=
  .obj ([("type", JVal.str m.type)]
    ++ optSeg "attrs" (setVal m.attrsSet (m.attrs.map JVal.obj))
    ++ m.extra.filter (fun p => !(p.2.isNull)))

mutual

/-- `model_dump(exclude_none=True, exclude_unset=True)` of a node: declared
fields in declaration order, only when set and not `None`, then non-`None`
extras. -/
def dumpNode : ADFNodeModel → JVal
  | .mk t aS a cS c tS tx mS m ex =>
    .obj ([("type", JVal.str t)]
      ++ optSeg "attrs" (setVal aS (a.map JVal.obj))
      ++ optSeg "content" (setVal cS
          (match c with
           | some l => some (JVal.arr (dumpNodeList l))
           | none => none))
      ++ optSeg "text" (setVal tS (tx.map JVal.str))
      ++ optSeg "marks" (setVal mS (m.map (fun ms => JVal.arr (ms.map dumpMark))))
      ++ ex.filter (fun p => !(p.2.isNull)))

def dumpNodeList : List ADFNodeModel → List JVal
  | [] => []
  | n :: ns => dumpNode n :: dumpNodeList ns

end

/-- `ADFDocumentModel.model_validate`: the input must be a dict; `version`
absent or exactly `1`; `type` absent or exactly `"doc"`; `content` absent or
a list of valid nodes; unknown keys become extras. -/
def parseDoc (j : JVal) : Option ADFDocumentModel :=
  match j with
  | .obj kvs =>
    let vPart : Option Bool :=
      match dGet kvs "version" with
      | none => some false
      | some (.num 1) => some true
      | some _ => none
    let tPart : Option Bool :=
      match dGet kvs "type" with
      | none => some false
      | some (.str "doc") => some true
      | some _ => none
    let cPart : Option (Bool × List ADFNodeModel) :=
      match dGet kvs "content" with
      | none => some (false, [])
      | some (.arr xs) =>
        match parseNodeList xs with
        | some l => some (true, l)
        | none => none
      | some _ => none
    match vPart, tPart, cPart with
    | some vS, some tS, some (cS, c) =>
      some ⟨vS, tS, cS, c, kvs.filter (fun p => decide (p.1 ∉ docFieldNames))⟩
    | _, _, _ => none
  | _ => none

/-- `constants.EMPTY_ADF_DOCUMENT` parsed: all three fields set, no content. -/
def emptyDocModel : ADFDocumentModel := ⟨true, true, true, [], []⟩

/-- `ADFDocument.__init__` on non-`None` data: `model_validate`, falling back
to the empty document on any validation failure (the lenient-parse policy). -/
def parseLenient (j : JVal) : ADFDocumentModel :=
  (parseDoc j).getD emptyDocModel

/-- `model_dump(exclude_none=True, exclude_unset=True)` of the document. -/
def dumpDocPairs (m : ADFDocumentModel) : List (String × JVal) :=
  optSeg "version" (setVal m.versionSet (some (JVal.num 1)))
  ++ optSeg "type" (setVal m.typeSet (some (JVal.str "doc")))
  ++ optSeg "content" (setVal m.contentSet (some (JVal.arr (dumpNodeList m.content))))
  ++ m.extra.filter (fun p => !(p.2.isNull))

/-- `ADFDocument.to_dict`: the dump, with `version`/`type` appended when the
dump omitted them. -/
def toDictPairs (m : ADFDocumentModel) : List (String × JVal) :=
  let d0 := dumpDocPairs m
  let d1 := if (dGet d0 "version").isSome then d0 else d0 ++ [("version", JVal.num 1)]
  if (dGet d1 "type").isSome then d1 else d1 ++ [("type", JVal.str "doc")]

/-- `ADFDocument.to_dict` as a JSON object. -/
def toDict (m : ADFDocumentModel) : JVal := .obj (toDictPairs m)

/-- Python `==` on dicts: the same keys map to the same values (values
compared structurally, which coincides with Python `==` on canonical dumps). -/
def pyDictEq (xs ys : List (String × JVal)) : Prop :=
  ∀ k, dGet xs k = dGet ys k

/-- Canonical form of a mark after a dump/parse round trip: set flags
normalised, `None` fields reset to defaults, `None`-valued extras dropped. -/
def canonMark (m : ADFMarkModel) : ADFMarkModel :=
  ⟨m.type,
   (setVal m.attrsSet m.attrs).isSome,
   some ((setVal m.attrsSet m.attrs).getD []),
   m.extra.filter (fun p => !(p.2.isNull))⟩

mutual

/-- Canonical form of a node after a dump/parse round trip. -/
def canonNode : ADFNodeModel → ADFNodeModel
  | .mk t aS a cS c tS tx mS m ex =>
    .mk t
      (setVal aS a).isSome
      (some ((setVal aS a).getD []))
      (setVal cS c).isSome
      (some (if cS then (match c with | some l => canonNodeList l | none => []) else []))
      (setVal tS tx).isSome
      (setVal tS tx)
      (setVal mS m).isSome
      (some (match setVal mS m with | some ms => ms.map canonMark | none => []))
      (ex.filter (fun p => !(p.2.isNull)))

def canonNodeList : List ADFNodeModel → List ADFNodeModel
  | [] => []
  | n :: ns => canonNode n :: canonNodeList ns

end

/-- Well-formedness of a mark model: known mark type, extras disjoint from
declared field names (as is the case for every mark produced by
`model_validate`). -/
def wfMark (m : ADFMarkModel) : Bool :=
  decide (m.type ∈ markTypes)
  && m.extra.all (fun p => decide (p.1 ∉ markFieldNames))

mutual

/-- Well-formedness of a node model: known node type, well-formed children
and marks, extras disjoint from declared field names. -/
def wfNode : ADFNodeModel → Bool
  | .mk t _ _ _ c _ _ _ m ex =>
    decide (t ∈ nodeTypes)
    && (match c with | some l => wfNodeList l | none => true)
    && (match m with | some ms => ms.all wfMark | none => true)
    && ex.all (fun p => decide (p.1 ∉ nodeFieldNames))

def wfNodeList : List ADFNodeModel → Bool
  | [] => true
  | n :: ns => wfNode n && wfNodeList ns

end

/-- Well-formedness of a document model. -/
def wfDoc (m : ADFDocumentModel) : Bool :=
  wfNodeList m.content
  && m.extra.all (fun p => decide (p.1 ∉ docFieldNames))

/-! ### Dictionary lookup lemmas -/

theorem dGet_nil (k : String) : dGet [] k = none := rfl

theorem dGet_cons (k1 : String) (v : JVal) (rest : List (String × JVal))
    (k : String) :
    dGet ((k1, v) :: rest) k = if k1 == k then some v else dGet rest k := by
  unfold dGet
  cases h : (k1 == k) <;> simp [List.find?_cons, h]

theorem dGet_append (l1 l2 : List (String × JVal)) (k : String) :
    dGet (l1 ++ l2) k = ((dGet l1 k).orElse (fun _ => dGet l2 k)) := by
  induction l1 with
  | nil => simp [dGet_nil]
  | cons p t ih =>
    obtain ⟨k1, v⟩ := p
    rw [List.cons_append, dGet_cons, dGet_cons]
    cases h : (k1 == k) <;> simp [h, ih]

theorem dGet_optSeg_self (k : String) (o : Option JVal) :
    dGet (optSeg k o) k = o := by
  cases o <;> simp [optSeg, dGet_cons, dGet_nil]

theorem dGet_optSeg_ne (k : String) (o : Option JVal)
    {k' : String} (h : k ≠ k') : dGet (optSeg k o) k' = none := by
  cases o <;> simp [optSeg, dGet_cons, dGet_nil, h]

theorem dGet_eq_none {l : List (String × JVal)} {k : String}
    (h : ∀ p ∈ l, p.1 ≠ k) : dGet l k = none := by
  unfold dGet
  rw [List.find?_eq_none.2 (fun p hp => by simp [h p hp])]
  rfl

theorem filter_optSeg_names (k : String) (o : Option JVal)
    {names : List String} (h : k ∈ names) :
    (optSeg k o).filter (fun p => decide (p.1 ∉ names)) = [] := by
  cases o <;> simp [optSeg, h]

theorem filter_keep_of_disjoint {names : List String}
    {ex : List (String × JVal)}
    (h : ex.all (fun p => decide (p.1 ∉ names)) = true) :
    ex.filter (fun p => decide (p.1 ∉ names)) = ex :=
  List.filter_eq_self.2 (List.all_eq_true.1 h)

theorem dGet_none_of_disjoint {names : List String}
    {ex : List (String × JVal)}
    (h : ex.all (fun p => decide (p.1 ∉ names)) = true)
    {k : String} (hk : k ∈ names) : dGet ex k = none := by
  refine dGet_eq_none (fun p hp => ?_)
  have hall := (List.all_eq_true.1 h) p hp
  simp only [decide_eq_true_eq] at hall
  intro hcontra
  rw [hcontra] at hall
  exact hall hk

/-! ### Round-trip: parse after dump -/

theorem parse_dump_mark (m : ADFMarkModel) (h : wfMark m = true) :
    parseMark (dumpMark m) = some (canonMark m) := by
  obtain ⟨t, aS, a, ex⟩ := m
  simp only [wfMark, Bool.and_eq_true, decide_eq_true_eq] at h
  obtain ⟨ht, hex⟩ := h
  have htmem : t ∈ markTypes := ht
  have hexd : (ex.filter (fun p => !(p.2.isNull))).all
      (fun p => decide (p.1 ∉ markFieldNames)) = true := by
    rw [List.all_eq_true] at hex ⊢
    exact fun p hp => hex p (List.mem_of_mem_filter hp)
  have hexF : ∀ k, k ∈ markFieldNames →
      dGet (ex.filter (fun p => !(p.2.isNull))) k = none := by
    intro k hk
    exact dGet_none_of_disjoint hexd hk
  have htype : dGet ([("type", JVal.str t)]
      ++ optSeg "attrs" (setVal aS (a.map JVal.obj))
      ++ ex.filter (fun p => !(p.2.isNull))) "type" = some (JVal.str t) := by
    simp [dGet_append, dGet_cons, dGet_nil]
  have hattrs : dGet ([("type", JVal.str t)]
      ++ optSeg "attrs" (setVal aS (a.map JVal.obj))
      ++ ex.filter (fun p => !(p.2.isNull))) "attrs" =
      setVal aS (a.map JVal.obj) := by
    rw [dGet_append, dGet_append, dGet_cons, dGet_nil]
    rw [dGet_optSeg_self, hexF "attrs" (by simp [markFieldNames])]
    cases h2 : setVal aS (a.map JVal.obj) <;> simp
  have hfilter : (([("type", JVal.str t)]
      ++ optSeg "attrs" (setVal aS (a.map JVal.obj))
      ++ ex.filter (fun p => !(p.2.isNull)))).filter
        (fun p => decide (p.1 ∉ markFieldNames)) =
      ex.filter (fun p => !(p.2.isNull)) := by
    rw [List.filter_append, List.filter_append]
    rw [filter_optSeg_names _ _ (by simp [markFieldNames])]
    rw [filter_keep_of_disjoint hexd]
    simp [markFieldNames]
  rw [dumpMark]
  simp only
  rw [parseMark]
  simp only [htype, htmem, if_pos htmem, hattrs, hfilter]
  cases aS <;> cases a <;> simp [canonMark, setVal]

theorem setVal_map {α β : Type} (f : α → β) (set : Bool) (v : Option α) :
    setVal set (v.map f) = (setVal set v).map f := by
  cases set <;> simp [setVal]

theorem filter_isNull_idem (l : List (String × JVal)) :
    (l.filter (fun p => !(p.2.isNull))).filter (fun p => !(p.2.isNull)) =
      l.filter (fun p => !(p.2.isNull)) := by
  rw [List.filter_filter]
  simp

theorem dump_canon_mark (m : ADFMarkModel) : dumpMark (canonMark m) = dumpMark m := by
  obtain ⟨t, aS, a, ex⟩ := m
  cases aS <;> cases a <;>
    simp [dumpMark, canonMark, setVal, optSeg, filter_isNull_idem]

theorem parse_dump_markList (ms : List ADFMarkModel)
    (h : ms.all wfMark = true) :
    parseMarkList (ms.map dumpMark) = some (ms.map canonMark) := by
  induction ms with
  | nil => simp [parseMarkList]
  | cons x xs ih =>
    simp only [List.all_cons, Bool.and_eq_true] at h
    simp [parseMarkList, parse_dump_mark x h.1, ih h.2]

theorem map_dump_canon_mark (ms : List ADFMarkModel) :
    (ms.map canonMark).map dumpMark = ms.map dumpMark := by
  rw [List.map_map]
  exact List.map_congr_left (fun x _ => dump_canon_mark x)

theorem map_comp_dump_canon_mark (ms : List ADFMarkModel) :
    ms.map (dumpMark ∘ canonMark) = ms.map dumpMark :=
  List.map_congr_left (fun x _ => dump_canon_mark x)

/-! Lookups over the dumped-node pair list. -/

theorem dGet_nodePairs_type (t : String) (o1 o2 o3 o4 : Option JVal)
    (exF : List (String × JVal)) :
    dGet ([("type", JVal.str t)] ++ optSeg "attrs" o1 ++ optSeg "content" o2
      ++ optSeg "text" o3 ++ optSeg "marks" o4 ++ exF) "type" =
      some (JVal.str t) := by
  simp [dGet_append, dGet_cons, dGet_nil]

theorem dGet_nodePairs_attrs (t : String) (o1 o2 o3 o4 : Option JVal)
    {exF : List (String × JVal)}
    (hex : exF.all (fun p => decide (p.1 ∉ nodeFieldNames)) = true) :
    dGet ([("type", JVal.str t)] ++ optSeg "attrs" o1 ++ optSeg "content" o2
      ++ optSeg "text" o3 ++ optSeg "marks" o4 ++ exF) "attrs" = o1 := by
  rw [dGet_append, dGet_append, dGet_append, dGet_append, dGet_append]
  rw [dGet_cons, dGet_nil, dGet_optSeg_self,
    dGet_optSeg_ne "content" o2 (by decide),
    dGet_optSeg_ne "text" o3 (by decide),
    dGet_optSeg_ne "marks" o4 (by decide),
    dGet_none_of_disjoint hex (by simp [nodeFieldNames])]
  cases o1 <;> simp

theorem dGet_nodePairs_content (t : String) (o1 o2 o3 o4 : Option JVal)
    {exF : List (String × JVal)}
    (hex : exF.all (fun p => decide (p.1 ∉ nodeFieldNames)) = true) :
    dGet ([("type", JVal.str t)] ++ optSeg "attrs" o1 ++ optSeg "content" o2
      ++ optSeg "text" o3 ++ optSeg "marks" o4 ++ exF) "content" = o2 := by
  rw [dGet_append, dGet_append, dGet_append, dGet_append, dGet_append]
  rw [dGet_cons, dGet_nil, dGet_optSeg_self,
    dGet_optSeg_ne "attrs" o1 (by decide),
    dGet_optSeg_ne "text" o3 (by decide),
    dGet_optSeg_ne "marks" o4 (by decide),
    dGet_none_of_disjoint hex (by simp [nodeFieldNames])]
  cases o1 <;> cases o2 <;> simp

theorem dGet_nodePairs_text (t : String) (o1 o2 o3 o4 : Option JVal)
    {exF : List (String × JVal)}
    (hex : exF.all (fun p => decide (p.1 ∉ nodeFieldNames)) = true) :
    dGet ([("type", JVal.str t)] ++ optSeg "attrs" o1 ++ optSeg "content" o2
      ++ optSeg "text" o3 ++ optSeg "marks" o4 ++ exF) "text" = o3 := by
  rw [dGet_append, dGet_append, dGet_append, dGet_append, dGet_append]
  rw [dGet_cons, dGet_nil, dGet_optSeg_self,
    dGet_optSeg_ne "attrs" o1 (by decide),
    dGet_optSeg_ne "content" o2 (by decide),
    dGet_optSeg_ne "marks" o4 (by decide),
    dGet_none_of_disjoint hex (by simp [nodeFieldNames])]
  cases o1 <;> cases o2 <;> cases o3 <;> simp

theorem dGet_nodePairs_marks (t : String) (o1 o2 o3 o4 : Option JVal)
    {exF : List (String × JVal)}
    (hex : exF.all (fun p => decide (p.1 ∉ nodeFieldNames)) = true) :
    dGet ([("type", JVal.str t)] ++ optSeg "attrs" o1 ++ optSeg "content" o2
      ++ optSeg "text" o3 ++ optSeg "marks" o4 ++ exF) "marks" = o4 := by
  rw [dGet_append, dGet_append, dGet_append, dGet_append, dGet_append]
  rw [dGet_cons, dGet_nil, dGet_optSeg_self,
    dGet_optSeg_ne "attrs" o1 (by decide),
    dGet_optSeg_ne "content" o2 (by decide),
    dGet_optSeg_ne "text" o3 (by decide),
    dGet_none_of_disjoint hex (by simp [nodeFieldNames])]
  cases o1 <;> cases o2 <;> cases o3 <;> cases o4 <;> simp

theorem filter_nodePairs (t : String) (o1 o2 o3 o4 : Option JVal)
    {exF : List (String × JVal)}
    (hex : exF.all (fun p => decide (p.1 ∉ nodeFieldNames)) = true) :
    (([("type", JVal.str t)] ++ optSeg "attrs" o1 ++ optSeg "content" o2
      ++ optSeg "text" o3 ++ optSeg "marks" o4 ++ exF)).filter
        (fun p => decide (p.1 ∉ nodeFieldNames)) = exF := by
  rw [List.filter_append, List.filter_append, List.filter_append,
    List.filter_append, List.filter_append]
  rw [filter_optSeg_names "attrs" o1 (by simp [nodeFieldNames]),
    filter_optSeg_names "content" o2 (by simp [nodeFieldNames]),
    filter_optSeg_names "text" o3 (by simp [nodeFieldNames]),
    filter_optSeg_names "marks" o4 (by simp [nodeFieldNames]),
    filter_keep_of_disjoint hex]
  simp [nodeFieldNames]

theorem setVal_none {α : Type} (set : Bool) : setVal set (none : Option α) = none := by
  cases set <;> simp [setVal]

theorem setVal_true {α : Type} (v : Option α) : setVal true v = v := rfl

theorem setVal_false {α : Type} (v : Option α) : setVal false v = none := rfl

/-- `parseNode` on an object in dumped-node shape, expressed through the
per-field validators. -/
theorem parseNode_nodePairs (t : String) (o1 o2 o3 o4 : Option JVal)
    {exF : List (String × JVal)}
    (hex : exF.all (fun p => decide (p.1 ∉ nodeFieldNames)) = true)
    (ht : t ∈ nodeTypes) :
    parseNode (.obj ([("type", JVal.str t)] ++ optSeg "attrs" o1
      ++ optSeg "content" o2 ++ optSeg "text" o3 ++ optSeg "marks" o4 ++ exF)) =
      (match fieldAttrs o1, fieldText o3, fieldMarks o4, fieldContent o2 with
       | some (aS, a), some (tS, tx), some (mS, m), some (cS, c) =>
         some (ADFNodeModel.mk t aS a cS c tS tx mS m exF)
       | _, _, _, _ => none) := by
  have hcon := dGet_nodePairs_content t o1 o2 o3 o4 hex
  simp only [parseNode]
  simp only [dGet_nodePairs_type, dGet_nodePairs_attrs _ _ _ _ _ hex,
    dGet_nodePairs_text _ _ _ _ _ hex, dGet_nodePairs_marks _ _ _ _ _ hex,
    filter_nodePairs _ _ _ _ _ hex, ht, if_true, hcon]

mutual

theorem parse_dump_node : ∀ (n : ADFNodeModel), wfNode n = true →
    parseNode (dumpNode n) = some (canonNode n)
  | .mk t aS a cS (some l) tS tx mS m ex, h => by
    simp only [wfNode, Bool.and_eq_true, decide_eq_true_eq] at h
    obtain ⟨⟨⟨ht, hc⟩, hm⟩, hex⟩ := h
    have hl := parse_dump_nodeList l hc
    have hexd : ((ex.filter (fun p => !(p.2.isNull)))).all
        (fun p => decide (p.1 ∉ nodeFieldNames)) = true := by
      rw [List.all_eq_true] at hex ⊢
      exact fun p hp => hex p (List.mem_of_mem_filter hp)
    simp only [dumpNode]
    rw [parseNode_nodePairs _ _ _ _ _ hexd ht]
    simp only [setVal_map]
    cases m with
    | none =>
      cases hA : setVal aS a <;> cases hT : setVal tS tx <;> cases cS <;>
        simp [canonNode, hl, setVal_true, setVal_false, setVal_none, hA, hT,
          fieldAttrs, fieldText, fieldMarks, fieldContent]
    | some ms =>
      have hms := parse_dump_markList ms hm
      cases hA : setVal aS a <;> cases hT : setVal tS tx <;> cases cS <;>
        cases mS <;>
        simp [canonNode, hl, hms, setVal_true, setVal_false, setVal_none, hA, hT,
          fieldAttrs, fieldText, fieldMarks, fieldContent]
  | .mk t aS a cS none tS tx mS m ex, h => by
    simp only [wfNode, Bool.and_eq_true, decide_eq_true_eq] at h
    obtain ⟨⟨⟨ht, -⟩, hm⟩, hex⟩ := h
    have hexd : ((ex.filter (fun p => !(p.2.isNull)))).all
        (fun p => decide (p.1 ∉ nodeFieldNames)) = true := by
      rw [List.all_eq_true] at hex ⊢
      exact fun p hp => hex p (List.mem_of_mem_filter hp)
    simp only [dumpNode]
    rw [parseNode_nodePairs _ _ _ _ _ hexd ht]
    simp only [setVal_map]
    cases m with
    | none =>
      cases hA : setVal aS a <;> cases hT : setVal tS tx <;> cases cS <;>
        simp [canonNode, setVal_true, setVal_false, setVal_none, hA, hT,
          fieldAttrs, fieldText, fieldMarks, fieldContent]
    | some ms =>
      have hms := parse_dump_markList ms hm
      cases hA : setVal aS a <;> cases hT : setVal tS tx <;> cases cS <;>
        cases mS <;>
        simp [canonNode, hms, setVal_true, setVal_false, setVal_none, hA, hT,
          fieldAttrs, fieldText, fieldMarks, fieldContent]

theorem parse_dump_nodeList : ∀ (l : List ADFNodeModel),
    wfNodeList l = true →
    parseNodeList (dumpNodeList l) = some (canonNodeList l)
  | [], _ => by
    simp [dumpNodeList, parseNodeList, canonNodeList]
  | n :: ns, h => by
    simp only [wfNodeList, Bool.and_eq_true] at h
    simp [dumpNodeList, parseNodeList, canonNodeList,
      parse_dump_node n h.1, parse_dump_nodeList ns h.2]

end

mutual

theorem dump_canon_node : ∀ n : ADFNodeModel,
    dumpNode (canonNode n) = dumpNode n
  | .mk t aS a cS (some l) tS tx mS m ex => by
    have hl := dump_canon_nodeList l
    simp only [canonNode, dumpNode]
    cases hA : setVal aS a <;> cases hT : setVal tS tx <;>
      cases hM : setVal mS m <;> cases cS <;>
      simp [setVal_map, setVal_true, setVal_false, setVal_none, hA, hT, hM,
        hl, map_dump_canon_mark, map_comp_dump_canon_mark, filter_isNull_idem]
  | .mk t aS a cS none tS tx mS m ex => by
    simp only [canonNode, dumpNode]
    cases hA : setVal aS a <;> cases hT : setVal tS tx <;>
      cases hM : setVal mS m <;> cases cS <;>
      simp [setVal_map, setVal_true, setVal_false, setVal_none, hA, hT, hM,
        map_dump_canon_mark, map_comp_dump_canon_mark, filter_isNull_idem]

theorem dump_canon_nodeList : ∀ l : List ADFNodeModel,
    dumpNodeList (canonNodeList l) = dumpNodeList l
  | [] => rfl
  | n :: ns => by
    simp [dumpNodeList, canonNodeList, dump_canon_node n, dump_canon_nodeList ns]

end

/-! ### Document-level round trip -/

/-- The document model produced by re-parsing a `to_dict` dump. -/
def canonDoc (m : ADFDocumentModel) : ADFDocumentModel :=
  ⟨true, true, m.contentSet,
   if m.contentSet then canonNodeList m.content else [],
   m.extra.filter (fun p => !(p.2.isNull))⟩

theorem dGet_docPairs (m : ADFDocumentModel)
    (hex : m.extra.all (fun p => decide (p.1 ∉ docFieldNames)) = true)
    (k : String) :
    dGet (dumpDocPairs m) k =
      (if k = "version" then setVal m.versionSet (some (JVal.num 1))
       else if k = "type" then setVal m.typeSet (some (JVal.str "doc"))
       else if k = "content" then
         setVal m.contentSet (some (JVal.arr (dumpNodeList m.content)))
       else dGet (m.extra.filter (fun p => !(p.2.isNull))) k) := by
  have hexd : ((m.extra.filter (fun p => !(p.2.isNull)))).all
      (fun p => decide (p.1 ∉ docFieldNames)) = true := by
    rw [List.all_eq_true] at hex ⊢
    exact fun p hp => hex p (List.mem_of_mem_filter hp)
  unfold dumpDocPairs
  rw [dGet_append, dGet_append, dGet_append]
  by_cases hkv : k = "version"
  · subst hkv
    rw [dGet_optSeg_self,
      dGet_optSeg_ne "type" _ (by decide), dGet_optSeg_ne "content" _ (by decide),
      dGet_none_of_disjoint hexd (by simp [docFieldNames])]
    cases hv : setVal m.versionSet (some (JVal.num 1)) <;> simp
  by_cases hkt : k = "type"
  · subst hkt
    rw [dGet_optSeg_self,
      dGet_optSeg_ne "version" _ (by simp), dGet_optSeg_ne "content" _ (by decide),
      dGet_none_of_disjoint hexd (by simp [docFieldNames])]
    cases hv : setVal m.typeSet (some (JVal.str "doc")) <;> simp
  by_cases hkc : k = "content"
  · subst hkc
    rw [dGet_optSeg_self,
      dGet_optSeg_ne "version" _ (by simp), dGet_optSeg_ne "type" _ (by simp),
      dGet_none_of_disjoint hexd (by simp [docFieldNames])]
    cases hv : setVal m.contentSet (some (JVal.arr (dumpNodeList m.content))) <;>
      simp [hkv, hkt]
  · rw [dGet_optSeg_ne "version" _ (fun h => hkv h.symm),
      dGet_optSeg_ne "type" _ (fun h => hkt h.symm),
      dGet_optSeg_ne "content" _ (fun h => hkc h.symm)]
    simp [hkv, hkt, hkc]

theorem isSome_dGet_docPairs_version (m : ADFDocumentModel)
    (hex : m.extra.all (fun p => decide (p.1 ∉ docFieldNames)) = true) :
    (dGet (dumpDocPairs m) "version").isSome = m.versionSet := by
  rw [dGet_docPairs m hex]
  cases hv : m.versionSet <;> simp [setVal_true, setVal_false]

theorem orElse_none_right {a : Type} (o : Option a) :
    (o.orElse fun _ => none) = o := by
  cases o <;> rfl

theorem dGet_append_single_ne (l : List (String × JVal)) (k1 : String)
    (v : JVal) {k : String} (h : k ≠ k1) :
    dGet (l ++ [(k1, v)]) k = dGet l k := by
  rw [dGet_append, dGet_cons, dGet_nil]
  have : (k1 == k) = false := by
    simp only [beq_eq_false_iff_ne]
    exact fun h2 => h h2.symm
  rw [this]
  simp only [Bool.false_eq_true, if_false]
  exact orElse_none_right _

theorem dGet_append_single_hit (l : List (String × JVal)) (k : String)
    (v : JVal) (h : dGet l k = none) :
    dGet (l ++ [(k, v)]) k = some v := by
  rw [dGet_append, h, dGet_cons, dGet_nil]
  simp

theorem dGet_toDictPairs (m : ADFDocumentModel)
    (hex : m.extra.all (fun p => decide (p.1 ∉ docFieldNames)) = true)
    (k : String) :
    dGet (toDictPairs m) k =
      (if k = "version" then some (JVal.num 1)
       else if k = "type" then some (JVal.str "doc")
       else if k = "content" then
         setVal m.contentSet (some (JVal.arr (dumpNodeList m.content)))
       else dGet (m.extra.filter (fun p => !(p.2.isNull))) k) := by
  have h0 := dGet_docPairs m hex
  have hvt : dGet (dumpDocPairs m ++ [("version", JVal.num 1)]) "type"
      = setVal m.typeSet (some (JVal.str "doc")) := by
    rw [dGet_append_single_ne _ "version" _ (by decide), h0]
    simp
  unfold toDictPairs
  simp only [isSome_dGet_docPairs_version m hex]
  cases hv : m.versionSet with
  | true =>
    rw [if_pos rfl]
    have h2 : (dGet (dumpDocPairs m) "type").isSome = m.typeSet := by
      rw [h0]
      cases ht : m.typeSet <;> simp [setVal_true, setVal_false]
    rw [h2]
    cases ht : m.typeSet with
    | true =>
      rw [if_pos rfl, h0 k]
      by_cases hkv : k = "version"
      · simp [hkv, hv, setVal_true]
      by_cases hkt : k = "type"
      · simp [hkv, hkt, ht, setVal_true]
      · simp [hkv, hkt]
    | false =>
      simp only [Bool.false_eq_true, if_false]
      by_cases hkt : k = "type"
      · subst hkt
        rw [dGet_append_single_hit _ "type" _ (by rw [h0]; simp [ht, setVal_false])]
        simp
      · rw [dGet_append_single_ne _ "type" _ hkt, h0 k]
        by_cases hkv : k = "version"
        · simp [hkv, hv, setVal_true]
        · simp [hkv, hkt]
  | false =>
    simp only [Bool.false_eq_true, if_false]
    have h2 : (dGet (dumpDocPairs m ++ [("version", JVal.num 1)]) "type").isSome
        = m.typeSet := by
      rw [hvt]
      cases ht : m.typeSet <;> simp [setVal_true, setVal_false]
    rw [h2]
    cases ht : m.typeSet with
    | true =>
      rw [if_pos rfl]
      by_cases hkv : k = "version"
      · subst hkv
        rw [dGet_append_single_hit _ "version" _ (by rw [h0]; simp [hv, setVal_false])]
        simp
      · rw [dGet_append_single_ne _ "version" _ hkv, h0 k]
        by_cases hkt : k = "type"
        · simp [hkv, hkt, ht, setVal_true]
        · simp [hkv, hkt]
    | false =>
      simp only [Bool.false_eq_true, if_false]
      by_cases hkt : k = "type"
      · subst hkt
        rw [dGet_append_single_hit _ "type" _ (by rw [hvt]; simp [ht, setVal_false])]
        simp
      · rw [dGet_append_single_ne _ "type" _ hkt]
        by_cases hkv : k = "version"
        · subst hkv
          rw [dGet_append_single_hit _ "version" _ (by rw [h0]; simp [hv, setVal_false])]
          simp
        · rw [dGet_append_single_ne _ "version" _ hkv, h0 k]
          simp [hkv, hkt]

theorem filter_toDictPairs (m : ADFDocumentModel)
    (hex : m.extra.all (fun p => decide (p.1 ∉ docFieldNames)) = true) :
    (toDictPairs m).filter (fun p => decide (p.1 ∉ docFieldNames)) =
      m.extra.filter (fun p => !(p.2.isNull)) := by
  have h0 := dGet_docPairs m hex
  have hexd : ((m.extra.filter (fun p => !(p.2.isNull)))).all
      (fun p => decide (p.1 ∉ docFieldNames)) = true := by
    rw [List.all_eq_true] at hex ⊢
    exact fun p hp => hex p (List.mem_of_mem_filter hp)
  have hd0 : (dumpDocPairs m).filter (fun p => decide (p.1 ∉ docFieldNames)) =
      m.extra.filter (fun p => !(p.2.isNull)) := by
    unfold dumpDocPairs
    rw [List.filter_append, List.filter_append, List.filter_append]
    rw [filter_optSeg_names "version" _ (by simp [docFieldNames]),
      filter_optSeg_names "type" _ (by simp [docFieldNames]),
      filter_optSeg_names "content" _ (by simp [docFieldNames]),
      filter_keep_of_disjoint hexd]
    simp
  have hvt : dGet (dumpDocPairs m ++ [("version", JVal.num 1)]) "type"
      = setVal m.typeSet (some (JVal.str "doc")) := by
    rw [dGet_append_single_ne _ "version" _ (by decide), h0]
    simp
  unfold toDictPairs
  simp only [isSome_dGet_docPairs_version m hex]
  cases hv : m.versionSet with
  | true =>
    rw [if_pos rfl]
    have h2 : (dGet (dumpDocPairs m) "type").isSome = m.typeSet := by
      rw [h0]
      cases ht : m.typeSet <;> simp [setVal_true, setVal_false]
    rw [h2]
    cases ht : m.typeSet with
    | true => rw [if_pos rfl]; exact hd0
    | false =>
      simp only [Bool.false_eq_true, if_false]
      rw [List.filter_append, hd0]
      simp [docFieldNames]
  | false =>
    simp only [Bool.false_eq_true, if_false]
    have h2 : (dGet (dumpDocPairs m ++ [("version", JVal.num 1)]) "type").isSome
        = m.typeSet := by
      rw [hvt]
      cases ht : m.typeSet <;> simp [setVal_true, setVal_false]
    rw [h2]
    cases ht : m.typeSet with
    | true =>
      rw [if_pos rfl, List.filter_append, hd0]
      simp [docFieldNames]
    | false =>
      simp only [Bool.false_eq_true, if_false]
      rw [List.filter_append, List.filter_append, hd0]
      simp [docFieldNames]

theorem parse_toDict (m : ADFDocumentModel) (h : wfDoc m = true) :
    parseDoc (toDict m) = some (canonDoc m) := by
  simp only [wfDoc, Bool.and_eq_true] at h
  obtain ⟨hwfc, hex⟩ := h
  have hV : dGet (toDictPairs m) "version" = some (JVal.num 1) := by
    rw [dGet_toDictPairs m hex]
    simp
  have hT : dGet (toDictPairs m) "type" = some (JVal.str "doc") := by
    rw [dGet_toDictPairs m hex]
    simp
  have hC : dGet (toDictPairs m) "content" =
      setVal m.contentSet (some (JVal.arr (dumpNodeList m.content))) := by
    rw [dGet_toDictPairs m hex]
    simp
  rw [toDict]
  simp only [parseDoc, hV, hT, hC, filter_toDictPairs m hex]
  cases hc : m.contentSet <;>
    simp [setVal_true, setVal_false, parse_dump_nodeList m.content hwfc,
      canonDoc, hc]

/-- Claim C3, general form: `to_dict` of the re-parsed `to_dict` dump agrees
with the original `to_dict` as a Python dict (same keys, same values). -/
theorem toDict_roundtrip (m : ADFDocumentModel) (h : wfDoc m = true) :
    pyDictEq (toDictPairs (parseLenient (toDict m))) (toDictPairs m) := by
  simp only [wfDoc, Bool.and_eq_true] at h
  obtain ⟨hwfc, hex⟩ := h
  have hex2 : (canonDoc m).extra.all
      (fun p => decide (p.1 ∉ docFieldNames)) = true := by
    simp only [canonDoc]
    rw [List.all_eq_true] at hex ⊢
    exact fun p hp => hex p (List.mem_of_mem_filter hp)
  rw [parseLenient, parse_toDict m (by simp only [wfDoc, hwfc, hex, Bool.and_self])]
  simp only [Option.getD_some]
  intro k
  rw [dGet_toDictPairs (canonDoc m) hex2 k, dGet_toDictPairs m hex k]
  by_cases hkv : k = "version"
  · simp [hkv]
  by_cases hkt : k = "type"
  · simp [hkv, hkt]
  by_cases hkc : k = "content"
  · subst hkc
    simp only [if_neg hkv, if_neg hkt, if_pos rfl, canonDoc]
    cases hc : m.contentSet <;>
      simp [setVal_true, setVal_false, dump_canon_nodeList]
  · simp [if_neg hkv, if_neg hkt, if_neg hkc, canonDoc, filter_isNull_idem]

/-! ### Unknown node/mark types force the lenient-parse fallback (C10) -/

/-- A raw mark dict whose `type` is a string outside `MARK_TYPES`. -/
def markBad (j : JVal) : Bool :=
  match j with
  | .obj kvs =>
    match dGet kvs "type" with
    | some (.str t) => decide (t ∉ markTypes)
    | _ => false
  | _ => false

mutual

/-- A raw node dict that carries, at itself or anywhere below through
`content` arrays, a node whose `type` is a string outside `NODE_TYPES`, or a
mark (inside a `marks` array) whose `type` is a string outside `MARK_TYPES`. -/
def nodeHasUnknown (j : JVal) : Bool :=
  match j with
  | .obj kvs =>
    (match dGet kvs "type" with
     | some (.str t) => decide (t ∉ nodeTypes)
     | _ => false)
    || (match dGet kvs "marks" with
        | some (.arr ms) => ms.any markBad
        | _ => false)
    || contentHasUnknown (dGet kvs "content")
  | _ => false
termination_by sizeOf j
decreasing_by
  simp_wf
  cases hdg : dGet kvs "content" with
  | none =>
    have hk := one_le_sizeOf_list kvs
    simp [hdg]
    omega
  | some v =>
    have h1 := sizeOf_lt_of_dGet hdg
    simp [hdg]
    omega

def contentHasUnknown : Option JVal → Bool
  | some (.arr cs) => nodeListHasUnknown cs
  | _ => false
termination_by o => sizeOf o
decreasing_by
  simp_wf
  omega

def nodeListHasUnknown : List JVal → Bool
  | [] => false
  | x :: xs => nodeHasUnknown x || nodeListHasUnknown xs
termination_by xs => sizeOf xs
decreasing_by
  all_goals simp_wf
  all_goals omega

end

/-- The document's content tree (as reached by the parser) contains an
unknown node or mark type. -/
def docContentHasUnknown (j : JVal) : Bool :=
  match j with
  | .obj kvs => contentHasUnknown (dGet kvs "content")
  | _ => false

theorem parseMark_none_of_bad (j : JVal) (h : markBad j = true) :
    parseMark j = none := by
  cases j with
  | obj kvs =>
    simp only [markBad] at h
    cases hdg : dGet kvs "type" with
    | none => simp_all
    | some v =>
      cases v <;> simp_all [parseMark]
  | null | bool _ | num _ | str _ | arr _ => simp [markBad] at h

theorem parseMarkList_none_of_bad (ms : List JVal) (h : ms.any markBad = true) :
    parseMarkList ms = none := by
  induction ms with
  | nil => simp at h
  | cons x xs ih =>
    simp only [List.any_cons, Bool.or_eq_true] at h
    rcases h with h | h
    · simp [parseMarkList, parseMark_none_of_bad x h]
    · rw [parseMarkList, ih h]
      cases parseMark x <;> simp

theorem node4Match_none_marks (t : String)
    (fa : Option (Bool × Option (List (String × JVal))))
    (ft : Option (Bool × Option String))
    (fc : Option (Bool × Option (List ADFNodeModel)))
    (exF : List (String × JVal)) :
    (match fa, ft, (none : Option (Bool × Option (List ADFMarkModel))), fc with
     | some (aS, a), some (tS, tx), some (mS, m), some (cS, c) =>
       some (ADFNodeModel.mk t aS a cS c tS tx mS m exF)
     | _, _, _, _ => none) = none := by
  rcases fa with - | ⟨aS, a⟩ <;> rcases ft with - | ⟨tS, tx⟩ <;>
    rcases fc with - | ⟨cS, c⟩ <;> rfl

theorem node4Match_none_content (t : String)
    (fa : Option (Bool × Option (List (String × JVal))))
    (ft : Option (Bool × Option String))
    (fm : Option (Bool × Option (List ADFMarkModel)))
    (exF : List (String × JVal)) :
    (match fa, ft, fm, (none : Option (Bool × Option (List ADFNodeModel))) with
     | some (aS, a), some (tS, tx), some (mS, m), some (cS, c) =>
       some (ADFNodeModel.mk t aS a cS c tS tx mS m exF)
     | _, _, _, _ => none) = none := by
  rcases fa with - | ⟨aS, a⟩ <;> rcases ft with - | ⟨tS, tx⟩ <;>
    rcases fm with - | ⟨mS, m⟩ <;> rfl

theorem doc3Match_none (vp tp : Option Bool) (exF : List (String × JVal)) :
    (match vp, tp, (none : Option (Bool × List ADFNodeModel)) with
     | some vS, some tS, some (cS, c) => some (ADFDocumentModel.mk vS tS cS c exF)
     | _, _, _ => none) = none := by
  rcases vp with - | vS <;> rcases tp with - | tS <;> rfl

mutual

theorem parseNode_none_of_unknown : ∀ j : JVal, nodeHasUnknown j = true →
    parseNode j = none
  | .obj kvs, h => by
    rw [nodeHasUnknown] at h
    simp only [Bool.or_eq_true] at h
    cases hdg : dGet kvs "type" with
    | none => simp [parseNode, hdg]
    | some v =>
      cases v with
      | str t =>
        by_cases htm : t ∈ nodeTypes
        · simp only [parseNode, hdg, htm, if_true]
          rcases h with (h | h) | h
          · rw [hdg] at h
            simp [htm] at h
          · cases hmk : dGet kvs "marks" with
            | none => rw [hmk] at h; simp at h
            | some mv =>
              rw [hmk] at h
              cases mv with
              | arr ms =>
                have h2 : ms.any markBad = true := h
                have hfm : fieldMarks (some (JVal.arr ms)) = none := by
                  simp only [fieldMarks, parseMarkList_none_of_bad ms h2]
                rw [hfm, node4Match_none_marks]
              | null => simp at h
              | bool b => simp at h
              | num n => simp at h
              | str s => simp at h
              | obj o => simp at h
          · cases hcv : dGet kvs "content" with
            | none => rw [hcv] at h; simp [contentHasUnknown] at h
            | some cv =>
              rw [hcv] at h
              cases cv with
              | arr cs =>
                simp only [contentHasUnknown] at h
                have hfc : fieldContent (some (JVal.arr cs)) = none := by
                  simp only [fieldContent, parseNodeList_none_of_unknown cs h]
                rw [hfc, node4Match_none_content]
              | null => simp [contentHasUnknown] at h
              | bool b => simp [contentHasUnknown] at h
              | num n => simp [contentHasUnknown] at h
              | str s => simp [contentHasUnknown] at h
              | obj o => simp [contentHasUnknown] at h
        · simp [parseNode, hdg, htm]
      | null => simp [parseNode, hdg]
      | bool b => simp [parseNode, hdg]
      | num n => simp [parseNode, hdg]
      | arr xs => simp [parseNode, hdg]
      | obj o => simp [parseNode, hdg]
  | .null, h => by simp [nodeHasUnknown] at h
  | .bool b, h => by simp [nodeHasUnknown] at h
  | .num n, h => by simp [nodeHasUnknown] at h
  | .str s, h => by simp [nodeHasUnknown] at h
  | .arr xs, h => by simp [nodeHasUnknown] at h
termination_by j h => sizeOf j
decreasing_by
  simp_wf
  have h1 := sizeOf_lt_of_dGet hcv
  simp only [JVal.arr.sizeOf_spec] at h1
  omega

theorem parseNodeList_none_of_unknown : ∀ xs : List JVal,
    nodeListHasUnknown xs = true → parseNodeList xs = none
  | [], h => by simp [nodeListHasUnknown] at h
  | x :: xs, h => by
    rw [nodeListHasUnknown] at h
    simp only [Bool.or_eq_true] at h
    rw [parseNodeList]
    rcases h with h | h
    · rw [parseNode_none_of_unknown x h]
    · rw [parseNodeList_none_of_unknown xs h]
      cases parseNode x <;> simp
termination_by xs h => sizeOf xs
decreasing_by
  all_goals simp_wf
  all_goals omega

end

theorem parseDoc_none_of_unknown (j : JVal)
    (h : docContentHasUnknown j = true) : parseDoc j = none := by
  cases j with
  | obj kvs =>
    simp only [docContentHasUnknown] at h
    cases hcv : dGet kvs "content" with
    | none => rw [hcv] at h; simp [contentHasUnknown] at h
    | some cv =>
      rw [hcv] at h
      cases cv with
      | arr cs =>
        simp only [contentHasUnknown] at h
        simp only [parseDoc, hcv, parseNodeList_none_of_unknown cs h]
        rw [doc3Match_none]
      | null => simp [contentHasUnknown] at h
      | bool b => simp [contentHasUnknown] at h
      | num n => simp [contentHasUnknown] at h
      | str s => simp [contentHasUnknown] at h
      | obj o => simp [contentHasUnknown] at h
  | null | bool _ | num _ | str _ | arr _ => simp [docContentHasUnknown] at h

/-! ### Document Model path operations (`document.py`) -/

/-- `_get_node_by_path` / `_get_element_at_path`: hop through `content` lists;
an out-of-range index raises `IndexError`, which the handler catches and turns
into `None`; subscripting a `None` content (possible when a node's `content`
was set to `None`) raises `TypeError`, which the handler does *not* catch —
modelled by the `.error` channel. -/
def goGet : Option (List ADFNodeModel) → List Nat → Except Unit (Option ADFNodeModel)
  | none, _ => .error ()
  | some cur, [i] => .ok cur[i]?
  | some cur, i :: rest =>
    match cur[i]? with
    | none => .ok none
    | some nd => goGet nd.contentVal rest
  | some _, [] => .ok none

def getNodeByPath (doc : ADFDocumentModel) (path : List Nat) :
    Except Unit (Option ADFNodeModel) :=
  if path.isEmpty then .ok none
  else goGet (some doc.content) path

/-- The resolution loop of `_get_parent_at_path`: at each hop the index must
be in range and the node's runtime `content` must not be `None`. -/
def goParent : List ADFNodeModel → List Nat → Option (List ADFNodeModel)
  | cur, [] => some cur
  | cur, i :: rest =>
    if h : i < cur.length then
      match (cur.get ⟨i, h⟩).contentVal with
      | some child => goParent child rest
      | none => none
    else none

/-- `_get_parent_at_path` (empty path returns the root content list). -/
def getParentAtPath (doc : ADFDocumentModel) (path : List Nat) :
    Option (List ADFNodeModel) :=
  goParent doc.content path

/-- Functional rendering of "mutate the live parent list in place": rebuild
the content chain along `path`, applying `f` to the addressed list.  Fails
exactly when `goParent` fails (proved below). -/
def updateChain : List ADFNodeModel → List Nat →
    (List ADFNodeModel → Option (List ADFNodeModel)) →
    Option (List ADFNodeModel)
  | cur, [], f => f cur
  | cur, i :: rest, f =>
    if h : i < cur.length then
      match (cur.get ⟨i, h⟩).contentVal with
      | some child =>
        (updateChain child rest f).map
          (fun child2 => cur.set i ((cur.get ⟨i, h⟩).withContent child2))
      | none => none
    else none

/-- `_replace_element_at_path`: empty path → `False`; unresolvable parent or
out-of-range index → `False`; a dict that fails `ADFNodeModel.model_validate`
raises (pydantic `ValidationError` is not in the caught `(IndexError,
TypeError)`) — the `.error` channel; otherwise the element is overwritten. -/
def replaceElementAtPath (doc : ADFDocumentModel) (path : List Nat)
    (raw : JVal) : Except Unit (Bool × ADFDocumentModel) :=
  match path.getLast? with
  | none => .ok (false, doc)
  | some i =>
    match getParentAtPath doc path.dropLast with
    | none => .ok (false, doc)
    | some arr =>
      if i < arr.length then
        match parseNode raw with
        | none => .error ()
        | some nd =>
          .ok (true, { doc with content :=
            (updateChain doc.content path.dropLast
              (fun a => some (a.set i nd))).getD doc.content })
      else .ok (false, doc)

/-- `_delete_element_at_path`: empty path → `False`; unresolvable parent or
out-of-range index → `False`; otherwise `parent.pop(index)`. -/
def deleteElementAtPath (doc : ADFDocumentModel) (path : List Nat) :
    Bool × ADFDocumentModel :=
  match path.getLast? with
  | none => (false, doc)
  | some i =>
    match getParentAtPath doc path.dropLast with
    | none => (false, doc)
    | some arr =>
      if i < arr.length then
        (true, { doc with content :=
          (updateChain doc.content path.dropLast
            (fun a => some (a.eraseIdx i))).getD doc.content })
      else (false, doc)

/-- `_insert_element_at_path`: unresolvable parent → `False`; the index is
clamped into `[0, len(parent)]`; validation failure of a dict raises. -/
def insertElementAtPath (doc : ADFDocumentModel) (parentPath : List Nat)
    (index : Int) (raw : JVal) : Except Unit (Bool × ADFDocumentModel) :=
  match getParentAtPath doc parentPath with
  | none => .ok (false, doc)
  | some _ =>
    match parseNode raw with
    | none => .error ()
    | some nd =>
      .ok (true, { doc with content :=
        (updateChain doc.content parentPath
          (fun a =>
            some (a.insertIdx (max 0 (min index (a.length : Int))).toNat nd))).getD doc.content })

/-- A path addressing past the end of an array at some hop, all earlier hops
resolving through real (non-`None`) content arrays. -/
def oorGo : List ADFNodeModel → List Nat → Bool
  | _, [] => false
  | cur, [i] => decide (cur.length ≤ i)
  | cur, i :: rest =>
    if h : i < cur.length then
      match (cur.get ⟨i, h⟩).contentVal with
      | some child => oorGo child rest
      | none => false
    else true

def pathOOR (doc : ADFDocumentModel) (path : List Nat) : Bool :=
  oorGo doc.content path

theorem updateChain_none_of_goParent_none :
    ∀ (pp : List Nat) (cur : List ADFNodeModel)
      (f : List ADFNodeModel → Option (List ADFNodeModel)),
      goParent cur pp = none → updateChain cur pp f = none := by
  intro pp
  induction pp with
  | nil => intro cur f h; simp [goParent] at h
  | cons i rest ih =>
    intro cur f h
    rw [goParent] at h
    split at h
    · rename_i hlt
      cases hcv : (cur.get ⟨i, hlt⟩).contentVal with
      | some child =>
        simp only [hcv] at h
        simp only [updateChain, dif_pos hlt, hcv]
        rw [ih child f h]
        rfl
      | none =>
        simp only [updateChain, dif_pos hlt, hcv]
    · rename_i hge
      rw [updateChain, dif_neg hge]

theorem updateChain_of_goParent_some :
    ∀ (pp : List Nat) (cur arr : List ADFNodeModel)
      (f : List ADFNodeModel → Option (List ADFNodeModel)),
      goParent cur pp = some arr →
      (f arr = none → updateChain cur pp f = none) ∧
      (∀ arr2, f arr = some arr2 →
        ∃ c2, updateChain cur pp f = some c2 ∧ goParent c2 pp = some arr2) := by
  intro pp
  induction pp with
  | nil =>
    intro cur arr f h
    simp only [goParent, Option.some.injEq] at h
    subst h
    constructor
    · intro hf; simpa [updateChain] using hf
    · intro arr2 hf
      exact ⟨arr2, by simpa [updateChain] using hf, rfl⟩
  | cons i rest ih =>
    intro cur arr f h
    rw [goParent] at h
    split at h
    · rename_i hlt
      cases hcv : (cur.get ⟨i, hlt⟩).contentVal with
      | some child =>
        rw [hcv] at h
        simp only at h
        obtain ⟨ih1, ih2⟩ := ih child arr f h
        constructor
        · intro hf
          simp only [updateChain, dif_pos hlt, hcv]
          rw [ih1 hf]
          rfl
        · intro arr2 hf
          obtain ⟨c2, hc2, hg2⟩ := ih2 arr2 hf
          refine ⟨cur.set i ((cur.get ⟨i, hlt⟩).withContent c2), ?_, ?_⟩
          · simp only [updateChain, dif_pos hlt, hcv]
            rw [hc2]
            rfl
          · have hlen : i < (cur.set i ((cur.get ⟨i, hlt⟩).withContent c2)).length := by
              simpa using hlt
            rw [goParent, dif_pos hlen]
            have hget : (cur.set i ((cur.get ⟨i, hlt⟩).withContent c2)).get ⟨i, hlen⟩ =
                (cur.get ⟨i, hlt⟩).withContent c2 := by
              simp [List.getElem_set]
            rw [hget]
            have hcv2 : ((cur.get ⟨i, hlt⟩).withContent c2).contentVal = some c2 := by
              cases hnd : cur.get ⟨i, hlt⟩ with
              | mk t aS a cS c tS tx mS m ex =>
                simp [ADFNodeModel.withContent, ADFNodeModel.contentVal,
                  ADFNodeModel.content, ADFNodeModel.contentSet]
            rw [hcv2]
            simpa using hg2
      | none => rw [hcv] at h; exact absurd h (by simp)
    · exact absurd h (by simp)

theorem oor_parent_cases :
    ∀ (p : List Nat) (cur : List ADFNodeModel) (i : Nat),
      oorGo cur (p ++ [i]) = true →
      goParent cur p = none ∨
        (∃ arr, goParent cur p = some arr ∧ arr.length ≤ i) := by
  intro p
  induction p with
  | nil =>
    intro cur i h
    simp only [List.nil_append, oorGo, decide_eq_true_eq] at h
    exact Or.inr ⟨cur, rfl, h⟩
  | cons j rest ih =>
    intro cur i h
    obtain ⟨y, ys, hys⟩ : ∃ y ys, rest ++ [i] = y :: ys := by
      cases rest <;> exact ⟨_, _, rfl⟩
    rw [List.cons_append, hys] at h
    rw [oorGo] at h
    split at h
    · rename_i hlt
      cases hcv : (cur.get ⟨j, hlt⟩).contentVal with
      | some child =>
        rw [hcv] at h
        have h2 : oorGo child (rest ++ [i]) = true := by rw [hys]; exact h
        rcases ih child i h2 with hnone | ⟨arr, harr, hle⟩
        · refine Or.inl ?_
          rw [goParent, dif_pos hlt, hcv]
          exact hnone
        · refine Or.inr ⟨arr, ?_, hle⟩
          rw [goParent, dif_pos hlt, hcv]
          exact harr
      | none => rw [hcv] at h; exact absurd h (by simp)
    · rename_i hge
      refine Or.inl ?_
      rw [goParent, dif_neg hge]
    · simp

theorem goGet_ok_none_of_oor :
    ∀ (p : List Nat) (cur : List ADFNodeModel),
      oorGo cur p = true → goGet (some cur) p = .ok none := by
  intro p
  induction p with
  | nil => intro cur h; simp [oorGo] at h
  | cons i rest ih =>
    intro cur h
    cases rest with
    | nil =>
      rw [oorGo, decide_eq_true_eq] at h
      rw [goGet, List.getElem?_eq_none h]
    | cons y ys =>
      have h' : (if hl : i < cur.length then
          (match (cur.get ⟨i, hl⟩).contentVal with
            | some child => oorGo child (y :: ys)
            | none => false)
          else true) = true := h
      have hgoal : goGet (some cur) (i :: y :: ys) =
          (match cur[i]? with
            | none => Except.ok none
            | some nd => goGet nd.contentVal (y :: ys)) := rfl
      rw [hgoal]
      by_cases hlt : i < cur.length
      · rw [dif_pos hlt] at h'
        have hgi : cur[i]? = some (cur.get ⟨i, hlt⟩) := by
          rw [List.getElem?_eq_getElem hlt, List.get_eq_getElem]
        simp only [hgi]
        cases hcv : (cur.get ⟨i, hlt⟩).contentVal with
        | some child =>
          simp only [hcv] at h'
          exact ih child h'
        | none =>
          simp only [hcv] at h'
          exact absurd h' (by simp)
      · have hn : cur[i]? = none := List.getElem?_eq_none (Nat.le_of_not_lt hlt)
        simp only [hn]

theorem getNodeByPath_nil (doc : ADFDocumentModel) :
    getNodeByPath doc [] = .ok none := rfl

theorem replaceElementAtPath_nil (doc : ADFDocumentModel) (raw : JVal) :
    replaceElementAtPath doc [] raw = .ok (false, doc) := rfl

theorem deleteElementAtPath_nil (doc : ADFDocumentModel) :
    deleteElementAtPath doc [] = (false, doc) := rfl

theorem pathOOR_ne_nil {doc : ADFDocumentModel} {path : List Nat}
    (h : pathOOR doc path = true) : path ≠ [] := by
  intro hn
  subst hn
  simp [pathOOR, oorGo] at h

theorem getNodeByPath_oor (doc : ADFDocumentModel) (path : List Nat)
    (h : pathOOR doc path = true) : getNodeByPath doc path = .ok none := by
  have hne : path ≠ [] := pathOOR_ne_nil h
  rw [getNodeByPath, if_neg (by simpa [List.isEmpty_iff] using hne)]
  exact goGet_ok_none_of_oor path doc.content h

theorem replaceElementAtPath_oor (doc : ADFDocumentModel) (path : List Nat)
    (raw : JVal) (h : pathOOR doc path = true) :
    replaceElementAtPath doc path raw = .ok (false, doc) := by
  have hne : path ≠ [] := pathOOR_ne_nil h
  have hlast : path.getLast? = some (path.getLast hne) :=
    List.getLast?_eq_getLast path hne
  have h2 : oorGo doc.content (path.dropLast ++ [path.getLast hne]) = true := by
    rw [List.dropLast_append_getLast hne]; exact h
  rcases oor_parent_cases path.dropLast doc.content (path.getLast hne) h2 with
    hnone | ⟨arr, harr, hle⟩
  · simp only [replaceElementAtPath, hlast, getParentAtPath, hnone]
  · simp only [replaceElementAtPath, hlast, getParentAtPath, harr]
    rw [if_neg (Nat.not_lt.mpr hle)]

theorem deleteElementAtPath_oor (doc : ADFDocumentModel) (path : List Nat)
    (h : pathOOR doc path = true) :
    deleteElementAtPath doc path = (false, doc) := by
  have hne : path ≠ [] := pathOOR_ne_nil h
  have hlast : path.getLast? = some (path.getLast hne) :=
    List.getLast?_eq_getLast path hne
  have h2 : oorGo doc.content (path.dropLast ++ [path.getLast hne]) = true := by
    rw [List.dropLast_append_getLast hne]; exact h
  rcases oor_parent_cases path.dropLast doc.content (path.getLast hne) h2 with
    hnone | ⟨arr, harr, hle⟩
  · simp only [deleteElementAtPath, hlast, getParentAtPath, hnone]
  · simp only [deleteElementAtPath, hlast, getParentAtPath, harr]
    rw [if_neg (Nat.not_lt.mpr hle)]

theorem insertElementAtPath_clamps (doc : ADFDocumentModel) (pp : List Nat)
    (i : Int) (raw : JVal) (nd : ADFNodeModel) (arr : List ADFNodeModel)
    (hparse : parseNode raw = some nd)
    (hpar : getParentAtPath doc pp = some arr) :
    ∃ doc2, insertElementAtPath doc pp i raw = .ok (true, doc2) ∧
      getParentAtPath doc2 pp =
        some (arr.insertIdx (max 0 (min i (arr.length : Int))).toNat nd) := by
  have hpar' : goParent doc.content pp = some arr := hpar
  obtain ⟨-, h2⟩ := updateChain_of_goParent_some pp doc.content arr
    (fun a => some (a.insertIdx (max 0 (min i (a.length : Int))).toNat nd)) hpar'
  obtain ⟨c2, hc2, hg2⟩ := h2 _ rfl
  refine ⟨{ doc with content := c2 }, ?_, ?_⟩
  · simp only [insertElementAtPath, hpar, hparse, hc2, Option.getD_some]
  · simp only [getParentAtPath]
    exact hg2

theorem goGet_some_parent :
    ∀ (path : List Nat) (cur : List ADFNodeModel) (el : ADFNodeModel),
      goGet (some cur) path = .ok (some el) →
      ∃ p2 i arr, path = p2 ++ [i] ∧ goParent cur p2 = some arr ∧
        ∃ h : i < arr.length, arr.get ⟨i, h⟩ = el := by
  intro path
  induction path with
  | nil =>
    intro cur el h
    have h0 : goGet (some cur) [] = .ok none := rfl
    rw [h0] at h
    exact absurd h (by simp)
  | cons i rest ih =>
    intro cur el h
    cases rest with
    | nil =>
      have h0 : goGet (some cur) [i] = .ok cur[i]? := rfl
      rw [h0] at h
      have h1 : cur[i]? = some el := by
        cases hq : cur[i]? with
        | none => rw [hq] at h; exact absurd h (by simp)
        | some nd => rw [hq] at h; simpa using h
      obtain ⟨hlt, hel⟩ := List.getElem?_eq_some.mp h1
      refine ⟨[], i, cur, rfl, rfl, hlt, ?_⟩
      rw [List.get_eq_getElem]; exact hel
    | cons y ys =>
      have h0 : goGet (some cur) (i :: y :: ys) =
          (match cur[i]? with
            | none => Except.ok none
            | some nd => goGet nd.contentVal (y :: ys)) := rfl
      rw [h0] at h
      cases hq : cur[i]? with
      | none => rw [hq] at h; exact absurd h (by simp)
      | some nd =>
        rw [hq] at h
        simp only at h
        cases hcv : nd.contentVal with
        | none =>
          rw [hcv] at h
          have he : goGet none (y :: ys) = .error () := rfl
          rw [he] at h
          exact absurd h (by simp)
        | some child =>
          rw [hcv] at h
          obtain ⟨p2, i2, arr, hpath, hpar, hlt2, hel⟩ := ih child el h
          obtain ⟨hlt, hnd⟩ := List.getElem?_eq_some.mp hq
          refine ⟨i :: p2, i2, arr, by rw [hpath]; rfl, ?_, hlt2, hel⟩
          rw [goParent, dif_pos hlt]
          have hget : cur.get ⟨i, hlt⟩ = nd := by rw [List.get_eq_getElem]; exact hnd
          rw [hget, hcv]
          exact hpar

theorem goGet_of_parent :
    ∀ (p2 : List Nat) (cur arr : List ADFNodeModel),
      goParent cur p2 = some arr →
      ∀ (i : Nat) (h : i < arr.length),
        goGet (some cur) (p2 ++ [i]) = .ok (some (arr.get ⟨i, h⟩)) := by
  intro p2
  induction p2 with
  | nil =>
    intro cur arr hpar i h
    have h1 : arr = cur := by simpa [goParent] using hpar.symm
    subst h1
    have h0 : goGet (some arr) [i] = .ok arr[i]? := rfl
    rw [List.nil_append, h0, List.getElem?_eq_getElem h, List.get_eq_getElem]
  | cons j pp ih =>
    intro cur arr hpar i h
    rw [goParent] at hpar
    split at hpar
    · rename_i hlt
      cases hcv : (cur.get ⟨j, hlt⟩).contentVal with
      | some child =>
        rw [hcv] at hpar
        simp only at hpar
        obtain ⟨y, ys, hys⟩ : ∃ y ys, pp ++ [i] = y :: ys := by
          cases pp <;> exact ⟨_, _, rfl⟩
        rw [List.cons_append, hys]
        have h0 : goGet (some cur) (j :: y :: ys) =
            (match cur[j]? with
              | none => Except.ok none
              | some nd => goGet nd.contentVal (y :: ys)) := rfl
        rw [h0]
        have hgj : cur[j]? = some (cur.get ⟨j, hlt⟩) := by
          rw [List.getElem?_eq_getElem hlt, List.get_eq_getElem]
        simp only [hgj, hcv]
        rw [← hys]
        exact ih child arr hpar i h
      | none => rw [hcv] at hpar; exact absurd hpar (by simp)
    · exact absurd hpar (by simp)

theorem goGet_updateChain_frame :
    ∀ (p2 : List Nat) (cur c2 : List ADFNodeModel)
      (f : List ADFNodeModel → Option (List ADFNodeModel)) (i : Nat),
      (∀ arr arr2, f arr = some arr2 → ∀ j, j ≠ i → arr2[j]? = arr[j]?) →
      updateChain cur p2 f = some c2 →
      ∀ q, ¬ (q <+: (p2 ++ [i])) → ¬ ((p2 ++ [i]) <+: q) →
        goGet (some c2) q = goGet (some cur) q := by
  intro p2
  induction p2 with
  | nil =>
    intro cur c2 f i hf hc2 q hq1 hq2
    have hfc : f cur = some c2 := hc2
    cases q with
    | nil => exact absurd ⟨[i], rfl⟩ hq1
    | cons j rest =>
      by_cases hji : j = i
      · subst hji
        exact absurd ⟨rest, rfl⟩ hq2
      · have hjq : c2[j]? = cur[j]? := hf cur c2 hfc j hji
        cases rest with
        | nil =>
          have e1 : goGet (some c2) [j] = .ok c2[j]? := rfl
          have e2 : goGet (some cur) [j] = .ok cur[j]? := rfl
          rw [e1, e2, hjq]
        | cons y ys =>
          have e1 : goGet (some c2) (j :: y :: ys) =
              (match c2[j]? with
                | none => Except.ok none
                | some nd => goGet nd.contentVal (y :: ys)) := rfl
          have e2 : goGet (some cur) (j :: y :: ys) =
              (match cur[j]? with
                | none => Except.ok none
                | some nd => goGet nd.contentVal (y :: ys)) := rfl
          rw [e1, e2, hjq]
  | cons k pp ih =>
    intro cur c2 f i hf hc2 q hq1 hq2
    rw [updateChain] at hc2
    split at hc2
    · rename_i hlt
      cases hcv : (cur.get ⟨k, hlt⟩).contentVal with
      | some child =>
        simp only [hcv] at hc2
        cases hc2x : updateChain child pp f with
        | none => rw [hc2x] at hc2; exact absurd hc2 (by simp)
        | some c2x =>
        rw [hc2x] at hc2
        have hset : cur.set k ((cur.get ⟨k, hlt⟩).withContent c2x) = c2 := by
          simpa using hc2
        subst hset
        cases q with
        | nil => exact absurd ⟨_, rfl⟩ hq1
        | cons j rest =>
          by_cases hjk : j = k
          · subst hjk
            rw [List.cons_append] at hq1 hq2
            have hr1 : ¬ (rest <+: (pp ++ [i])) := fun hp =>
              hq1 (List.cons_prefix_cons.mpr ⟨rfl, hp⟩)
            have hr2 : ¬ ((pp ++ [i]) <+: rest) := fun hp =>
              hq2 (List.cons_prefix_cons.mpr ⟨rfl, hp⟩)
            cases rest with
            | nil => exact absurd ⟨pp ++ [i], rfl⟩ hq1
            | cons y ys =>
              have hlen : j < (cur.set j ((cur.get ⟨j, hlt⟩).withContent c2x)).length := by
                simpa using hlt
              have hg2 : (cur.set j ((cur.get ⟨j, hlt⟩).withContent c2x))[j]? =
                  some ((cur.get ⟨j, hlt⟩).withContent c2x) := by
                rw [List.getElem?_eq_getElem hlen]
                simp [List.getElem_set]
              have hg1 : cur[j]? = some (cur.get ⟨j, hlt⟩) := by
                rw [List.getElem?_eq_getElem hlt, List.get_eq_getElem]
              have e1 : goGet (some (cur.set j ((cur.get ⟨j, hlt⟩).withContent c2x))) (j :: y :: ys) =
                  (match (cur.set j ((cur.get ⟨j, hlt⟩).withContent c2x))[j]? with
                    | none => Except.ok none
                    | some nd => goGet nd.contentVal (y :: ys)) := rfl
              have e2 : goGet (some cur) (j :: y :: ys) =
                  (match cur[j]? with
                    | none => Except.ok none
                    | some nd => goGet nd.contentVal (y :: ys)) := rfl
              rw [e1, e2]
              simp only [hg2, hg1]
              have hwc : ((cur.get ⟨j, hlt⟩).withContent c2x).contentVal = some c2x := by
                cases hnd : cur.get ⟨j, hlt⟩ with
                | mk t aS a cS c tS tx mS m ex =>
                  simp [ADFNodeModel.withContent, ADFNodeModel.contentVal,
                    ADFNodeModel.content, ADFNodeModel.contentSet]
              rw [hwc, hcv]
              exact ih child c2x f i hf hc2x (y :: ys) hr1 hr2
          · have hjq : (cur.set k ((cur.get ⟨k, hlt⟩).withContent c2x))[j]? = cur[j]? := by
              rw [List.getElem?_set_ne (fun he => hjk he.symm)]
            cases rest with
            | nil =>
              have e1 : goGet (some (cur.set k ((cur.get ⟨k, hlt⟩).withContent c2x))) [j] =
                  .ok (cur.set k ((cur.get ⟨k, hlt⟩).withContent c2x))[j]? := rfl
              have e2 : goGet (some cur) [j] = .ok cur[j]? := rfl
              rw [e1, e2, hjq]
            | cons y ys =>
              have e1 : goGet (some (cur.set k ((cur.get ⟨k, hlt⟩).withContent c2x))) (j :: y :: ys) =
                  (match (cur.set k ((cur.get ⟨k, hlt⟩).withContent c2x))[j]? with
                    | none => Except.ok none
                    | some nd => goGet nd.contentVal (y :: ys)) := rfl
              have e2 : goGet (some cur) (j :: y :: ys) =
                  (match cur[j]? with
                    | none => Except.ok none
                    | some nd => goGet nd.contentVal (y :: ys)) := rfl
              rw [e1, e2, hjq]
      | none =>
        simp only [hcv] at hc2
        exact absurd hc2 (by simp)
    · exact absurd hc2 (by simp)

/-- Runtime `node.attrs`: unset fields hold the `default_factory` empty dict. -/
def ADFNodeModel.attrsVal (n : ADFNodeModel) : Option (List (String × JVal)) :=
  match n.attrs with
  | some a => some a
  | none => if n.attrsSet then none else some []

/-- Runtime `node.marks`: unset fields hold the `default_factory` empty list. -/
def ADFNodeModel.marksVal (n : ADFNodeModel) : Option (List ADFMarkModel) :=
  match n.marks with
  | some m => some m
  | none => if n.marksSet then none else some []

theorem ADFNodeModel.withText_type (n : ADFNodeModel) (s : String) :
    (n.withText s).type = n.type := by cases n; rfl

theorem ADFNodeModel.withText_marks (n : ADFNodeModel) (s : String) :
    (n.withText s).marks = n.marks := by cases n; rfl

theorem ADFNodeModel.withText_marksSet (n : ADFNodeModel) (s : String) :
    (n.withText s).marksSet = n.marksSet := by cases n; rfl

theorem ADFNodeModel.withText_attrs (n : ADFNodeModel) (s : String) :
    (n.withText s).attrs = n.attrs := by cases n; rfl

theorem ADFNodeModel.withText_attrsSet (n : ADFNodeModel) (s : String) :
    (n.withText s).attrsSet = n.attrsSet := by cases n; rfl

theorem ADFNodeModel.withText_content (n : ADFNodeModel) (s : String) :
    (n.withText s).content = n.content := by cases n; rfl

theorem ADFNodeModel.withText_contentSet (n : ADFNodeModel) (s : String) :
    (n.withText s).contentSet = n.contentSet := by cases n; rfl

theorem ADFNodeModel.withText_extra (n : ADFNodeModel) (s : String) :
    (n.withText s).extra = n.extra := by cases n; rfl

theorem ADFNodeModel.withText_text (n : ADFNodeModel) (s : String) :
    (n.withText s).text = some s := by cases n; rfl

/-- The in-place `element.text = new_text` of `_apply_update_text_operation`,
rendered functionally: rebuild the content chain along the element path and
replace the addressed node by its `withText` update. -/
def setTextAt (cur : List ADFNodeModel) (path : List Nat) (s : String) :
    List ADFNodeModel :=
  (updateChain cur path.dropLast (fun a =>
    match path.getLast? with
    | none => none
    | some j =>
      if h : j < a.length then some (a.set j ((a.get ⟨j, h⟩).withText s))
      else none)).getD cur

/-- `_apply_update_text_operation`: resolve the element (`_get_element_at_path`
= `_get_node_by_path`; its uncaught `TypeError` propagates), return 0 when it
is `None` or its type is not `"text"`, otherwise assign `element.text`. -/
def applyUpdateTextOperation (doc : ADFDocumentModel) (path : List Nat)
    (newText : String) : Except Unit (Nat × ADFDocumentModel) :=
  match getNodeByPath doc path with
  | .error _ => .error ()
  | .ok none => .ok (0, doc)
  | .ok (some el) =>
    if el.type = "text" then
      .ok (1, { doc with content := setTextAt doc.content path newText })
    else .ok (0, doc)

theorem applyUpdateText_none (doc : ADFDocumentModel) (path : List Nat)
    (s : String) (h : getNodeByPath doc path = .ok none) :
    applyUpdateTextOperation doc path s = .ok (0, doc) := by
  simp only [applyUpdateTextOperation, h]

theorem applyUpdateText_nontext (doc : ADFDocumentModel) (path : List Nat)
    (el : ADFNodeModel) (s : String)
    (h : getNodeByPath doc path = .ok (some el)) (ht : el.type ≠ "text") :
    applyUpdateTextOperation doc path s = .ok (0, doc) := by
  simp only [applyUpdateTextOperation, h]
  rw [if_neg ht]

theorem applyUpdateText_success (doc : ADFDocumentModel) (path : List Nat)
    (el : ADFNodeModel) (s : String)
    (hel : getNodeByPath doc path = .ok (some el))
    (htype : el.type = "text") :
    ∃ doc2, applyUpdateTextOperation doc path s = .ok (1, doc2) ∧
      getNodeByPath doc2 path = .ok (some (el.withText s)) ∧
      ∀ q, ¬ (q <+: path) → ¬ (path <+: q) →
        getNodeByPath doc2 q = getNodeByPath doc q := by
  have hne : path ≠ [] := by
    intro hn
    subst hn
    rw [getNodeByPath_nil] at hel
    exact absurd hel (by simp)
  have hisE : path.isEmpty = false := by
    cases path with
    | nil => exact absurd rfl hne
    | cons a l => rfl
  have hget : goGet (some doc.content) path = .ok (some el) := by
    rw [getNodeByPath, if_neg (by simp [hisE])] at hel
    exact hel
  obtain ⟨p2, i, arr, hpath, hpar, hlt, helget⟩ :=
    goGet_some_parent path doc.content el hget
  obtain ⟨F, hFdef⟩ : ∃ F, F = (fun a : List ADFNodeModel =>
      match path.getLast? with
      | none => none
      | some j =>
        if h : j < a.length then some (a.set j ((a.get ⟨j, h⟩).withText s))
        else none) := ⟨_, rfl⟩
  have hlastd : path.getLast? = some i := by
    rw [hpath]; exact List.getLast?_concat _
  have hdrop : path.dropLast = p2 := by
    rw [hpath]; exact List.dropLast_concat
  have hFi : ∀ a : List ADFNodeModel, F a =
      (if h : i < a.length then some (a.set i ((a.get ⟨i, h⟩).withText s))
       else none) := by
    intro a; rw [hFdef]; simp only [hlastd]
  have hFarr : F arr = some (arr.set i (el.withText s)) := by
    rw [hFi arr, dif_pos hlt, helget]
  obtain ⟨-, h2⟩ := updateChain_of_goParent_some p2 doc.content arr F hpar
  obtain ⟨c2, hc2, hg2⟩ := h2 _ hFarr
  have hSTA : setTextAt doc.content path s = c2 := by
    rw [setTextAt, hdrop, ← hFdef, hc2, Option.getD_some]
  refine ⟨{ doc with content := c2 }, ?_, ?_, ?_⟩
  · simp only [applyUpdateTextOperation, hel]
    rw [if_pos htype, hSTA]
  · have hlen2 : i < (arr.set i (el.withText s)).length := by simpa using hlt
    have hread := goGet_of_parent p2 c2 (arr.set i (el.withText s)) hg2 i hlen2
    have hgetset : (arr.set i (el.withText s)).get ⟨i, hlen2⟩ = el.withText s := by
      rw [List.get_eq_getElem]
      simp [List.getElem_set]
    rw [hgetset] at hread
    rw [getNodeByPath, if_neg (by simp [hisE]), hpath]
    exact hread
  · intro q hq1 hq2
    rw [hpath] at hq1 hq2
    have hfOK : ∀ a a2, F a = some a2 → ∀ j, j ≠ i → a2[j]? = a[j]? := by
      intro a a2 hfa j hji
      rw [hFi a] at hfa
      by_cases h : i < a.length
      · rw [dif_pos h] at hfa
        have : a.set i ((a.get ⟨i, h⟩).withText s) = a2 := by simpa using hfa
        rw [← this]
        exact List.getElem?_set_ne (fun he => hji he.symm)
      · rw [dif_neg h] at hfa
        exact absurd hfa (by simp)
    have hframe := goGet_updateChain_frame p2 doc.content c2 F i hfOK hc2 q hq1 hq2
    cases q with
    | nil => rfl
    | cons a l =>
      rw [getNodeByPath, getNodeByPath]
      simp only [List.isEmpty_cons, Bool.false_eq_true, if_false]
      exact hframe

/-! ### Writer operations (`writer.py`) -/

/-- `mark.get("type")` (Python `None` when absent); non-dict marks are the
callers' error cases. -/
def markTypeJ : JVal → Option JVal
  | .obj kvs => dGet kvs "type"
  | _ => none

/-- `{mark.get("type") for mark in new_element.get("marks", [])}` — the frozen
set of mark types already on the new element; `mark.get` on a non-dict raises
`AttributeError` (the `.error` channel). -/
def markTypesOf : List JVal → Except Unit (List (Option JVal))
  | [] => .ok []
  | m :: ms =>
    match m with
    | .obj kvs =>
      match markTypesOf ms with
      | .ok ts => .ok (dGet kvs "type" :: ts)
      | .error e => .error e
    | _ => .error ()

/-- The `for mark in original_marks` loop of `_apply_replace_operation`:
append each original mark whose type is not in the frozen set. -/
def appendPreservedMarks : List JVal → List (Option JVal) → Except Unit (List JVal)
  | [], _ => .ok []
  | m :: ms, ex =>
    match m with
    | .obj kvs =>
      match appendPreservedMarks ms ex with
      | .ok rest => .ok (if dGet kvs "type" ∈ ex then rest else m :: rest)
      | .error e => .error e
    | _ => .error ()

/-- The preservation preamble of `_apply_replace_operation`: merge the
original's `attrs` under the new element's (`{**original_attrs, **new_attrs}`)
when `preserve_attributes` and the original's attrs are truthy, and append
the original's marks whose type is not already present when `preserve_marks`
and the new element is a text node.  `**` over a non-dict and `mark.get` on a
non-dict raise (the `.error` channel). -/
def replaceMergeContent (original newContent : JVal)
    (preserveAttributes preserveMarks : Bool) : Except Unit JVal :=
  let step1 : Except Unit JVal :=
    if preserveAttributes then
      match original with
      | .obj okvs =>
        let originalAttrs := (dGet okvs "attrs").getD (.obj [])
        if truthy originalAttrs then
          match newContent with
          | .obj nkvs =>
            let nkvs1 := if (dGet nkvs "attrs").isSome then nkvs
                         else dSet nkvs "attrs" (.obj [])
            match originalAttrs, (dGet nkvs1 "attrs").getD (.obj []) with
            | .obj oa, .obj na => .ok (.obj (dSet nkvs1 "attrs" (.obj (dMerge oa na))))
            | _, _ => .error ()
          | _ => .ok newContent
        else .ok newContent
      | _ => .ok newContent
    else .ok newContent
  match step1 with
  | .error e => .error e
  | .ok ne1 =>
    if preserveMarks then
      match original with
      | .obj okvs =>
        let originalMarks := (dGet okvs "marks").getD (.arr [])
        if truthy originalMarks then
          match ne1 with
          | .obj nkvs =>
            if dGet nkvs "type" = some (.str "text") then
              let nkvs1 := if (dGet nkvs "marks").isSome then nkvs
                           else dSet nkvs "marks" (.arr [])
              match (dGet nkvs1 "marks").getD (.arr []) with
              | .arr nmarks =>
                match markTypesOf nmarks with
                | .error e => .error e
                | .ok existing =>
                  match originalMarks with
                  | .arr omarks =>
                    match appendPreservedMarks omarks existing with
                    | .error e => .error e
                    | .ok appended =>
                      .ok (.obj (dSet nkvs1 "marks" (.arr (nmarks ++ appended))))
                  | _ => .error ()
              | _ => .error ()
            else .ok ne1
          | _ => .ok ne1
        else .ok ne1
      | _ => .ok ne1
    else .ok ne1

/-- `_apply_replace_operation` for one matched element: build the merged
element, then `_replace_element_at_path`; 1 on success, 0 on `False`. -/
def applyReplaceOperation (doc : ADFDocumentModel) (path : List Nat)
    (original newContent : JVal) (preserveAttributes preserveMarks : Bool) :
    Except Unit (Nat × ADFDocumentModel) :=
  match replaceMergeContent original newContent preserveAttributes preserveMarks with
  | .error e => .error e
  | .ok merged =>
    match replaceElementAtPath doc path merged with
    | .error e => .error e
    | .ok (true, d2) => .ok (1, d2)
    | .ok (false, d2) => .ok (0, d2)

/-- `_apply_insert_before_operation`: a target path shorter than 2 is
rejected (0 applied); otherwise insert at the target's sibling index. -/
def applyInsertBeforeOperation (doc : ADFDocumentModel) (path : List Nat)
    (newContent : JVal) : Except Unit (Nat × ADFDocumentModel) :=
  if h : path.length < 2 then .ok (0, doc)
  else
    match insertElementAtPath doc path.dropLast
        ((path.getLast (by intro hn; rw [hn] at h; exact h (by decide)) : Nat) : Int)
        newContent with
    | .error e => .error e
    | .ok (true, d2) => .ok (1, d2)
    | .ok (false, d2) => .ok (0, d2)

/-- `_apply_insert_after_operation`: as before, at the sibling index plus 1. -/
def applyInsertAfterOperation (doc : ADFDocumentModel) (path : List Nat)
    (newContent : JVal) : Except Unit (Nat × ADFDocumentModel) :=
  if h : path.length < 2 then .ok (0, doc)
  else
    match insertElementAtPath doc path.dropLast
        (((path.getLast (by intro hn; rw [hn] at h; exact h (by decide)) : Nat) : Int) + 1)
        newContent with
    | .error e => .error e
    | .ok (true, d2) => .ok (1, d2)
    | .ok (false, d2) => .ok (0, d2)

theorem dGet_map_overwrite (a : List (String × JVal)) (k : String) (v : JVal) :
    dGet (a.map (fun p => if p.1 == k then (p.1, v) else p)) k
      = if a.any (fun p => p.1 == k) then some v else none := by
  induction a with
  | nil => rfl
  | cons p a ih =>
    obtain ⟨k1, v1⟩ := p
    by_cases h : k1 = k
    · subst h
      simp only [List.map_cons, List.any_cons, beq_self_eq_true, if_pos,
        Bool.true_or, if_true]
      rw [dGet_cons]
      simp
    · have hb : (k1 == k) = false := by simpa using h
      simp only [List.map_cons, List.any_cons, hb, Bool.false_or, if_false]
      rw [dGet_cons, if_neg (by simp [hb]), ih]

theorem dGet_map_overwrite_ne (a : List (String × JVal)) (k k1 : String)
    (v : JVal) (h : k ≠ k1) :
    dGet (a.map (fun p => if p.1 == k1 then (p.1, v) else p)) k = dGet a k := by
  induction a with
  | nil => rfl
  | cons p a ih =>
    obtain ⟨k2, v2⟩ := p
    by_cases h2 : k2 = k1
    · subst h2
      simp only [List.map_cons, beq_self_eq_true, if_pos]
      rw [dGet_cons, dGet_cons, if_neg (by simp; exact fun he => h he.symm),
        if_neg (by simp; exact fun he => h he.symm), ih]
    · have hb : (k2 == k1) = false := by simpa using h2
      simp only [List.map_cons, hb, Bool.false_eq_true, if_false]
      rw [dGet_cons, dGet_cons, ih]

theorem dGet_dSet_self (a : List (String × JVal)) (k : String) (v : JVal) :
    dGet (dSet a k v) k = some v := by
  rw [dSet]
  by_cases h : a.any (fun p => p.1 == k)
  · rw [if_pos h, dGet_map_overwrite, if_pos h]
  · rw [if_neg h, dGet_append]
    have hn : dGet a k = none := by
      apply dGet_eq_none
      intro p hp he
      exact h (List.any_eq_true.mpr ⟨p, hp, by simp [he]⟩)
    rw [hn]
    rw [dGet_cons]
    simp

theorem dGet_dSet_ne (a : List (String × JVal)) (k k1 : String) (v : JVal)
    (h : k ≠ k1) : dGet (dSet a k1 v) k = dGet a k := by
  rw [dSet]
  by_cases hany : a.any (fun p => p.1 == k1)
  · rw [if_pos hany, dGet_map_overwrite_ne _ _ _ _ h]
  · rw [if_neg hany, dGet_append_single_ne _ _ _ h]

theorem dMerge_nil (a : List (String × JVal)) : dMerge a [] = a := rfl

theorem dMerge_cons (a : List (String × JVal)) (k1 : String) (v1 : JVal)
    (b : List (String × JVal)) :
    dMerge a ((k1, v1) :: b) = dMerge (dSet a k1 v1) b := rfl

theorem dGet_dMerge (b : List (String × JVal)) (a : List (String × JVal))
    (k : String) (hnd : (b.map Prod.fst).Nodup) :
    dGet (dMerge a b) k = ((dGet b k).orElse (fun _ => dGet a k)) := by
  induction b generalizing a with
  | nil => rw [dMerge_nil, dGet_nil]; rfl
  | cons p b ih =>
    obtain ⟨k1, v1⟩ := p
    rw [List.map_cons, List.nodup_cons] at hnd
    obtain ⟨hk1, hnd2⟩ := hnd
    rw [dMerge_cons, ih (dSet a k1 v1) hnd2, dGet_cons]
    by_cases h : k1 = k
    · subst h
      have hb : dGet b k1 = none := by
        apply dGet_eq_none
        intro p hp he
        exact hk1 (List.mem_map.mpr ⟨p, hp, he⟩)
      rw [hb, if_pos (by simp), dGet_dSet_self]
      rfl
    · rw [if_neg (by simp [h]), dGet_dSet_ne _ _ _ _ (fun he => h he.symm)]

theorem markTypesOf_ok (ms : List JVal)
    (h : ∀ m ∈ ms, ∃ kvs, m = JVal.obj kvs) :
    markTypesOf ms = .ok (ms.map markTypeJ) := by
  induction ms with
  | nil => rfl
  | cons m ms ih =>
    obtain ⟨kvs, hm⟩ := h m (by simp)
    subst hm
    rw [markTypesOf, ih (fun x hx => h x (by simp [hx]))]
    simp [markTypeJ]

theorem appendPreservedMarks_ok (ms : List JVal) (ex : List (Option JVal))
    (h : ∀ m ∈ ms, ∃ kvs, m = JVal.obj kvs) :
    appendPreservedMarks ms ex =
      .ok (ms.filter (fun m => decide (markTypeJ m ∉ ex))) := by
  induction ms with
  | nil => rfl
  | cons m ms ih =>
    obtain ⟨kvs, hm⟩ := h m (by simp)
    subst hm
    rw [appendPreservedMarks]
    simp only [ih (fun x hx => h x (by simp [hx]))]
    by_cases hmem : dGet kvs "type" ∈ ex
    · rw [if_pos hmem, List.filter_cons]
      rw [if_neg (by simp [markTypeJ, hmem])]
    · rw [if_neg hmem, List.filter_cons]
      rw [if_pos (by simp [markTypeJ, hmem])]

theorem replaceMerge_attrs (okvs nkvs oa na : List (String × JVal))
    (hoattrs : dGet okvs "attrs" = some (.obj oa)) (hoa : oa ≠ [])
    (hnattrs : dGet nkvs "attrs" = some (.obj na) ∨
      (dGet nkvs "attrs" = none ∧ na = [])) :
    ∃ res, replaceMergeContent (.obj okvs) (.obj nkvs) true false =
        .ok (.obj res) ∧
      dGet res "attrs" = some (.obj (dMerge oa na)) ∧
      ∀ k, k ≠ "attrs" → dGet res k = dGet nkvs k := by
  have htr : truthy (.obj oa) = true := by
    cases oa with
    | nil => exact absurd rfl hoa
    | cons a l => rfl
  rcases hnattrs with hna | ⟨hna, hnaeq⟩
  · refine ⟨dSet nkvs "attrs" (.obj (dMerge oa na)), ?_, dGet_dSet_self _ _ _,
      fun k hk => dGet_dSet_ne _ _ _ _ hk⟩
    simp only [replaceMergeContent, hoattrs, Option.getD_some, htr, if_true,
      hna, Option.isSome_some, if_pos, Bool.false_eq_true, if_false]
  · subst hnaeq
    refine ⟨dSet (dSet nkvs "attrs" (.obj [])) "attrs" (.obj (dMerge oa [])),
      ?_, dGet_dSet_self _ _ _, fun k hk => by
        rw [dGet_dSet_ne _ _ _ _ hk, dGet_dSet_ne _ _ _ _ hk]⟩
    simp only [replaceMergeContent, hoattrs, Option.getD_some, htr, if_true,
      hna, Option.isSome_none, Bool.false_eq_true, if_false,
      dGet_dSet_self, Option.getD_some]

theorem replaceMerge_marks (okvs nkvs : List (String × JVal))
    (omarks nmarks : List JVal)
    (homarks : dGet okvs "marks" = some (.arr omarks)) (hom : omarks ≠ [])
    (htype : dGet nkvs "type" = some (.str "text"))
    (hnmarks : dGet nkvs "marks" = some (.arr nmarks) ∨
      (dGet nkvs "marks" = none ∧ nmarks = []))
    (hwfo : ∀ m ∈ omarks, ∃ kvs, m = JVal.obj kvs)
    (hwfn : ∀ m ∈ nmarks, ∃ kvs, m = JVal.obj kvs) :
    ∃ res, replaceMergeContent (.obj okvs) (.obj nkvs) false true =
        .ok (.obj res) ∧
      dGet res "marks" = some (.arr (nmarks ++
        omarks.filter (fun m => decide (markTypeJ m ∉ nmarks.map markTypeJ)))) ∧
      ∀ k, k ≠ "marks" → dGet res k = dGet nkvs k := by
  have htr : truthy (.arr omarks) = true := by
    cases omarks with
    | nil => exact absurd rfl hom
    | cons a l => rfl
  have hmt := markTypesOf_ok nmarks hwfn
  have hap := appendPreservedMarks_ok omarks (nmarks.map markTypeJ) hwfo
  rcases hnmarks with hnm | ⟨hnm, hnmeq⟩
  · refine ⟨dSet nkvs "marks"
        (.arr (nmarks ++ omarks.filter
          (fun m => decide (markTypeJ m ∉ nmarks.map markTypeJ)))),
      ?_, dGet_dSet_self _ _ _, fun k hk => dGet_dSet_ne _ _ _ _ hk⟩
    simp only [replaceMergeContent, Bool.false_eq_true, if_false, homarks,
      Option.getD_some, htr, if_true, htype, if_pos, hnm, Option.isSome_some,
      hmt, hap]
  · subst hnmeq
    refine ⟨dSet (dSet nkvs "marks" (.arr [])) "marks"
        (.arr ([] ++ omarks.filter
          (fun m => decide (markTypeJ m ∉ ([] : List JVal).map markTypeJ)))),
      ?_, dGet_dSet_self _ _ _, fun k hk => by
        rw [dGet_dSet_ne _ _ _ _ hk, dGet_dSet_ne _ _ _ _ hk]⟩
    simp only [replaceMergeContent, Bool.false_eq_true, if_false, homarks,
      Option.getD_some, htr, if_true, htype, if_pos, hnm, Option.isSome_none,
      dGet_dSet_self, hmt, hap]

theorem applyInsertBefore_shortpath (doc : ADFDocumentModel) (path : List Nat)
    (newContent : JVal) (h : path.length < 2) :
    applyInsertBeforeOperation doc path newContent = .ok (0, doc) := by
  rw [applyInsertBeforeOperation, dif_pos h]

theorem applyInsertAfter_shortpath (doc : ADFDocumentModel) (path : List Nat)
    (newContent : JVal) (h : path.length < 2) :
    applyInsertAfterOperation doc path newContent = .ok (0, doc) := by
  rw [applyInsertAfterOperation, dif_pos h]

theorem applyInsertBefore_ok (doc : ADFDocumentModel) (path : List Nat)
    (raw : JVal) (nd : ADFNodeModel) (arr : List ADFNodeModel)
    (hlen : 2 ≤ path.length)
    (hparse : parseNode raw = some nd)
    (hpar : getParentAtPath doc path.dropLast = some arr) :
    ∃ doc2, ∃ hne : path ≠ [],
      applyInsertBeforeOperation doc path raw = .ok (1, doc2) ∧
      getParentAtPath doc2 path.dropLast =
        some (arr.insertIdx
          (max 0 (min ((path.getLast hne : Nat) : Int) (arr.length : Int))).toNat
          nd) := by
  have hne : path ≠ [] := by
    intro hn; rw [hn] at hlen; simp at hlen
  obtain ⟨doc2, hins, hpar2⟩ := insertElementAtPath_clamps doc path.dropLast
    ((path.getLast hne : Nat) : Int) raw nd arr hparse hpar
  refine ⟨doc2, hne, ?_, hpar2⟩
  rw [applyInsertBeforeOperation, dif_neg (Nat.not_lt.mpr hlen)]
  rw [hins]

theorem applyInsertAfter_ok (doc : ADFDocumentModel) (path : List Nat)
    (raw : JVal) (nd : ADFNodeModel) (arr : List ADFNodeModel)
    (hlen : 2 ≤ path.length)
    (hparse : parseNode raw = some nd)
    (hpar : getParentAtPath doc path.dropLast = some arr) :
    ∃ doc2, ∃ hne : path ≠ [],
      applyInsertAfterOperation doc path raw = .ok (1, doc2) ∧
      getParentAtPath doc2 path.dropLast =
        some (arr.insertIdx
          (max 0 (min (((path.getLast hne : Nat) : Int) + 1) (arr.length : Int))).toNat
          nd) := by
  have hne : path ≠ [] := by
    intro hn; rw [hn] at hlen; simp at hlen
  obtain ⟨doc2, hins, hpar2⟩ := insertElementAtPath_clamps doc path.dropLast
    (((path.getLast hne : Nat) : Int) + 1) raw nd arr hparse hpar
  refine ⟨doc2, hne, ?_, hpar2⟩
  rw [applyInsertAfterOperation, dif_neg (Nat.not_lt.mpr hlen)]
  rw [hins]

/-! ### Writer retry loop (`update_page_preserving_formatting`) -/

/-- Outcome of one `confluence_client.update_page_adf` call: a page on
success, a `ValueError` (the client raises one for a 409 version conflict),
or any other exception. -/
inductive WriteResult where
  | ok (page : JVal)
  | valueError (msg : String)
  | otherExc (msg : String)

/-- What the update returns or raises. -/
inductive UpdateResult where
  | success (retryCount : Nat) (written : JVal)
  | valueError (msg : String)
  | runtimeError (msg : String)
deriving DecidableEq

/-- Python `str.lower()` (ASCII case folding, applied character-wise). -/
def pyLower (s : String) : String := ⟨s.data.map Char.toLower⟩

/-- `"conflict" in str(e).lower()`. -/
def isConflictMsg (msg : String) : Bool :=
  decide ("conflict".toList <:+: (pyLower msg).toList)

/-- The `while retry_count <= max_retries` loop.  `gas` is the loop-guard
budget `max_retries + 1 - retry_count` (the guard can only fail after
`retry_count` passes `max_retries`, so the `gas = 0` branch is the loop's
fall-through `RuntimeError`).  Attempt `r` fetches `fetch r` (fresh server
state per attempt), applies the operations to that fetch, and writes; the
returned list records `(attempt, document written)` per attempt.  The
validation step is omitted: `validate_document` returns a `bool`, and a
`False` result is only logged, never raised. -/
def updateLoopGo (fetch : Nat → JVal) (write : Nat → JVal → WriteResult)
    (applyOps : JVal → JVal) (maxRetries : Nat) (autoRetry : Bool) :
    Nat → Nat → String → UpdateResult × List (Nat × JVal)
  | 0, _, lastError =>
    (.runtimeError ("Page update failed after " ++ toString maxRetries ++
      " retries: " ++ lastError), [])
  | gas + 1, r, _ =>
    let doc := applyOps (fetch r)
    match write r doc with
    | .ok page2 => (.success r page2, [(r, doc)])
    | .valueError msg =>
      if isConflictMsg msg && autoRetry then
        if r < maxRetries then
          match updateLoopGo fetch write applyOps maxRetries autoRetry
            gas (r + 1) msg with
          | (res, tr) => (res, (r, doc) :: tr)
        else
          (.runtimeError ("Page update failed after " ++ toString maxRetries ++
            " retries: " ++ msg), [(r, doc)])
      else (.valueError msg, [(r, doc)])
    | .otherExc msg => (.runtimeError ("Page update failed: " ++ msg), [(r, doc)])

/-- `update_page_preserving_formatting`, abstracted over the external client
(`fetch` = `get_page_adf` per attempt, `write` = `update_page_adf`) and the
apply-operations step. -/
def updatePagePreservingFormatting (fetch : Nat → JVal)
    (write : Nat → JVal → WriteResult) (applyOps : JVal → JVal)
    (maxRetries : Nat) (autoRetry : Bool) : UpdateResult × List (Nat × JVal) :=
  updateLoopGo fetch write applyOps maxRetries autoRetry (maxRetries + 1) 0 "None"

theorem updateLoopGo_conflict (fetch : Nat → JVal)
    (write : Nat → JVal → WriteResult) (applyOps : JVal → JVal)
    (maxRetries : Nat) (msg : String)
    (hconf : isConflictMsg msg = true)
    (hwrite : ∀ k d, write k d = .valueError msg) :
    ∀ (d r : Nat) (lastE : String), r + d = maxRetries →
      updateLoopGo fetch write applyOps maxRetries true (d + 1) r lastE =
        (.runtimeError ("Page update failed after " ++ toString maxRetries ++
          " retries: " ++ msg),
         (List.range' r (d + 1)).map (fun k => (k, applyOps (fetch k)))) := by
  intro d
  induction d with
  | zero =>
    intro r lastE hr
    rw [Nat.add_zero] at hr
    subst hr
    simp only [updateLoopGo, hwrite, hconf, Bool.and_self, if_true,
      lt_irrefl, if_false]
    simp [List.range']
  | succ d ih =>
    intro r lastE hr
    have hlt : r < maxRetries := by omega
    conv_lhs => rw [updateLoopGo]
    simp only [hwrite, hconf, Bool.and_self, if_true]
    rw [if_pos hlt, ih (r + 1) msg (by omega)]
    simp [List.range'_succ]

/-! ### Validator (`validator.py`) -/

/-- The validation error messages, one constructor per `_add_error` site
(warnings are not collected — they never affect `validate_document`'s
result). -/
inductive VErr where
  | nodeNotDict
  | missingType
  | unknownNodeType (t : String)
  | markNotDict
  | missingMarkType
  | unknownMarkType (t : String)
  | marksNotArray
  | attrsNotDict
  | invalidColor (t : String)
  | linkMissingHref
  | textNotString
  | contentNotArray
  | maxDepthExceeded
  | headingMissingLevel
  | headingBadLevel
  | panelMissingType
  | invalidPanelType (t : String)
  | tableRowExpected
  | tableCellNotDict
  | invalidTableCellType (t : String)
  | extMissingType
  | extMissingKey
  | missingField (f : String)
  | invalidVersion
  | invalidRootType
  | docNotDict
  | exceptionCaught
deriving DecidableEq

/-- The exact `ERROR_MESSAGES` / literal strings each error renders to. -/
def VErr.message : VErr → String
  | .nodeNotDict => "Node must be a dictionary"
  | .missingType => "Node missing required 'type' field"
  | .unknownNodeType t => "Unknown node type: " ++ t
  | .markNotDict => "Mark must be a dictionary"
  | .missingMarkType => "Mark missing required 'type' field"
  | .unknownMarkType t => "Unknown mark type: " ++ t
  | .marksNotArray => "Marks must be an array"
  | .attrsNotDict => "Attributes must be a dictionary"
  | .invalidColor t => "Invalid color value: " ++ t
  | .linkMissingHref => "Link mark missing required 'href' attribute"
  | .textNotString => "Text content must be a string"
  | .contentNotArray => "Content must be an array"
  | .maxDepthExceeded => "Maximum nesting depth (20) exceeded"
  | .headingMissingLevel => "Heading node missing required 'level' attribute"
  | .headingBadLevel => "Heading level must be integer between 1 and 6"
  | .panelMissingType => "Panel node missing required 'panelType' attribute"
  | .invalidPanelType t => "Invalid panel type: " ++ t
  | .tableRowExpected => "Table content must be tableRow nodes"
  | .tableCellNotDict => "Table cell must be dictionary"
  | .invalidTableCellType t => "Invalid table cell type: " ++ t
  | .extMissingType => "Extension missing required 'extensionType' attribute"
  | .extMissingKey => "Extension missing required 'extensionKey' attribute"
  | .missingField f => "Missing required field: " ++ f
  | .invalidVersion => "ADF version must be 1"
  | .invalidRootType => "Root node must be of type 'doc'"
  | .docNotDict => "Document must be a dictionary"
  | .exceptionCaught => "Validation failed with exception"

/-- `constants.MAX_DEPTH`. -/
def MAX_DEPTH : Nat := 20

/-- `constants.PANEL_TYPES` (keys). -/
def panelTypes : List String :=
  ["info", "note", "warning", "error", "success", "tip"]

/-- `constants.CONFLUENCE_COLORS` (keys). -/
def confluenceColors : List String :=
  ["red", "orange", "yellow", "green", "teal", "blue", "purple", "gray",
   "light-red", "light-orange", "light-yellow", "light-green", "light-teal",
   "light-blue", "light-purple", "light-gray"]

/-- Python `str()` as far as the message payloads need it (unhashable values
raise before ever being rendered). -/
def pyShow : JVal → String
  | .str s => s
  | .bool true => "True"
  | .bool false => "False"
  | .num n => toString n
  | .null => "None"
  | _ => "?"

/-- `_validate_color_value`. -/
def validColorValue : JVal → Bool
  | .str s =>
    if s.startsWith "#" then
      decide (s.length = 4 ∨ s.length = 7) &&
        (s.toList.drop 1).all (fun c => "0123456789abcdefABCDEF".toList.contains c)
    else decide (s ∈ confluenceColors)
  | _ => false

/-- `_validate_node_specific_attrs`: the `backgroundColor`/`textColor`
check, first invalid one reported. -/
def colorAttrErrors (akvs : List (String × JVal)) : List VErr :=
  match dGet akvs "backgroundColor" with
  | some cv =>
    if validColorValue cv then
      match dGet akvs "textColor" with
      | some cv2 =>
        if validColorValue cv2 then [] else [.invalidColor (pyShow cv2)]
      | none => []
    else [.invalidColor (pyShow cv)]
  | none =>
    match dGet akvs "textColor" with
    | some cv2 =>
      if validColorValue cv2 then [] else [.invalidColor (pyShow cv2)]
    | none => []

/-- `_validate_attributes` (the attribute-count check only warns). -/
def validateAttrs (av : JVal) : List VErr :=
  match av with
  | .obj akvs => colorAttrErrors akvs
  | _ => [.attrsNotDict]

/-- `_validate_mark_attributes`; `attrs.get` on a non-dict `attrs` raises. -/
def validateMarkAttrs (mkvs : List (String × JVal)) : Except Unit (List VErr) :=
  let tv := dGet mkvs "type"
  let av := (dGet mkvs "attrs").getD (.obj [])
  if tv = some (.str "textColor") ∨ tv = some (.str "backgroundColor") then
    match av with
    | .obj akvs =>
      match dGet akvs "color" with
      | some cv =>
        if truthy cv && !(validColorValue cv) then .ok [.invalidColor (pyShow cv)]
        else .ok []
      | none => .ok []
    | _ => .error ()
  else if tv = some (.str "link") then
    match av with
    | .obj akvs =>
      match dGet akvs "href" with
      | some hv => if truthy hv then .ok [] else .ok [.linkMissingHref]
      | none => .ok [.linkMissingHref]
    | _ => .error ()
  else .ok []

/-- The `for i, mark in enumerate(marks)` loop of `_validate_marks`
(first failure stops the loop); `mark_type not in MARK_TYPES` with an
unhashable type raises `TypeError`. -/
def validateMarkList : List JVal → Except Unit (List VErr)
  | [] => .ok []
  | m :: ms =>
    match m with
    | .obj mkvs =>
      match dGet mkvs "type" with
      | none => .ok [.missingMarkType]
      | some tv =>
        if truthy tv = false then .ok [.missingMarkType]
        else
          match tv with
          | .str t =>
            if t ∈ markTypes then
              match validateMarkAttrs mkvs with
              | .error e => .error e
              | .ok errs =>
                if errs.isEmpty then validateMarkList ms
                else .ok errs
            else .ok [.unknownMarkType t]
          | .arr _ => .error ()
          | .obj _ => .error ()
          | _ => .ok [.unknownMarkType (pyShow tv)]
    | _ => .ok [.markNotDict]

/-- `_validate_marks`. -/
def validateMarks (mv : JVal) : Except Unit (List VErr) :=
  match mv with
  | .arr ms => validateMarkList ms
  | _ => .ok [.marksNotArray]

/-- `_validate_text_content` (the length check only warns). -/
def validateTextContent (tv : JVal) : List VErr :=
  match tv with
  | .str _ => []
  | _ => [.textNotString]

/-- Python `isinstance(level, int) and 1 <= level <= 6` (`bool` is an `int`
subclass: `True` is 1). -/
def levelOk : JVal → Bool
  | .num n => decide (1 ≤ n ∧ n ≤ 6)
  | .bool b => b
  | _ => false

/-- `_validate_heading_node`; `attrs.get` on a non-dict raises. -/
def validateHeading (kvs : List (String × JVal)) : Except Unit (List VErr) :=
  match (dGet kvs "attrs").getD (.obj []) with
  | .obj akvs =>
    match dGet akvs "level" with
    | none => .ok [.headingMissingLevel]
    | some .null => .ok [.headingMissingLevel]
    | some lv => .ok (if levelOk lv then [] else [.headingBadLevel])
  | _ => .error ()

/-- `_validate_panel_node`; unhashable `panelType` values raise in the
`not in PANEL_TYPES` test. -/
def validatePanel (kvs : List (String × JVal)) : Except Unit (List VErr) :=
  match (dGet kvs "attrs").getD (.obj []) with
  | .obj akvs =>
    match dGet akvs "panelType" with
    | none => .ok [.panelMissingType]
    | some .null => .ok [.panelMissingType]
    | some (.str p) =>
      if p ∈ panelTypes then .ok [] else .ok [.invalidPanelType p]
    | some (.arr _) => .error ()
    | some (.obj _) => .error ()
    | some pv => .ok [.invalidPanelType (pyShow pv)]
  | _ => .error ()

/-- The cell loop of `_validate_table_node` (first failure stops). -/
def validateTableCells : List JVal → List VErr
  | [] => []
  | c :: cs =>
    match c with
    | .obj ckvs =>
      match dGet ckvs "type" with
      | some (.str "tableCell") => validateTableCells cs
      | some (.str "tableHeader") => validateTableCells cs
      | some tv => [.invalidTableCellType (pyShow tv)]
      | none => [.invalidTableCellType "None"]
    | _ => [.tableCellNotDict]

/-- The row loop of `_validate_table_node`; iterating a non-iterable
`content` raises. -/
def validateTableRows : List JVal → Except Unit (List VErr)
  | [] => .ok []
  | r :: rs =>
    match r with
    | .obj rkvs =>
      if dGet rkvs "type" = some (.str "tableRow") then
        match (dGet rkvs "content").getD (.arr []) with
        | .arr cells =>
          match validateTableCells cells with
          | [] => validateTableRows rs
          | errs => .ok errs
        | .str s =>
          if s.isEmpty then validateTableRows rs else .ok [.tableCellNotDict]
        | .obj okvs =>
          if okvs.isEmpty then validateTableRows rs else .ok [.tableCellNotDict]
        | _ => .error ()
      else .ok [.tableRowExpected]
    | _ => .ok [.tableRowExpected]

/-- `_validate_table_node` (an empty/falsy content only warns). -/
def validateTable (kvs : List (String × JVal)) : Except Unit (List VErr) :=
  let cv := (dGet kvs "content").getD (.arr [])
  if truthy cv = false then .ok []
  else
    match cv with
    | .arr rows => validateTableRows rows
    | .str _ => .ok [.tableRowExpected]
    | .obj _ => .ok [.tableRowExpected]
    | _ => .error ()

/-- `_validate_extension_node`; `in` over a non-container `attrs` raises,
over a string it is a substring test, over a list a membership test. -/
def validateExtension (kvs : List (String × JVal)) : Except Unit (List VErr) :=
  match (dGet kvs "attrs").getD (.obj []) with
  | .obj akvs =>
    if (dGet akvs "extensionType").isSome = false then .ok [.extMissingType]
    else if (dGet akvs "extensionKey").isSome = false then .ok [.extMissingKey]
    else .ok []
  | .str s =>
    if decide ("extensionType".toList <:+: s.toList) = false then .ok [.extMissingType]
    else if decide ("extensionKey".toList <:+: s.toList) = false then .ok [.extMissingKey]
    else .ok []
  | .arr l =>
    if (JVal.str "extensionType") ∈ l then
      (if (JVal.str "extensionKey") ∈ l then .ok [] else .ok [.extMissingKey])
    else .ok [.extMissingType]
  | _ => .error ()

/-- `_validate_node_specific`. -/
def validateNodeSpecific (kvs : List (String × JVal)) : Except Unit (List VErr) :=
  match dGet kvs "type" with
  | some (.str "heading") => validateHeading kvs
  | some (.str "panel") => validatePanel kvs
  | some (.str "table") => validateTable kvs
  | some (.str "extension") => validateExtension kvs
  | some (.str "bodiedExtension") => validateExtension kvs
  | some (.str "inlineExtension") => validateExtension kvs
  | _ => .ok []

/-- `if "attrs" in node: self._validate_attributes(...)`. -/
def attrsField : Option JVal → List VErr
  | some av => validateAttrs av
  | none => []

/-- `if "marks" in node: self._validate_marks(...)`. -/
def marksField : Option JVal → Except Unit (List VErr)
  | some mv => validateMarks mv
  | none => .ok []

/-- `if "text" in node: self._validate_text_content(...)`. -/
def textField : Option JVal → List VErr
  | some tv => validateTextContent tv
  | none => []

mutual

/-- `validate_node`: non-dicts, falsy types and unknown types error and stop
(no descent); otherwise every structure check runs and the errors
accumulate in program order. -/
def validateNode (j : JVal) (depth : Nat) : Except Unit (List VErr) :=
  match j with
  | .obj kvs =>
    match dGet kvs "type" with
    | none => .ok [.missingType]
    | some tv =>
      if truthy tv = false then .ok [.missingType]
      else
        match tv with
        | .str t =>
          if t ∈ nodeTypes then
            match marksField (dGet kvs "marks") with
            | .error e => .error e
            | .ok mErrs =>
              match valContentField (dGet kvs "content") depth with
              | .error e => .error e
              | .ok cErrs =>
                match validateNodeSpecific kvs with
                | .error e => .error e
                | .ok sErrs =>
                  .ok (attrsField (dGet kvs "attrs") ++ mErrs ++
                       textField (dGet kvs "text") ++ cErrs ++ sErrs)
          else .ok [.unknownNodeType t]
        | .arr _ => .error ()
        | .obj _ => .error ()
        | _ => .ok [.unknownNodeType (pyShow tv)]
  | _ => .ok [.nodeNotDict]
termination_by sizeOf j
decreasing_by
  all_goals simp_wf
  · cases hdg : dGet kvs "content" with
    | none =>
      have := one_le_sizeOf_list kvs
      simp [JVal.obj.sizeOf_spec]
      omega
    | some v =>
      have h1 := sizeOf_lt_of_dGet hdg
      simp [JVal.obj.sizeOf_spec]
      simp at h1
      omega

/-- `if "content" in node: self._validate_content_array(node["content"], path)`. -/
def valContentField : Option JVal → Nat → Except Unit (List VErr)
  | none, _ => .ok []
  | some cv, depth => validateContentArray cv depth
termination_by o _ => sizeOf o
decreasing_by
  simp_wf
  all_goals omega

/-- `_validate_content_array`: the list check first, then the depth check
*before* the increment, then each node at `depth + 1`. -/
def validateContentArray (cv : JVal) (depth : Nat) : Except Unit (List VErr) :=
  match cv with
  | .arr nodes =>
    if depth > MAX_DEPTH then .ok [.maxDepthExceeded]
    else validateNodeList nodes (depth + 1)
  | _ => .ok [.contentNotArray]
termination_by sizeOf cv
decreasing_by
  simp_wf
  all_goals omega

def validateNodeList : List JVal → Nat → Except Unit (List VErr)
  | [], _ => .ok []
  | n :: ns, depth =>
    match validateNode n depth with
    | .error e => .error e
    | .ok errs =>
      match validateNodeList ns depth with
      | .error e => .error e
      | .ok rest => .ok (errs ++ rest)
termination_by l _ => sizeOf l
decreasing_by
  all_goals simp_wf
  all_goals omega

end

/-- `validate_document`: root structure, version and type checks (each an
early `False`), then the content walk; an exception anywhere is caught and
turned into one error (the model drops any errors collected before it —
no theorem below depends on that branch). -/
def validateDocument (j : JVal) : Bool × List VErr :=
  match j with
  | .obj kvs =>
    if (dGet kvs "version").isSome = false then (false, [.missingField "version"])
    else if (dGet kvs "type").isSome = false then (false, [.missingField "type"])
    else if (dGet kvs "content").isSome = false then (false, [.missingField "content"])
    else if (match dGet kvs "version" with
             | some (.num n) => decide (n = 1)
             | some (.bool b) => b
             | _ => false) = false then (false, [.invalidVersion])
    else if (dGet kvs "type" = some (.str "doc")) = false then (false, [.invalidRootType])
    else
      match validateContentArray ((dGet kvs "content").getD (.arr [])) 0 with
      | .error _ => (false, [.exceptionCaught])
      | .ok errs => (errs.isEmpty, errs)
  | _ => (false, [.docNotDict])

mutual

/-- Nesting depth of the content tree as the validator counts it: the
deepest chain of nodes each carrying a content *array*. -/
def nodeArrH (j : JVal) : Nat :=
  match j with
  | .obj kvs => contentArrH (dGet kvs "content")
  | _ => 0
termination_by sizeOf j
decreasing_by
  simp_wf
  cases hc : dGet kvs "content" with
  | none =>
    have := one_le_sizeOf_list kvs
    simp
    omega
  | some v =>
    have h1 := sizeOf_lt_of_dGet hc
    simp
    omega

def contentArrH : Option JVal → Nat
  | some (.arr cs) => 1 + listArrH cs
  | _ => 0
termination_by o => sizeOf o
decreasing_by
  simp_wf
  all_goals omega

def listArrH : List JVal → Nat
  | [] => 0
  | n :: ns => max (nodeArrH n) (listArrH ns)
termination_by l => sizeOf l
decreasing_by
  all_goals simp_wf
  all_goals omega

end

/-- Shape well-formedness that keeps the validator's walk exception-free:
every node is a dict whose `type` is a known node-type string, whose
`attrs` (when present) is a dict, whose `marks` (when present) is an array
of dict marks with hashable types and dict attrs, and whose `content`
(when present) is an array of such nodes. -/
def cleanMark (m : JVal) : Bool :=
  match m with
  | .obj mkvs =>
    (match dGet mkvs "type" with
     | some (.arr _) => false
     | some (.obj _) => false
     | _ => true) &&
    (match dGet mkvs "attrs" with
     | none => true
     | some (.obj _) => true
     | some _ => false)
  | _ => false

/-- The `attrs` field (when present) must be a dict without an unhashable
`panelType` value. -/
def cleanAttrsField : Option JVal → Bool
  | none => true
  | some (.obj akvs) =>
    (match dGet akvs "panelType" with
     | some (.arr _) => false
     | some (.obj _) => false
     | _ => true)
  | some _ => false

/-- The `marks` field (when present) must be an array of clean marks. -/
def cleanMarksField : Option JVal → Bool
  | none => true
  | some (.arr ms) => ms.all cleanMark
  | some _ => false

mutual

def cleanNode (j : JVal) : Bool :=
  match j with
  | .obj kvs =>
    (match dGet kvs "type" with
     | some (.str t) => decide (t ∈ nodeTypes)
     | _ => false) &&
    cleanAttrsField (dGet kvs "attrs") &&
    cleanMarksField (dGet kvs "marks") &&
    cleanContent (dGet kvs "content")
  | _ => false
termination_by sizeOf j
decreasing_by
  simp_wf
  cases hc : dGet kvs "content" with
  | none =>
    have := one_le_sizeOf_list kvs
    simp
    omega
  | some v =>
    have h1 := sizeOf_lt_of_dGet hc
    simp
    omega

def cleanContent : Option JVal → Bool
  | none => true
  | some (.arr cs) => cleanNodeList cs
  | some _ => false
termination_by o => sizeOf o
decreasing_by
  simp_wf
  all_goals omega

def cleanNodeList : List JVal → Bool
  | [] => true
  | n :: ns => cleanNode n && cleanNodeList ns
termination_by l => sizeOf l
decreasing_by
  all_goals simp_wf
  all_goals omega

end

theorem no_depth_colorAttrErrors (akvs : List (String × JVal)) :
    VErr.maxDepthExceeded ∉ colorAttrErrors akvs := by
  unfold colorAttrErrors
  repeat' split
  all_goals simp

theorem no_depth_validateAttrs (av : JVal) :
    VErr.maxDepthExceeded ∉ validateAttrs av := by
  unfold validateAttrs
  split
  · exact no_depth_colorAttrErrors _
  all_goals simp

theorem no_depth_validateMarkAttrs (mkvs : List (String × JVal))
    (errs : List VErr) (h : validateMarkAttrs mkvs = .ok errs) :
    VErr.maxDepthExceeded ∉ errs := by
  simp only [validateMarkAttrs] at h
  repeat' split at h
  all_goals try exact Except.noConfusion h
  all_goals simp only [Except.ok.injEq] at h
  all_goals (rw [← h]; simp)

theorem no_depth_validateMarkList :
    ∀ (ms : List JVal) (errs : List VErr),
      validateMarkList ms = .ok errs → VErr.maxDepthExceeded ∉ errs := by
  intro ms
  induction ms with
  | nil =>
    intro errs h
    simp only [validateMarkList, Except.ok.injEq] at h
    rw [← h]
    simp
  | cons m ms ih =>
    intro errs h
    cases m with
    | obj mkvs =>
      rw [validateMarkList] at h
      cases hty : dGet mkvs "type" with
      | none =>
        simp only [hty, Except.ok.injEq] at h
        rw [← h]; simp
      | some tv =>
        simp only [hty] at h
        by_cases htr : truthy tv = false
        · rw [if_pos htr] at h
          simp only [Except.ok.injEq] at h
          rw [← h]; simp
        · rw [if_neg htr] at h
          cases tv with
          | str t =>
            have h2 : (if t ∈ markTypes then
                (match validateMarkAttrs mkvs with
                 | Except.error e => Except.error e
                 | Except.ok errs2 =>
                   if errs2.isEmpty then validateMarkList ms else Except.ok errs2)
                else Except.ok [VErr.unknownMarkType t]) = Except.ok errs := h
            by_cases hmem : t ∈ markTypes
            · rw [if_pos hmem] at h2
              cases hma : validateMarkAttrs mkvs with
              | error e =>
                simp only [hma] at h2
                exact Except.noConfusion h2
              | ok errs2 =>
                simp only [hma] at h2
                by_cases hemp : errs2.isEmpty
                · rw [if_pos hemp] at h2
                  exact ih _ h2
                · rw [if_neg hemp] at h2
                  simp only [Except.ok.injEq] at h2
                  rw [← h2]
                  exact no_depth_validateMarkAttrs _ _ hma
            · rw [if_neg hmem] at h2
              simp only [Except.ok.injEq] at h2
              rw [← h2]; simp
          | arr l => exact Except.noConfusion h
          | obj l => exact Except.noConfusion h
          | null =>
            have h2 : [VErr.unknownMarkType (pyShow JVal.null)] = errs := by
              simpa using h
            rw [← h2]; simp
          | bool b =>
            have h2 : [VErr.unknownMarkType (pyShow (JVal.bool b))] = errs := by
              simpa using h
            rw [← h2]; simp
          | num n =>
            have h2 : [VErr.unknownMarkType (pyShow (JVal.num n))] = errs := by
              simpa using h
            rw [← h2]; simp
    | null =>
      have h2 : [VErr.markNotDict] = errs := by simpa [validateMarkList] using h
      rw [← h2]; simp
    | bool b =>
      have h2 : [VErr.markNotDict] = errs := by simpa [validateMarkList] using h
      rw [← h2]; simp
    | num n =>
      have h2 : [VErr.markNotDict] = errs := by simpa [validateMarkList] using h
      rw [← h2]; simp
    | str s =>
      have h2 : [VErr.markNotDict] = errs := by simpa [validateMarkList] using h
      rw [← h2]; simp
    | arr l =>
      have h2 : [VErr.markNotDict] = errs := by simpa [validateMarkList] using h
      rw [← h2]; simp

theorem no_depth_validateMarks (mv : JVal) (errs : List VErr)
    (h : validateMarks mv = .ok errs) : VErr.maxDepthExceeded ∉ errs := by
  unfold validateMarks at h
  split at h
  · exact no_depth_validateMarkList _ _ h
  · have h2 : [VErr.marksNotArray] = errs := by simpa using h
    rw [← h2]; simp

theorem no_depth_validateTextContent (tv : JVal) :
    VErr.maxDepthExceeded ∉ validateTextContent tv := by
  unfold validateTextContent
  split <;> simp

theorem no_depth_validateHeading (kvs : List (String × JVal))
    (errs : List VErr) (h : validateHeading kvs = .ok errs) :
    VErr.maxDepthExceeded ∉ errs := by
  unfold validateHeading at h
  repeat' split at h
  all_goals try exact Except.noConfusion h
  all_goals try simp only [Except.ok.injEq] at h
  all_goals try (rw [← h]; simp)

theorem no_depth_validatePanel (kvs : List (String × JVal))
    (errs : List VErr) (h : validatePanel kvs = .ok errs) :
    VErr.maxDepthExceeded ∉ errs := by
  unfold validatePanel at h
  repeat' split at h
  all_goals try exact Except.noConfusion h
  all_goals try simp only [Except.ok.injEq] at h
  all_goals (rw [← h]; simp)

theorem no_depth_validateTableCells (cs : List JVal) :
    VErr.maxDepthExceeded ∉ validateTableCells cs := by
  induction cs with
  | nil => simp [validateTableCells]
  | cons c cs ih =>
    cases c with
    | obj ckvs =>
      rw [validateTableCells]
      repeat' split
      all_goals simp_all
    | null => simp [validateTableCells]
    | bool b => simp [validateTableCells]
    | num n => simp [validateTableCells]
    | str s => simp [validateTableCells]
    | arr l => simp [validateTableCells]

theorem no_depth_validateTableRows :
    ∀ (rs : List JVal) (errs : List VErr),
      validateTableRows rs = .ok errs → VErr.maxDepthExceeded ∉ errs := by
  intro rs
  induction rs with
  | nil =>
    intro errs h
    simp only [validateTableRows, Except.ok.injEq] at h
    rw [← h]; simp
  | cons r rs ih =>
    intro errs h
    cases r with
    | obj rkvs =>
      rw [validateTableRows] at h
      by_cases hty : dGet rkvs "type" = some (.str "tableRow")
      · rw [if_pos hty] at h
        cases hcv : (dGet rkvs "content").getD (.arr []) with
        | arr cells =>
          simp only [hcv] at h
          cases htc : validateTableCells cells with
          | nil =>
            simp only [htc] at h
            exact ih _ h
          | cons e es =>
            simp only [htc] at h
            simp only [Except.ok.injEq] at h
            rw [← h, ← htc]
            exact no_depth_validateTableCells cells
        | str s =>
          simp only [hcv] at h
          by_cases hs : s.isEmpty
          · rw [if_pos hs] at h
            exact ih _ h
          · rw [if_neg hs] at h
            simp only [Except.ok.injEq] at h
            rw [← h]; simp
        | obj okvs =>
          simp only [hcv] at h
          by_cases hs : okvs.isEmpty
          · rw [if_pos hs] at h
            exact ih _ h
          · rw [if_neg hs] at h
            simp only [Except.ok.injEq] at h
            rw [← h]; simp
        | null => simp only [hcv] at h; exact Except.noConfusion h
        | bool b => simp only [hcv] at h; exact Except.noConfusion h
        | num n => simp only [hcv] at h; exact Except.noConfusion h
      · rw [if_neg hty] at h
        simp only [Except.ok.injEq] at h
        rw [← h]; simp
    | null =>
      have h2 : [VErr.tableRowExpected] = errs := by
        simpa [validateTableRows] using h
      rw [← h2]; simp
    | bool b =>
      have h2 : [VErr.tableRowExpected] = errs := by
        simpa [validateTableRows] using h
      rw [← h2]; simp
    | num n =>
      have h2 : [VErr.tableRowExpected] = errs := by
        simpa [validateTableRows] using h
      rw [← h2]; simp
    | str s =>
      have h2 : [VErr.tableRowExpected] = errs := by
        simpa [validateTableRows] using h
      rw [← h2]; simp
    | arr l =>
      have h2 : [VErr.tableRowExpected] = errs := by
        simpa [validateTableRows] using h
      rw [← h2]; simp

theorem no_depth_validateTable (kvs : List (String × JVal))
    (errs : List VErr) (h : validateTable kvs = .ok errs) :
    VErr.maxDepthExceeded ∉ errs := by
  simp only [validateTable] at h
  repeat' split at h
  all_goals try exact Except.noConfusion h
  all_goals try exact no_depth_validateTableRows _ _ h
  all_goals try simp only [Except.ok.injEq] at h
  all_goals (rw [← h]; simp)

theorem no_depth_validateExtension (kvs : List (String × JVal))
    (errs : List VErr) (h : validateExtension kvs = .ok errs) :
    VErr.maxDepthExceeded ∉ errs := by
  unfold validateExtension at h
  repeat' split at h
  all_goals try exact Except.noConfusion h
  all_goals try simp only [Except.ok.injEq] at h
  all_goals (rw [← h]; simp)

theorem no_depth_validateNodeSpecific (kvs : List (String × JVal))
    (errs : List VErr) (h : validateNodeSpecific kvs = .ok errs) :
    VErr.maxDepthExceeded ∉ errs := by
  unfold validateNodeSpecific at h
  split at h
  · exact no_depth_validateHeading _ _ h
  · exact no_depth_validatePanel _ _ h
  · exact no_depth_validateTable _ _ h
  · exact no_depth_validateExtension _ _ h
  · exact no_depth_validateExtension _ _ h
  · exact no_depth_validateExtension _ _ h
  · have h2 : ([] : List VErr) = errs := by simpa using h
    rw [← h2]; simp

theorem validateMarkAttrs_ok (mkvs : List (String × JVal))
    (hattrs : (match dGet mkvs "attrs" with
               | none => true
               | some (.obj _) => true
               | some _ => false) = true) :
    ∃ errs, validateMarkAttrs mkvs = .ok errs := by
  have hobj : ∃ akvs, (dGet mkvs "attrs").getD (.obj []) = JVal.obj akvs := by
    cases hdg : dGet mkvs "attrs" with
    | none => exact ⟨[], rfl⟩
    | some v =>
      rw [hdg] at hattrs
      cases v with
      | obj a => exact ⟨a, rfl⟩
      | null => simp at hattrs
      | bool b => simp at hattrs
      | num n => simp at hattrs
      | str s => simp at hattrs
      | arr l => simp at hattrs
  obtain ⟨akvs, hak⟩ := hobj
  simp only [validateMarkAttrs, hak]
  repeat' split
  all_goals exact ⟨_, rfl⟩

theorem validateMarkList_ok :
    ∀ ms : List JVal, ms.all cleanMark = true →
      ∃ errs, validateMarkList ms = .ok errs := by
  intro ms
  induction ms with
  | nil => intro h; exact ⟨[], rfl⟩
  | cons m ms ih =>
    intro h
    rw [List.all_cons, Bool.and_eq_true] at h
    obtain ⟨hm, hms⟩ := h
    obtain ⟨errsr, hr⟩ := ih hms
    cases m with
    | obj mkvs =>
      rw [cleanMark, Bool.and_eq_true] at hm
      obtain ⟨hmt, hma⟩ := hm
      cases hty : dGet mkvs "type" with
      | none =>
        refine ⟨[.missingMarkType], ?_⟩
        rw [validateMarkList]
        simp only [hty]
      | some tv =>
        by_cases htr : truthy tv = false
        · refine ⟨[.missingMarkType], ?_⟩
          rw [validateMarkList]
          simp only [hty, if_pos htr]
        · cases tv with
          | str t =>
            by_cases hmem : t ∈ markTypes
            · obtain ⟨errs2, ha⟩ := validateMarkAttrs_ok mkvs hma
              by_cases hemp : errs2.isEmpty
              · refine ⟨errsr, ?_⟩
                rw [validateMarkList]
                simp only [hty, if_neg htr, if_pos hmem, ha, if_pos hemp]
                exact hr
              · refine ⟨errs2, ?_⟩
                rw [validateMarkList]
                simp only [hty, if_neg htr, if_pos hmem, ha, if_neg hemp]
            · refine ⟨[.unknownMarkType t], ?_⟩
              rw [validateMarkList]
              simp only [hty, if_neg htr, if_neg hmem]
          | arr l => rw [hty] at hmt; simp at hmt
          | obj l => rw [hty] at hmt; simp at hmt
          | null => exact absurd rfl htr
          | bool b =>
            refine ⟨[.unknownMarkType (pyShow (JVal.bool b))], ?_⟩
            rw [validateMarkList]
            simp only [hty, if_neg htr]
          | num n =>
            refine ⟨[.unknownMarkType (pyShow (JVal.num n))], ?_⟩
            rw [validateMarkList]
            simp only [hty, if_neg htr]
    | null => simp [cleanMark] at hm
    | bool b => simp [cleanMark] at hm
    | num n => simp [cleanMark] at hm
    | str s => simp [cleanMark] at hm
    | arr l => simp [cleanMark] at hm

theorem attrs_clean_obj (kvs : List (String × JVal))
    (hattrs : cleanAttrsField (dGet kvs "attrs") = true) :
    ∃ akvs, (dGet kvs "attrs").getD (.obj []) = JVal.obj akvs ∧
      (match dGet akvs "panelType" with
       | some (.arr _) => false
       | some (.obj _) => false
       | _ => true) = true := by
  cases hdg : dGet kvs "attrs" with
  | none => exact ⟨[], rfl, rfl⟩
  | some v =>
    rw [hdg] at hattrs
    cases v with
    | obj a =>
      rw [cleanAttrsField] at hattrs
      exact ⟨a, rfl, hattrs⟩
    | null => simp [cleanAttrsField] at hattrs
    | bool b => simp [cleanAttrsField] at hattrs
    | num n => simp [cleanAttrsField] at hattrs
    | str s => simp [cleanAttrsField] at hattrs
    | arr l => simp [cleanAttrsField] at hattrs

theorem validateHeading_ok (kvs akvs : List (String × JVal))
    (hak : (dGet kvs "attrs").getD (.obj []) = JVal.obj akvs) :
    ∃ errs, validateHeading kvs = .ok errs := by
  cases hl : dGet akvs "level" with
  | none =>
    refine ⟨[.headingMissingLevel], ?_⟩
    simp only [validateHeading, hak, hl]
  | some lv =>
    cases lv with
    | null =>
      refine ⟨[.headingMissingLevel], ?_⟩
      simp only [validateHeading, hak, hl]
    | bool b =>
      refine ⟨if levelOk (.bool b) then [] else [.headingBadLevel], ?_⟩
      simp only [validateHeading, hak, hl]
    | num n =>
      refine ⟨if levelOk (.num n) then [] else [.headingBadLevel], ?_⟩
      simp only [validateHeading, hak, hl]
    | str s =>
      refine ⟨if levelOk (.str s) then [] else [.headingBadLevel], ?_⟩
      simp only [validateHeading, hak, hl]
    | arr l =>
      refine ⟨if levelOk (.arr l) then [] else [.headingBadLevel], ?_⟩
      simp only [validateHeading, hak, hl]
    | obj o =>
      refine ⟨if levelOk (.obj o) then [] else [.headingBadLevel], ?_⟩
      simp only [validateHeading, hak, hl]

theorem validatePanel_ok (kvs akvs : List (String × JVal))
    (hak : (dGet kvs "attrs").getD (.obj []) = JVal.obj akvs)
    (hpt : (match dGet akvs "panelType" with
            | some (.arr _) => false
            | some (.obj _) => false
            | _ => true) = true) :
    ∃ errs, validatePanel kvs = .ok errs := by
  cases hp : dGet akvs "panelType" with
  | none =>
    refine ⟨[.panelMissingType], ?_⟩
    simp only [validatePanel, hak, hp]
  | some pv =>
    rw [hp] at hpt
    cases pv with
    | null =>
      refine ⟨[.panelMissingType], ?_⟩
      simp only [validatePanel, hak, hp]
    | str p =>
      by_cases hmem : p ∈ panelTypes
      · refine ⟨[], ?_⟩
        simp only [validatePanel, hak, hp, if_pos hmem]
      · refine ⟨[.invalidPanelType p], ?_⟩
        simp only [validatePanel, hak, hp, if_neg hmem]
    | bool b =>
      refine ⟨[.invalidPanelType (pyShow (.bool b))], ?_⟩
      simp only [validatePanel, hak, hp]
    | num n =>
      refine ⟨[.invalidPanelType (pyShow (.num n))], ?_⟩
      simp only [validatePanel, hak, hp]
    | arr l => simp at hpt
    | obj o => simp at hpt

theorem validateTableRows_ok :
    ∀ rs : List JVal, cleanNodeList rs = true →
      ∃ errs, validateTableRows rs = .ok errs := by
  intro rs
  induction rs with
  | nil => intro h; exact ⟨[], rfl⟩
  | cons r rs ih =>
    intro h
    rw [cleanNodeList, Bool.and_eq_true] at h
    obtain ⟨hr, hrs⟩ := h
    obtain ⟨errsr, hihr⟩ := ih hrs
    cases r with
    | obj rkvs =>
      rw [cleanNode] at hr
      simp only [Bool.and_eq_true] at hr
      obtain ⟨⟨⟨hty, hattrs⟩, hmarks⟩, hcont⟩ := hr
      by_cases htr : dGet rkvs "type" = some (JVal.str "tableRow")
      · cases hcg : dGet rkvs "content" with
        | none =>
          refine ⟨errsr, ?_⟩
          rw [validateTableRows]
          simp only [if_pos htr, hcg, Option.getD_none, validateTableCells]
          exact hihr
        | some cv =>
          rw [hcg] at hcont
          cases cv with
          | arr cells =>
            cases htc : validateTableCells cells with
            | nil =>
              refine ⟨errsr, ?_⟩
              rw [validateTableRows]
              simp only [if_pos htr, hcg, Option.getD_some, htc]
              exact hihr
            | cons e es =>
              refine ⟨e :: es, ?_⟩
              rw [validateTableRows]
              simp only [if_pos htr, hcg, Option.getD_some, htc]
          | null => simp [cleanContent] at hcont
          | bool b => simp [cleanContent] at hcont
          | num n => simp [cleanContent] at hcont
          | str s => simp [cleanContent] at hcont
          | obj o => simp [cleanContent] at hcont
      · refine ⟨[.tableRowExpected], ?_⟩
        rw [validateTableRows]
        simp only [if_neg htr]
    | null => simp [cleanNode] at hr
    | bool b => simp [cleanNode] at hr
    | num n => simp [cleanNode] at hr
    | str s => simp [cleanNode] at hr
    | arr l => simp [cleanNode] at hr

theorem validateTable_ok (kvs : List (String × JVal))
    (hcont : cleanContent (dGet kvs "content") = true) :
    ∃ errs, validateTable kvs = .ok errs := by
  cases hcg : dGet kvs "content" with
  | none =>
    refine ⟨[], ?_⟩
    simp [validateTable, hcg, truthy]
  | some cv =>
    rw [hcg] at hcont
    cases cv with
    | arr rows =>
      cases rows with
      | nil =>
        refine ⟨[], ?_⟩
        simp [validateTable, hcg, truthy]
      | cons r rs =>
        obtain ⟨errs, hrows⟩ := validateTableRows_ok (r :: rs)
          (by simpa [cleanContent] using hcont)
        refine ⟨errs, ?_⟩
        simp only [validateTable, hcg, Option.getD_some, truthy,
          List.isEmpty_cons, Bool.not_false]
        exact hrows
    | null => simp [cleanContent] at hcont
    | bool b => simp [cleanContent] at hcont
    | num n => simp [cleanContent] at hcont
    | str s => simp [cleanContent] at hcont
    | obj o => simp [cleanContent] at hcont

theorem validateExtension_ok (kvs akvs : List (String × JVal))
    (hak : (dGet kvs "attrs").getD (.obj []) = JVal.obj akvs) :
    ∃ errs, validateExtension kvs = .ok errs := by
  by_cases ht : (dGet akvs "extensionType").isSome = false
  · refine ⟨[.extMissingType], ?_⟩
    simp only [validateExtension, hak, if_pos ht]
  · by_cases hk : (dGet akvs "extensionKey").isSome = false
    · refine ⟨[.extMissingKey], ?_⟩
      simp only [validateExtension, hak, if_neg ht, if_pos hk]
    · refine ⟨[], ?_⟩
      simp only [validateExtension, hak, if_neg ht, if_neg hk]

theorem validateNodeSpecific_ok (kvs : List (String × JVal))
    (hattrs : cleanAttrsField (dGet kvs "attrs") = true)
    (hcont : cleanContent (dGet kvs "content") = true) :
    ∃ errs, validateNodeSpecific kvs = .ok errs := by
  obtain ⟨akvs, hak, hpt⟩ := attrs_clean_obj kvs hattrs
  unfold validateNodeSpecific
  split
  · exact validateHeading_ok kvs akvs hak
  · exact validatePanel_ok kvs akvs hak hpt
  · exact validateTable_ok kvs hcont
  · exact validateExtension_ok kvs akvs hak
  · exact validateExtension_ok kvs akvs hak
  · exact validateExtension_ok kvs akvs hak
  · exact ⟨[], rfl⟩

theorem no_depth_attrsField (o : Option JVal) :
    VErr.maxDepthExceeded ∉ attrsField o := by
  cases o with
  | none => simp [attrsField]
  | some av => exact no_depth_validateAttrs av

theorem no_depth_textField (o : Option JVal) :
    VErr.maxDepthExceeded ∉ textField o := by
  cases o with
  | none => simp [textField]
  | some tv => exact no_depth_validateTextContent tv

theorem marksField_ok (o : Option JVal)
    (h : cleanMarksField o = true) :
    ∃ mErrs, marksField o = .ok mErrs ∧ VErr.maxDepthExceeded ∉ mErrs := by
  cases o with
  | none => exact ⟨[], rfl, by simp⟩
  | some mv =>
    cases mv with
    | arr ms =>
      obtain ⟨mErrs, hm⟩ := validateMarkList_ok ms
        (by simpa [cleanMarksField] using h)
      exact ⟨mErrs, hm, no_depth_validateMarkList ms mErrs hm⟩
    | null => simp [cleanMarksField] at h
    | bool b => simp [cleanMarksField] at h
    | num n => simp [cleanMarksField] at h
    | str s => simp [cleanMarksField] at h
    | obj okvs => simp [cleanMarksField] at h

mutual

theorem validateNode_depth (j : JVal) (d : Nat) (hcl : cleanNode j = true)
    (hd : d ≤ 21) :
    ∃ errs, validateNode j d = .ok errs ∧
      (VErr.maxDepthExceeded ∈ errs ↔ d + nodeArrH j > 21) := by
  cases j with
  | obj kvs =>
    rw [cleanNode] at hcl
    simp only [Bool.and_eq_true] at hcl
    obtain ⟨⟨⟨hty, hattrs⟩, hmarks⟩, hcont⟩ := hcl
    have hcont2 := hcont
    cases hdt : dGet kvs "type" with
    | none => rw [hdt] at hty; simp at hty
    | some tv =>
      rw [hdt] at hty
      cases tv with
      | str t =>
        have htmem : t ∈ nodeTypes := by simpa using hty
        have htruthy : truthy (JVal.str t) = true := by
          have hall : ∀ x ∈ nodeTypes, truthy (JVal.str x) = true := by decide
          exact hall t htmem
        have hntr : ¬ (truthy (JVal.str t) = false) := by
          rw [htruthy]
          simp
        obtain ⟨mErrs, hm1, hm2⟩ := marksField_ok (dGet kvs "marks") hmarks
        obtain ⟨sErrs, hs1⟩ := validateNodeSpecific_ok kvs hattrs hcont2
        have hs2 := no_depth_validateNodeSpecific kvs sErrs hs1
        have hcok : ∃ cErrs, valContentField (dGet kvs "content") d = .ok cErrs ∧
            (VErr.maxDepthExceeded ∈ cErrs ↔
              d + contentArrH (dGet kvs "content") > 21) := by
          cases hcg : dGet kvs "content" with
          | none =>
            refine ⟨[], ?_, ?_⟩
            · rw [valContentField]
            · simp [contentArrH]
              omega
          | some cv =>
            rw [hcg] at hcont
            cases cv with
            | arr cs =>
              obtain ⟨cErrs, hc1, hc2⟩ :=
                validateContentArray_depth cs d
                  (by simpa [cleanContent] using hcont) hd
              refine ⟨cErrs, ?_, ?_⟩
              · rw [valContentField]
                exact hc1
              · rw [contentArrH, hc2]
                constructor <;> intro hox <;> omega
            | null => simp [cleanContent] at hcont
            | bool b => simp [cleanContent] at hcont
            | num n => simp [cleanContent] at hcont
            | str s => simp [cleanContent] at hcont
            | obj o => simp [cleanContent] at hcont
        obtain ⟨cErrs, hc1, hc2⟩ := hcok
        refine ⟨attrsField (dGet kvs "attrs") ++ mErrs ++
          textField (dGet kvs "text") ++ cErrs ++ sErrs, ?_, ?_⟩
        · rw [validateNode]
          simp only [hdt, if_neg hntr, if_pos htmem, hm1, hc1, hs1]
        · rw [nodeArrH]
          simp only [List.mem_append]
          constructor
          · rintro ((((ha | hm) | ht) | hc) | hs)
            · exact absurd ha (no_depth_attrsField _)
            · exact absurd hm hm2
            · exact absurd ht (no_depth_textField _)
            · exact hc2.mp hc
            · exact absurd hs hs2
          · intro harr
            exact Or.inl (Or.inr (hc2.mpr harr))
      | null => simp at hty
      | bool b => simp at hty
      | num n => simp at hty
      | arr l => simp at hty
      | obj o => simp at hty
  | null => simp [cleanNode] at hcl
  | bool b => simp [cleanNode] at hcl
  | num n => simp [cleanNode] at hcl
  | str s => simp [cleanNode] at hcl
  | arr l => simp [cleanNode] at hcl
termination_by sizeOf j
decreasing_by
  subst_vars
  simp_wf
  have h1 := sizeOf_lt_of_dGet hcg
  simp at h1
  omega

theorem validateContentArray_depth (cs : List JVal) (d : Nat)
    (hcl : cleanNodeList cs = true) (hd : d ≤ 21) :
    ∃ errs, validateContentArray (.arr cs) d = .ok errs ∧
      (VErr.maxDepthExceeded ∈ errs ↔ d + listArrH cs > 20) := by
  by_cases hgt : d > MAX_DEPTH
  · refine ⟨[.maxDepthExceeded], ?_, ?_⟩
    · rw [validateContentArray, if_pos hgt]
    · simp only [MAX_DEPTH] at hgt
      simp
      omega
  · have hle : d ≤ 20 := by simpa [MAX_DEPTH] using hgt
    obtain ⟨errs, h1, h2⟩ := validateNodeList_depth cs (d + 1) hcl (by omega)
    refine ⟨errs, ?_, ?_⟩
    · rw [validateContentArray, if_neg hgt]
      exact h1
    · rw [h2]
      constructor <;> intro hox <;> omega
termination_by 1 + sizeOf cs

theorem validateNodeList_depth (ns : List JVal) (d : Nat)
    (hcl : cleanNodeList ns = true) (hd : d ≤ 21) :
    ∃ errs, validateNodeList ns d = .ok errs ∧
      (VErr.maxDepthExceeded ∈ errs ↔ d + listArrH ns > 21) := by
  cases ns with
  | nil =>
    refine ⟨[], ?_, ?_⟩
    · rw [validateNodeList]
    · rw [listArrH]
      simp
      omega
  | cons n rest =>
    rw [cleanNodeList, Bool.and_eq_true] at hcl
    obtain ⟨hn, hrest⟩ := hcl
    obtain ⟨e1, h11, h12⟩ := validateNode_depth n d hn hd
    obtain ⟨e2, h21, h22⟩ := validateNodeList_depth rest d hrest hd
    refine ⟨e1 ++ e2, ?_, ?_⟩
    · rw [validateNodeList]
      simp only [h11, h21]
    · rw [List.mem_append, h12, h22, listArrH]
      constructor <;> intro hox <;> omega
termination_by sizeOf ns

end

theorem validateDocument_depth (kvs : List (String × JVal)) (nodes : List JVal)
    (hv : dGet kvs "version" = some (.num 1))
    (ht : dGet kvs "type" = some (.str "doc"))
    (hc : dGet kvs "content" = some (.arr nodes))
    (hcl : cleanNodeList nodes = true) :
    ∃ errs, validateDocument (.obj kvs) = (errs.isEmpty, errs) ∧
      (VErr.maxDepthExceeded ∈ errs ↔ listArrH nodes > 20) := by
  obtain ⟨errs, h1, h2⟩ := validateContentArray_depth nodes 0 hcl (by omega)
  refine ⟨errs, ?_, ?_⟩
  · simp only [validateDocument, hv, ht, hc, Option.isSome_some, Option.getD_some]
    simp only [h1]
    simp
  · rw [h2]
    constructor <;> intro hox <;> omega

/-- A chain of `k + 1` nested paragraph nodes (the innermost has no
content), used to exercise the depth limit. -/
def deepNode : Nat → JVal
  | 0 => .obj [("type", .str "paragraph")]
  | k + 1 => .obj [("type", .str "paragraph"), ("content", .arr [deepNode k])]

theorem cleanNode_deepNode : ∀ k, cleanNode (deepNode k) = true := by
  intro k
  induction k with
  | zero =>
    simp [deepNode, cleanNode, cleanAttrsField, cleanMarksField, cleanContent,
      dGet, nodeTypes]
  | succ k ih =>
    simp [deepNode, cleanNode, cleanAttrsField, cleanMarksField, cleanContent,
      cleanNodeList, dGet, nodeTypes, ih]

theorem nodeArrH_deepNode : ∀ k, nodeArrH (deepNode k) = k := by
  intro k
  induction k with
  | zero => simp [deepNode, nodeArrH, contentArrH, dGet]
  | succ k ih =>
    simp [deepNode, nodeArrH, contentArrH, listArrH, dGet, ih]
    omega

/-! ### Finder (`finder.py`) -/

/-- Plain `model_dump()` of a mark (all fields, defaults included). -/
def dumpMarkFull (m : ADFMarkModel) : JVal :=
  .obj ([("type", .str m.type),
         ("attrs", match m.attrs with
                   | some a => .obj a
                   | none => if m.attrsSet then .null else .obj [])] ++ m.extra)

mutual

/-- Plain `model_dump()` of a node: every declared field with its runtime
value (unset fields hold their defaults), then the extra fields. -/
def dumpNodeFull (n : ADFNodeModel) : JVal :=
  match n with
  | .mk t aS a cS c tS tx mS m ex =>
    .obj ([("type", .str t),
           ("attrs", match a with
                     | some av => .obj av
                     | none => if aS then .null else .obj []),
           ("content", match c with
                       | some l => .arr (dumpNodeListFull l)
                       | none => if cS then .null else .arr []),
           ("text", match tx with
                    | some s => .str s
                    | none => .null),
           ("marks", match m with
                     | some ms => .arr (ms.map dumpMarkFull)
                     | none => if mS then .null else .arr [])] ++ ex)
termination_by sizeOf n
decreasing_by
  simp_wf
  omega

def dumpNodeListFull : List ADFNodeModel → List JVal
  | [] => []
  | n :: ns => dumpNodeFull n :: dumpNodeListFull ns
termination_by l => sizeOf l
decreasing_by
  all_goals simp_wf
  all_goals omega

end

/-- `types.SearchCriteria` as a dict: `none` = key absent. -/
structure SearchCriteria where
  json_path : Option JVal := none
  text : Option JVal := none
  node_type : Option JVal := none
  attributes : Option JVal := none
  marks : Option JVal := none
  index : Option JVal := none

/-- `criteria.get(k)` truthiness. -/
def truthyOpt : Option JVal → Bool
  | none => false
  | some v => truthy v

/-- `not criteria` — only the empty dict is falsy. -/
def critEmpty (c : SearchCriteria) : Bool :=
  c.json_path.isNone && c.text.isNone && c.node_type.isNone &&
  c.attributes.isNone && c.marks.isNone && c.index.isNone

/-- `types.SearchResult` (+ the `ElementPath` payload flattened in). -/
structure SearchResult where
  node : JVal
  path : List Nat
  pathType : String
  textContent : Option String
  parent : Option JVal
  index : Int
deriving DecidableEq

/-- What `_traverse_json_path` can be looking at: a content list, a node
model, a mark model, a raw JSON value (attrs dicts, extra-field values), or
Python `None`.  Attribute lookups of Python built-in method names (e.g.
`"append"` on a list) are outside the model. -/
inductive Cursor where
  | nodes (l : List ADFNodeModel)
  | nd (n : ADFNodeModel)
  | markv (m : ADFMarkModel)
  | markvs (ms : List ADFMarkModel)
  | jv (v : JVal)
  | pyNone

/-- One `getattr` on a node model, by field name. -/
def nodeAttrCursor (n : ADFNodeModel) (s : String) : Option Cursor :=
  if s = "type" then some (.jv (.str n.type))
  else if s = "attrs" then
    some (match n.attrsVal with
          | some a => .jv (.obj a)
          | none => .pyNone)
  else if s = "content" then
    some (match n.contentVal with
          | some l => .nodes l
          | none => .pyNone)
  else if s = "text" then
    some (match n.text with
          | some t => .jv (.str t)
          | none => .pyNone)
  else if s = "marks" then
    some (match n.marksVal with
          | some ms => .markvs ms
          | none => .pyNone)
  else
    match dGet n.extra s with
    | some v => some (.jv v)
    | none => none

/-- `_traverse_json_path`: ints index lists, strings are attribute/dict
lookups; anything else returns `None`. -/
def traverse : Cursor → List (String ⊕ Nat) → Option Cursor
  | cur, [] => some cur
  | cur, (Sum.inr i) :: rest =>
    match cur with
    | .nodes l =>
      match l[i]? with
      | some n => traverse (.nd n) rest
      | none => none
    | .markvs ms =>
      match ms[i]? with
      | some m => traverse (.markv m) rest
      | none => none
    | .jv (.arr xs) =>
      match xs[i]? with
      | some x => traverse (.jv x) rest
      | none => none
    | _ => none
  | cur, (Sum.inl s) :: rest =>
    match cur with
    | .nd n =>
      match nodeAttrCursor n s with
      | some c2 => traverse c2 rest
      | none => none
    | .markv m =>
      if s = "type" then traverse (.jv (.str m.type)) rest
      else if s = "attrs" then
        traverse (match m.attrs with
                  | some a => .jv (.obj a)
                  | none => if m.attrsSet then .pyNone else .jv (.obj [])) rest
      else
        (match dGet m.extra s with
         | some v => traverse (.jv v) rest
         | none => none)
    | .jv (.obj kvs) =>
      match dGet kvs s with
      | some v => traverse (.jv v) rest
      | none => none
    | _ => none

/-- `re.split` on `[.\[\]]`, empties included. -/
def splitGo : List Char → List Char → List String
  | [], acc => [String.mk acc.reverse]
  | c :: rest, acc =>
    if c = '.' ∨ c = '[' ∨ c = ']' then
      String.mk acc.reverse :: splitGo rest []
    else splitGo rest (c :: acc)

/-- Python `str.isdigit` (empty strings are not digits). -/
def isDigitStr (s : String) : Bool :=
  !s.isEmpty && s.toList.all Char.isDigit

/-- `_parse_simple_json_path`: `lstrip("$.")`, split, drop empties,
digit parts become ints. -/
def parseSimpleJsonPath (s : String) : List (String ⊕ Nat) :=
  let stripped := s.toList.dropWhile (fun c => c = '$' ∨ c = '.')
  ((splitGo stripped []).filter (fun p => !p.isEmpty)).map
    (fun p => if isDigitStr p then Sum.inr ((p.toNat?).getD 0) else Sum.inl p)

def cursorNode : Cursor → JVal
  | .nd n => dumpNodeFull n
  | .nodes l => .arr (dumpNodeListFull l)
  | .markv m => dumpMarkFull m
  | .markvs ms => .arr (ms.map dumpMarkFull)
  | .jv v => v
  | .pyNone => .null

def cursorType : Cursor → String
  | .nd n => n.type
  | _ => "unknown"

def cursorText : Cursor → Option String
  | .nd n => n.text
  | _ => none

/-- `_search_by_json_path` (its `try` swallows every exception, so this is
total; a non-string `json_path` raises inside the `try` and yields `[]`). -/
def searchByJsonPath (jp : String) (doc : ADFDocumentModel) :
    List SearchResult :=
  let parts := parseSimpleJsonPath jp
  if parts.isEmpty then []
  else
    match traverse (.nodes doc.content) parts with
    | none => []
    | some .pyNone => []
    | some cur =>
      let numeric := parts.filterMap
        (fun p => match p with
                  | Sum.inr i => some i
                  | Sum.inl _ => none)
      [{ node := cursorNode cur, path := numeric, pathType := cursorType cur,
         textContent := cursorText cur, parent := none,
         index := ((numeric.getLast?).getD 0 : Nat) }]

/-- The `text_matches` closure (case-insensitive substring). -/
def textMatches (searchLower : String) (nodeText : String) : Bool :=
  if nodeText.isEmpty then false
  else decide (searchLower.toList <:+: (pyLower nodeText).toList)

mutual

/-- `_search_text_recursive` on one node: check its text, then recurse into
truthy child content. -/
def searchTextNode (sl : String) (n : ADFNodeModel) (curPath : List Nat)
    (i : Nat) : List SearchResult :=
  match n with
  | .mk t aS a cS c tS tx mS m ex =>
    (match tx with
     | some s =>
       if !s.isEmpty && textMatches sl s then
         [{ node := dumpNodeFull (.mk t aS a cS c tS tx mS m ex),
            path := curPath, pathType := t, textContent := some s,
            parent := none, index := (i : Nat) }]
       else []
     | none => []) ++
    (match c with
     | some l => if l.isEmpty then [] else searchTextList sl l curPath 0
     | none => [])
termination_by sizeOf n
decreasing_by
  simp_wf
  omega

def searchTextList (sl : String) (nodes : List ADFNodeModel)
    (path : List Nat) (i : Nat) : List SearchResult :=
  match nodes with
  | [] => []
  | n :: rest =>
    searchTextNode sl n (path ++ [i]) i ++ searchTextList sl rest path (i + 1)
termination_by sizeOf nodes
decreasing_by
  all_goals simp_wf
  all_goals omega

end

mutual

/-- `_search_with_predicate` on one node (predicates may raise). -/
def searchPredNode (p : ADFNodeModel → Except Unit Bool) (n : ADFNodeModel)
    (curPath : List Nat) (i : Nat) : Except Unit (List SearchResult) :=
  match n with
  | .mk t aS a cS c tS tx mS m ex =>
    match p (.mk t aS a cS c tS tx mS m ex) with
    | .error e => .error e
    | .ok matched =>
      match ((match c with
             | some l =>
               if l.isEmpty then .ok []
               else searchPredList p l curPath 0
             | none => .ok []) : Except Unit (List SearchResult)) with
      | .error e => .error e
      | .ok rest =>
        .ok ((if matched then
                [{ node := dumpNodeFull (.mk t aS a cS c tS tx mS m ex),
                   path := curPath, pathType := t, textContent := tx,
                   parent := none, index := (i : Nat) }]
              else []) ++ rest)
termination_by sizeOf n
decreasing_by
  simp_wf
  omega

def searchPredList (p : ADFNodeModel → Except Unit Bool)
    (nodes : List ADFNodeModel) (path : List Nat) (i : Nat) :
    Except Unit (List SearchResult) :=
  match nodes with
  | [] => .ok []
  | n :: rest =>
    match searchPredNode p n (path ++ [i]) i with
    | .error e => .error e
    | .ok rs1 =>
      match searchPredList p rest path (i + 1) with
      | .error e => .error e
      | .ok rs2 => .ok (rs1 ++ rs2)
termination_by sizeOf nodes
decreasing_by
  all_goals simp_wf
  all_goals omega

end

/-- `type_matches` in `_search_by_node_type`. -/
def typeMatches (nt : JVal) (n : ADFNodeModel) : Except Unit Bool :=
  match nt with
  | .str s => .ok (decide (n.type = s))
  | _ => .ok false

/-- `attributes_match` in `_search_by_attributes`: non-dict criteria degrade
to no-match; a criteria value of `None` matches an absent key (Python
`node_attrs.get(key) != value`). -/
def attributesMatch (attrs : JVal) (n : ADFNodeModel) : Except Unit Bool :=
  match attrs with
  | .obj akvs =>
    let na := match n.attrsVal with
              | some a => a
              | none => []
    if na.isEmpty then .ok akvs.isEmpty
    else .ok (akvs.all (fun kv => ((dGet na kv.1).getD .null) == kv.2))
  | _ => .ok false

/-- The mark types present on a node (`mark_types` set). -/
def nodeMarkTypes (n : ADFNodeModel) : List String :=
  ((match n.marksVal with
    | some ms => ms
    | none => []).map ADFMarkModel.type).filter (fun s => !s.isEmpty)

/-- `all(required_mark in mark_types for ...)`: short-circuits at the first
non-member; hashing an unhashable element raises. -/
def reqAllIn : List JVal → List String → Except Unit Bool
  | [], _ => .ok true
  | (.str s) :: rest, types =>
    if s ∈ types then reqAllIn rest types else .ok false
  | (.num _) :: _, _ => .ok false
  | (.bool _) :: _, _ => .ok false
  | (.null) :: _, _ => .ok false
  | (.arr _) :: _, _ => .error ()
  | (.obj _) :: _, _ => .error ()

/-- `marks_match` in `_search_by_marks`: iterating a non-iterable criteria
value raises `TypeError`; a string iterates its characters, a dict its
keys. -/
def marksMatch (mv : JVal) (n : ADFNodeModel) : Except Unit Bool :=
  let nm := match n.marksVal with
            | some ms => ms
            | none => []
  if nm.isEmpty then .ok (!truthy mv)
  else
    let types := nodeMarkTypes n
    match mv with
    | .arr req => reqAllIn req types
    | .str s => .ok (s.toList.all (fun ch => String.mk [ch] ∈ types))
    | .obj okvs => .ok (okvs.all (fun kv => kv.1 ∈ types))
    | _ => .error ()

/-- `_search_by_index` (`search_depth` is always 1, so only the top level is
inspected); comparing a non-int index against ints raises `TypeError`. -/
def searchByIndex (iv : JVal) (content : List ADFNodeModel) :
    Except Unit (List SearchResult) :=
  match iv with
  | .num i =>
    if h : 0 ≤ i ∧ i.toNat < content.length then
      .ok [{ node := dumpNodeFull (content.get ⟨i.toNat, h.2⟩),
             path := [i.toNat],
             pathType := (content.get ⟨i.toNat, h.2⟩).type,
             textContent := (content.get ⟨i.toNat, h.2⟩).text,
             parent := none, index := i }]
    else .ok []
  | .bool b =>
    let i : Nat := if b then 1 else 0
    if h : i < content.length then
      .ok [{ node := dumpNodeFull (content.get ⟨i, h⟩),
             path := [i],
             pathType := (content.get ⟨i, h⟩).type,
             textContent := (content.get ⟨i, h⟩).text,
             parent := none, index := (i : Nat) }]
    else .ok []
  | _ => .error ()

/-- `_node_matches_complex_criteria`: each supplied truthy criterion in
order text, node_type, attributes, marks; wrong-typed values raise where
Python would. -/
def complexMatches (crit : SearchCriteria) (n : ADFNodeModel) :
    Except Unit Bool :=
  match ((if truthyOpt crit.text then
           match crit.text with
           | some (.str q) =>
             (match n.text with
              | some s =>
                .ok (!s.isEmpty && decide ((pyLower q).toList <:+: (pyLower s).toList))
              | none => .ok false)
           | _ => .error ()
         else .ok true) : Except Unit Bool) with
  | .error e => .error e
  | .ok tOk =>
    if !tOk then .ok false
    else
      match ((if truthyOpt crit.node_type then
               match crit.node_type with
               | some nt => .ok (match nt with
                                 | .str s => decide (n.type = s)
                                 | _ => false)
               | none => .ok true
             else .ok true) : Except Unit Bool) with
      | .error e => .error e
      | .ok nOk =>
        if !nOk then .ok false
        else
          match ((if truthyOpt crit.attributes then
                   match crit.attributes with
                   | some (.obj akvs) =>
                     let na := match n.attrsVal with
                               | some a => a
                               | none => []
                     .ok (akvs.all (fun kv => ((dGet na kv.1).getD .null) == kv.2))
                   | _ => .error ()
                 else .ok true) : Except Unit Bool) with
          | .error e => .error e
          | .ok aOk =>
            if !aOk then .ok false
            else
              if truthyOpt crit.marks then
                match crit.marks with
                | some (.arr req) => reqAllIn req (nodeMarkTypes n)
                | some (.str s) =>
                  .ok (s.toList.all (fun ch => String.mk [ch] ∈ nodeMarkTypes n))
                | some (.obj okvs) =>
                  .ok (okvs.all (fun kv => kv.1 ∈ nodeMarkTypes n))
                | _ => .error ()
              else .ok true

/-- `_search_recursive` (compound fallback). -/
def searchRecursive (crit : SearchCriteria) (nodes : List ADFNodeModel)
    (path : List Nat) : Except Unit (List SearchResult) :=
  searchPredList (complexMatches crit) nodes path 0

/-- `_add_context_to_results`: fill `parent` for results deeper than one
level via `_get_node_by_path` (whose uncaught `TypeError` propagates). -/
def addContext (doc : ADFDocumentModel) :
    List SearchResult → Except Unit (List SearchResult)
  | [] => .ok []
  | r :: rs =>
    match ((if r.path.length > 1 then
             match getNodeByPath doc r.path.dropLast with
             | .error e => .error e
             | .ok (some p) => .ok { r with parent := some (dumpNodeFull p) }
             | .ok none => .ok r
           else .ok r) : Except Unit SearchResult) with
    | .error e => .error e
    | .ok r2 =>
      match addContext doc rs with
      | .error e => .error e
      | .ok rs2 => .ok (r2 :: rs2)

def hasTextB (r : SearchResult) : Bool :=
  match r.textContent with
  | some s => !s.isEmpty
  | none => false

/-- `sort_key`: `(path depth, not has_text)`. -/
def sortKey (r : SearchResult) : Nat × Bool :=
  (r.path.length, !hasTextB r)

def keyLe (a b : Nat × Bool) : Bool :=
  decide (a.1 < b.1) || (decide (a.1 = b.1) && (!a.2 || b.2))

/-- Stable insertion sort = Python's stable `sorted`. -/
def insertSorted (x : SearchResult) : List SearchResult → List SearchResult
  | [] => [x]
  | y :: ys =>
    if keyLe (sortKey y) (sortKey x) then y :: insertSorted x ys
    else x :: y :: ys

def sortResults : List SearchResult → List SearchResult
  | [] => []
  | x :: xs => insertSorted x (sortResults xs)

/-- `find_elements` (fresh finder, so the cache is empty; `criteria` must be
truthy).  Dispatch is by *truthiness* of each key in priority order, with
`index` tested by `is not None`. -/
def findElements (crit : SearchCriteria) (doc : ADFDocumentModel)
    (limit : Option Nat) (includeContext : Bool) :
    Except Unit (List SearchResult) :=
  if critEmpty crit then .error ()
  else
    match ((if truthyOpt crit.json_path then
             match crit.json_path with
             | some (.str jp) => .ok (searchByJsonPath jp doc)
             | _ => .ok []
           else if truthyOpt crit.text then
             match crit.text with
             | some (.str q) => .ok (searchTextList (pyLower q) doc.content [] 0)
             | _ => .error ()
           else if truthyOpt crit.node_type then
             match crit.node_type with
             | some (.arr _) => .error ()
             | some (.obj _) => .error ()
             | some nt => searchPredList (typeMatches nt) doc.content [] 0
             | none => .ok []
           else if truthyOpt crit.attributes then
             match crit.attributes with
             | some av => searchPredList (attributesMatch av) doc.content [] 0
             | none => .ok []
           else if truthyOpt crit.marks then
             match crit.marks with
             | some mv => searchPredList (marksMatch mv) doc.content [] 0
             | none => .ok []
           else if (match crit.index with
                    | some .null => false
                    | some _ => true
                    | none => false) then
             match crit.index with
             | some iv => searchByIndex iv doc.content
             | none => .ok []
           else searchRecursive crit doc.content []) :
             Except Unit (List SearchResult)) with
    | .error e => .error e
    | .ok results =>
      match ((if includeContext then addContext doc results
             else .ok results) : Except Unit (List SearchResult)) with
      | .error e => .error e
      | .ok results2 =>
        let results3 := sortResults results2
        .ok (match limit with
             | some l =>
               if l ≠ 0 ∧ results3.length > l then results3.take l
               else results3
             | none => results3)

/-! ## Sample values used by the claim witnesses and counterexamples -/

/-- The text node `{"type": "text", "text": "Hello"}` as a model. -/
def textHello : ADFNodeModel :=
  .mk "text" false (some []) false (some []) true (some "Hello") false (some []) []

/-- A paragraph node whose content is `[textHello]`. -/
def paraHello : ADFNodeModel :=
  .mk "paragraph" false (some []) true (some [textHello]) false none false (some []) []

/-- A document with one paragraph containing one text node. -/
def docHello : ADFDocumentModel := ⟨true, true, true, [paraHello], []⟩

/-- A document with two top-level paragraphs. -/
def docTwo : ADFDocumentModel := ⟨true, true, true, [paraHello, paraHello], []⟩

/-- The raw dict `{"type": "text", "text": "x"}`. -/
def rawText : JVal := .obj [("type", JVal.str "text"), ("text", JVal.str "x")]

/-- The model `rawText` validates to. -/
def ndText : ADFNodeModel :=
  .mk "text" false (some []) false (some []) true (some "x") false (some []) []

theorem parseNode_rawText : parseNode rawText = some ndText := by
  simp +decide [rawText, ndText, parseNode, fieldAttrs, fieldText, fieldMarks,
    fieldContent, dGet_cons, dGet_nil, nodeTypes, nodeFieldNames]

/-- The raw mark `{"type": "strong"}`. -/
def strongMark : JVal := .obj [("type", JVal.str "strong")]

/-- A dispatch key whose value is truthy forces a non-empty criteria dict. -/
theorem critEmpty_false_of_jp (c : SearchCriteria)
    (h : truthyOpt c.json_path = true) : critEmpty c = false := by
  cases hj : c.json_path with
  | none => rw [hj] at h; simp [truthyOpt] at h
  | some v => simp [critEmpty, hj]

/-! ## The claims -/

/-- C1: `_apply_replace_operation` merge semantics, as the code implements
them.  With `preserve_attributes`, a truthy original `attrs` dict is merged
under the new node's `attrs` with the new value winning on every key
collision (`{**original, **new}` pointwise), all other keys of the new
content untouched.  With `preserve_marks` and a new `"text"` node, the
original marks whose type is *not among the new node's own mark types* are
appended after the new marks, everything else untouched.  (The set of
excluded types is frozen at the new node's marks, so two original marks of
the same type are both appended — the spec's "no mark type occurs twice"
does not hold; see the counterexample.) -/
theorem claim_C1 (okvs nkvs oa na : List (String × JVal))
    (omarks nmarks : List JVal) :
    ((dGet okvs "attrs" = some (.obj oa)) → oa ≠ [] →
     (dGet nkvs "attrs" = some (.obj na) ∨
       (dGet nkvs "attrs" = none ∧ na = [])) →
     ∃ res, replaceMergeContent (.obj okvs) (.obj nkvs) true false =
         .ok (.obj res) ∧
       dGet res "attrs" = some (.obj (dMerge oa na)) ∧
       ((na.map Prod.fst).Nodup → ∀ k,
         dGet (dMerge oa na) k = ((dGet na k).orElse (fun _ => dGet oa k))) ∧
       (∀ k, k ≠ "attrs" → dGet res k = dGet nkvs k)) ∧
    ((dGet okvs "marks" = some (.arr omarks)) → omarks ≠ [] →
     dGet nkvs "type" = some (.str "text") →
     (dGet nkvs "marks" = some (.arr nmarks) ∨
       (dGet nkvs "marks" = none ∧ nmarks = [])) →
     (∀ m ∈ omarks, ∃ kvs, m = JVal.obj kvs) →
     (∀ m ∈ nmarks, ∃ kvs, m = JVal.obj kvs) →
     ∃ res, replaceMergeContent (.obj okvs) (.obj nkvs) false true =
         .ok (.obj res) ∧
       dGet res "marks" = some (.arr (nmarks ++
         omarks.filter (fun m => decide (markTypeJ m ∉ nmarks.map markTypeJ)))) ∧
       (∀ k, k ≠ "marks" → dGet res k = dGet nkvs k)) := by
  constructor
  · intro h1 h2 h3
    obtain ⟨res, ha, hb, hc⟩ := replaceMerge_attrs okvs nkvs oa na h1 h2 h3
    exact ⟨res, ha, hb, fun hnd k => dGet_dMerge na oa k hnd, hc⟩
  · intro h1 h2 h3 h4 h5 h6
    exact replaceMerge_marks okvs nkvs omarks nmarks h1 h2 h3 h4 h5 h6

theorem claim_C1_witness :
    ∃ res, replaceMergeContent
        (.obj [("type", JVal.str "text"), ("text", JVal.str "old"),
               ("marks", JVal.arr [strongMark])])
        (.obj [("type", JVal.str "text"), ("text", JVal.str "new")])
        false true = .ok (.obj res) ∧
      dGet res "marks" = some (.arr (([] : List JVal) ++
        [strongMark].filter
          (fun m => decide (markTypeJ m ∉ ([] : List JVal).map markTypeJ)))) ∧
      (∀ k, k ≠ "marks" → dGet res k =
        dGet [("type", JVal.str "text"), ("text", JVal.str "new")] k) :=
  (claim_C1 [("type", JVal.str "text"), ("text", JVal.str "old"),
             ("marks", JVal.arr [strongMark])]
    [("type", JVal.str "text"), ("text", JVal.str "new")] [] []
    [strongMark] []).2
    (by decide) (by decide) (by decide) (Or.inr ⟨by decide, rfl⟩)
    (by intro m hm
        rw [List.mem_singleton] at hm
        exact ⟨[("type", JVal.str "strong")], by simp [hm, strongMark]⟩)
    (by intro m hm; exact absurd hm (List.not_mem_nil m))

theorem claim_C1_counterexample :
    replaceMergeContent
      (.obj [("type", JVal.str "text"), ("text", JVal.str "old"),
             ("marks", JVal.arr [strongMark, strongMark])])
      (.obj [("type", JVal.str "text"), ("text", JVal.str "new")])
      false true =
    .ok (.obj [("type", JVal.str "text"), ("text", JVal.str "new"),
               ("marks", JVal.arr [strongMark, strongMark])]) ∧
    ([strongMark, strongMark].countP
      (fun m => decide (markTypeJ m = some (JVal.str "strong"))) = 2) := by
  constructor
  · rfl
  · decide

/-- C2: `find_elements` dispatch — amended: each criteria key is tested for
*truthiness*, not presence, in the order json_path > text > node_type >
attributes > marks > index (`is not None`) > compound fallback.  Whenever
the `json_path` value is truthy, the JSONPath strategy alone answers the
call (lower-priority keys are never consulted); a falsy `json_path` such as
`""` falls through to the lower-priority keys even though the key is
present (see the counterexample). -/
theorem claim_C2 (crit : SearchCriteria) (doc : ADFDocumentModel)
    (limit : Option Nat) (ic : Bool) (h : truthyOpt crit.json_path = true) :
    findElements crit doc limit ic =
      findElements { json_path := crit.json_path } doc limit ic := by
  have h1 : critEmpty crit = false := critEmpty_false_of_jp crit h
  have h2 : critEmpty { json_path := crit.json_path } = false :=
    critEmpty_false_of_jp { json_path := crit.json_path } h
  simp only [findElements, h1, h2, Bool.false_eq_true, if_false, h, if_true]

/-- The criteria dict `{"json_path": "$.content[0]", "text": "ignored"}`. -/
def critJPIgnored : SearchCriteria :=
  { json_path := some (.str "$.content[0]"), text := some (.str "ignored") }

theorem claim_C2_witness :
    findElements critJPIgnored docHello none true =
      findElements { json_path := some (.str "$.content[0]") }
        docHello none true :=
  claim_C2 critJPIgnored docHello none true (by decide)

/-- The criteria dict `{"json_path": "", "text": "Hello"}` (a present but
falsy JSONPath). -/
def critJPEmptyText : SearchCriteria :=
  { json_path := some (.str ""), text := some (.str "Hello") }

/-- The criteria dict `{"json_path": ""}`. -/
def critJPEmpty : SearchCriteria := { json_path := some (.str "") }

theorem claim_C2_counterexample :
    findElements critJPEmptyText docHello none false ≠
      findElements critJPEmpty docHello none false := by
  have hL : findElements critJPEmptyText docHello none false =
      .ok [{ node := dumpNodeFull textHello, path := [0, 0], pathType := "text",
             textContent := some "Hello", parent := none, index := 0 }] := by
    simp +decide [findElements, critJPEmptyText, critEmpty, truthyOpt, truthy,
      docHello, paraHello, textHello, searchTextList, searchTextNode,
      textMatches, pyLower, dumpNodeFull, dumpNodeListFull, sortResults,
      insertSorted, sortKey, keyLe, hasTextB]
  have hR : findElements critJPEmpty docHello none false =
      .ok [{ node := dumpNodeFull paraHello, path := [0],
             pathType := "paragraph", textContent := none, parent := none,
             index := 0 },
           { node := dumpNodeFull textHello, path := [0, 0],
             pathType := "text", textContent := some "Hello", parent := none,
             index := 0 }] := by
    simp +decide [findElements, critJPEmpty, critEmpty, truthyOpt, truthy,
      docHello, paraHello, textHello, searchRecursive, searchPredList,
      searchPredNode, complexMatches, dumpNodeFull, dumpNodeListFull,
      sortResults, insertSorted, sortKey, keyLe, hasTextB]
  rw [hL, hR]
  intro hcontra
  simp at hcontra

/-- C3: for every well-formed document model (known node and mark types,
extras disjoint from the declared field names — the invariant maintained by
the §4.1 document operations), serialising with `to_dict` and re-parsing is
lossless: `parse(to_dict(d)).to_dict() == d.to_dict()` as Python dicts. -/
theorem claim_C3 (m : ADFDocumentModel) (h : wfDoc m = true) :
    pyDictEq (toDictPairs (parseLenient (toDict m))) (toDictPairs m) :=
  toDict_roundtrip m h

theorem claim_C3_witness :
    wfDoc docHello = true ∧
    pyDictEq (toDictPairs (parseLenient (toDict docHello)))
      (toDictPairs docHello) :=
  ⟨by simp +decide [wfDoc, wfNode, wfNodeList, wfMark, docHello, paraHello,
      textHello],
   claim_C3 docHello (by simp +decide [wfDoc, wfNode, wfNodeList, wfMark,
      docHello, paraHello, textHello])⟩

/-- C4: Document-model path errors.  An empty path makes read return `None`
and replace/delete return `False` with the document unchanged; the same for
any out-of-range path (an index past the length of the array at some hop);
insert instead clamps its index into `[0, len(parent)]` and succeeds. -/
theorem claim_C4 (doc : ADFDocumentModel) (path pp : List Nat) (raw : JVal)
    (nd : ADFNodeModel) (i : Int) (arr : List ADFNodeModel) :
    (getNodeByPath doc [] = .ok none ∧
     replaceElementAtPath doc [] raw = .ok (false, doc) ∧
     deleteElementAtPath doc [] = (false, doc)) ∧
    (pathOOR doc path = true →
      getNodeByPath doc path = .ok none ∧
      replaceElementAtPath doc path raw = .ok (false, doc) ∧
      deleteElementAtPath doc path = (false, doc)) ∧
    (parseNode raw = some nd → getParentAtPath doc pp = some arr →
      (max 0 (min i (arr.length : Int))).toNat ≤ arr.length ∧
      ∃ doc2, insertElementAtPath doc pp i raw = .ok (true, doc2) ∧
        getParentAtPath doc2 pp =
          some (arr.insertIdx (max 0 (min i (arr.length : Int))).toNat nd)) := by
  refine ⟨⟨getNodeByPath_nil doc, replaceElementAtPath_nil doc raw,
    deleteElementAtPath_nil doc⟩,
    fun h => ⟨getNodeByPath_oor doc path h,
      replaceElementAtPath_oor doc path raw h,
      deleteElementAtPath_oor doc path h⟩,
    fun hp hpar => ⟨by omega,
      insertElementAtPath_clamps doc pp i raw nd arr hp hpar⟩⟩

theorem claim_C4_witness :
    pathOOR docTwo [5] = true ∧
    (getNodeByPath docTwo [] = .ok none ∧
     replaceElementAtPath docTwo [] rawText = .ok (false, docTwo) ∧
     deleteElementAtPath docTwo [] = (false, docTwo)) ∧
    (getNodeByPath docTwo [5] = .ok none ∧
     replaceElementAtPath docTwo [5] rawText = .ok (false, docTwo) ∧
     deleteElementAtPath docTwo [5] = (false, docTwo)) ∧
    ∃ doc2, insertElementAtPath docTwo [] 999 rawText = .ok (true, doc2) ∧
      getParentAtPath doc2 [] =
        some (([paraHello, paraHello] : List ADFNodeModel).insertIdx 2 ndText) := by
  have hoor : pathOOR docTwo [5] = true := by decide
  obtain ⟨h1, h2, h3⟩ := claim_C4 docTwo [5] [] rawText ndText 999
    [paraHello, paraHello]
  obtain ⟨hle, doc2, hi1, hi2⟩ := h3 parseNode_rawText rfl
  refine ⟨hoor, h1, h2 hoor, doc2, hi1, ?_⟩
  rw [hi2]
  rfl

/-- C5: the conflict-retry loop.  Against a client that reports a version
conflict on every write attempt, a writer with `max_retries = n` and
auto-retry performs exactly `n + 1` full fetch→apply→write attempts —
attempt `k` applying the operations to the freshly fetched state
`fetch k`, never a stale copy — and then fails with a `RuntimeError`
naming the retry count. -/
theorem claim_C5 (fetch : Nat → JVal) (write : Nat → JVal → WriteResult)
    (applyOps : JVal → JVal) (maxRetries : Nat) (msg : String)
    (hconf : isConflictMsg msg = true)
    (hwrite : ∀ k d, write k d = .valueError msg) :
    updatePagePreservingFormatting fetch write applyOps maxRetries true =
      (.runtimeError ("Page update failed after " ++ toString maxRetries ++
        " retries: " ++ msg),
       (List.range (maxRetries + 1)).map (fun k => (k, applyOps (fetch k)))) := by
  rw [updatePagePreservingFormatting,
    updateLoopGo_conflict fetch write applyOps maxRetries msg hconf hwrite
      maxRetries 0 "None" (by omega), List.range_eq_range']

theorem claim_C5_witness :
    updatePagePreservingFormatting (fun _ => JVal.obj [])
      (fun _ _ => .valueError "Version conflict detected") (fun d => d)
      1 true =
    (.runtimeError "Page update failed after 1 retries: Version conflict detected",
     [(0, JVal.obj []), (1, JVal.obj [])]) := by
  rw [claim_C5 (fun _ => JVal.obj [])
    (fun _ _ => .valueError "Version conflict detected") (fun d => d) 1
    "Version conflict detected" (by decide) (fun k d => rfl)]
  rfl

/-- C6: insert_before / insert_after — amended: any target path of length
*less than two* (the document root and also every top-level child of the
root) is rejected with 0 elements applied; for a target path of length at
least two the node is inserted into the target's sibling array at the
target's index (before) or the target's index plus one (after), via the
document's clamped insert. -/
theorem claim_C6 (doc : ADFDocumentModel) (path : List Nat) (raw : JVal)
    (nd : ADFNodeModel) (arr : List ADFNodeModel) :
    (path.length < 2 →
      applyInsertBeforeOperation doc path raw = .ok (0, doc) ∧
      applyInsertAfterOperation doc path raw = .ok (0, doc)) ∧
    (2 ≤ path.length → parseNode raw = some nd →
      getParentAtPath doc path.dropLast = some arr →
      (∃ doc2, ∃ hne : path ≠ [],
        applyInsertBeforeOperation doc path raw = .ok (1, doc2) ∧
        getParentAtPath doc2 path.dropLast =
          some (arr.insertIdx
            (max 0 (min ((path.getLast hne : Nat) : Int)
              (arr.length : Int))).toNat nd)) ∧
      (∃ doc2, ∃ hne : path ≠ [],
        applyInsertAfterOperation doc path raw = .ok (1, doc2) ∧
        getParentAtPath doc2 path.dropLast =
          some (arr.insertIdx
            (max 0 (min (((path.getLast hne : Nat) : Int) + 1)
              (arr.length : Int))).toNat nd))) :=
  ⟨fun h => ⟨applyInsertBefore_shortpath doc path raw h,
             applyInsertAfter_shortpath doc path raw h⟩,
   fun h1 h2 h3 => ⟨applyInsertBefore_ok doc path raw nd arr h1 h2 h3,
                    applyInsertAfter_ok doc path raw nd arr h1 h2 h3⟩⟩

theorem claim_C6_witness :
    (∃ doc2, ∃ hne : ([0, 0] : List Nat) ≠ [],
      applyInsertBeforeOperation docTwo [0, 0] rawText = .ok (1, doc2) ∧
      getParentAtPath doc2 ([0, 0] : List Nat).dropLast =
        some (([textHello] : List ADFNodeModel).insertIdx
          (max 0 (min ((([0, 0] : List Nat).getLast hne : Nat) : Int)
            (([textHello] : List ADFNodeModel).length : Int))).toNat ndText)) ∧
    (∃ doc2, ∃ hne : ([0, 0] : List Nat) ≠ [],
      applyInsertAfterOperation docTwo [0, 0] rawText = .ok (1, doc2) ∧
      getParentAtPath doc2 ([0, 0] : List Nat).dropLast =
        some (([textHello] : List ADFNodeModel).insertIdx
          (max 0 (min (((([0, 0] : List Nat).getLast hne : Nat) : Int) + 1)
            (([textHello] : List ADFNodeModel).length : Int))).toNat ndText)) :=
  (claim_C6 docTwo [0, 0] rawText ndText [textHello]).2 (by decide)
    parseNode_rawText rfl

theorem claim_C6_counterexample :
    ([0] : List Nat) ≠ [] ∧
    applyInsertBeforeOperation docTwo [0] rawText = .ok (0, docTwo) ∧
    applyInsertAfterOperation docTwo [0] rawText = .ok (0, docTwo) :=
  ⟨by decide, rfl, rfl⟩

/-- C7: update_text.  Against a missing target or any node whose type is
not `"text"` it applies to 0 elements and leaves the document unchanged;
against a text node it succeeds, and the updated node differs from the old
one only in its `text` field (type, attrs, content, marks and extras are
all preserved), while every node at a path that is neither an ancestor nor
a descendant of the target reads back unchanged. -/
theorem claim_C7 (doc : ADFDocumentModel) (path : List Nat)
    (el : ADFNodeModel) (s : String) :
    (getNodeByPath doc path = .ok none →
      applyUpdateTextOperation doc path s = .ok (0, doc)) ∧
    (getNodeByPath doc path = .ok (some el) → el.type ≠ "text" →
      applyUpdateTextOperation doc path s = .ok (0, doc)) ∧
    (getNodeByPath doc path = .ok (some el) → el.type = "text" →
      (el.withText s).type = el.type ∧
      (el.withText s).attrs = el.attrs ∧
      (el.withText s).content = el.content ∧
      (el.withText s).marks = el.marks ∧
      (el.withText s).extra = el.extra ∧
      (el.withText s).text = some s ∧
      ∃ doc2, applyUpdateTextOperation doc path s = .ok (1, doc2) ∧
        getNodeByPath doc2 path = .ok (some (el.withText s)) ∧
        ∀ q, ¬ (q <+: path) → ¬ (path <+: q) →
          getNodeByPath doc2 q = getNodeByPath doc q) :=
  ⟨applyUpdateText_none doc path s,
   fun h ht => applyUpdateText_nontext doc path el s h ht,
   fun h ht => ⟨ADFNodeModel.withText_type el s, ADFNodeModel.withText_attrs el s,
     ADFNodeModel.withText_content el s, ADFNodeModel.withText_marks el s,
     ADFNodeModel.withText_extra el s, ADFNodeModel.withText_text el s,
     applyUpdateText_success doc path el s h ht⟩⟩

theorem claim_C7_witness :
    (textHello.withText "New").type = textHello.type ∧
    (textHello.withText "New").attrs = textHello.attrs ∧
    (textHello.withText "New").content = textHello.content ∧
    (textHello.withText "New").marks = textHello.marks ∧
    (textHello.withText "New").extra = textHello.extra ∧
    (textHello.withText "New").text = some "New" ∧
    ∃ doc2, applyUpdateTextOperation docTwo [0, 0] "New" = .ok (1, doc2) ∧
      getNodeByPath doc2 [0, 0] = .ok (some (textHello.withText "New")) ∧
      ∀ q, ¬ (q <+: ([0, 0] : List Nat)) → ¬ (([0, 0] : List Nat) <+: q) →
        getNodeByPath doc2 q = getNodeByPath docTwo q :=
  (claim_C7 docTwo [0, 0] textHello "New").2.2 rfl rfl

/-- C8: the depth limit.  For any clean document dict (well-shaped nodes as
produced by a dump) with `version: 1`, `type: "doc"` and a content list,
validation terminates with an error list that contains the max-depth error
exactly when the nesting depth of the content tree exceeds `MAX_DEPTH = 20`
— deeper trees (e.g. 25 levels) are flagged without crashing, trees of
depth at most 20 get no max-depth error. -/
theorem claim_C8 (kvs : List (String × JVal)) (nodes : List JVal)
    (hv : dGet kvs "version" = some (.num 1))
    (ht : dGet kvs "type" = some (.str "doc"))
    (hc : dGet kvs "content" = some (.arr nodes))
    (hcl : cleanNodeList nodes = true) :
    ∃ errs, validateDocument (.obj kvs) = (errs.isEmpty, errs) ∧
      (VErr.maxDepthExceeded ∈ errs ↔ listArrH nodes > 20) :=
  validateDocument_depth kvs nodes hv ht hc hcl

theorem claim_C8_witness :
    ∃ errs,
      validateDocument (.obj [("version", JVal.num 1),
        ("type", JVal.str "doc"),
        ("content", JVal.arr [deepNode 24])]) = (errs.isEmpty, errs) ∧
      VErr.maxDepthExceeded ∈ errs := by
  obtain ⟨errs, h1, h2⟩ := claim_C8
    [("version", JVal.num 1), ("type", JVal.str "doc"),
     ("content", JVal.arr [deepNode 24])] [deepNode 24] rfl rfl rfl
    (by simp [cleanNodeList, cleanNode_deepNode 24])
  refine ⟨errs, h1, h2.mpr ?_⟩
  simp [listArrH, nodeArrH_deepNode 24]

/-- C9: the criteria `{"text": 123}` — non-empty but with a non-string
`text` value — make `find_elements` raise (the code calls
`text_query.lower()` on the value unconditionally, and no handler catches
the resulting `AttributeError`) instead of degrading to an empty result
list as the spec requires. -/
theorem claim_C9 (doc : ADFDocumentModel) (limit : Option Nat) (ic : Bool) :
    findElements { text := some (.num 123) } doc limit ic = .error () := rfl

/-- C10: any input dict whose content tree contains a node of unknown type
(or a mark of unknown type) fails Pydantic validation as a whole, so the
lenient constructor falls back to the empty document and `to_dict()`
afterwards returns exactly `{"version": 1, "type": "doc", "content": []}` —
the entire content is discarded, not just the offending node. -/
theorem claim_C10 (j : JVal) (h : docContentHasUnknown j = true) :
    toDict (parseLenient j) =
      .obj [("version", JVal.num 1), ("type", JVal.str "doc"),
            ("content", JVal.arr [])] := by
  rw [parseLenient, parseDoc_none_of_unknown j h]
  simp +decide [toDict, toDictPairs, dumpDocPairs, emptyDocModel, optSeg,
    setVal, dumpNodeList, dGet_cons, dGet_nil]

/-- The raw dict of a document whose only content node has the unknown type
`"bogusNode"`. -/
def unknownDoc : JVal :=
  .obj [("version", JVal.num 1), ("type", JVal.str "doc"),
        ("content", JVal.arr [JVal.obj [("type", JVal.str "bogusNode")]])]

theorem claim_C10_witness :
    docContentHasUnknown unknownDoc = true ∧
    toDict (parseLenient unknownDoc) =
      .obj [("version", JVal.num 1), ("type", JVal.str "doc"),
            ("content", JVal.arr [])] := by
  have h : docContentHasUnknown unknownDoc = true := by
    simp +decide [unknownDoc, docContentHasUnknown, contentHasUnknown,
      nodeListHasUnknown, nodeHasUnknown, markBad, dGet_cons, dGet_nil,
      nodeTypes]
  exact ⟨h, claim_C10 unknownDoc h⟩

end ADF
